import Mathlib

/-!
# sw: command-line client, target data, integration emitters

A shallow embedding of the parts of the `sw` sources that the specification
talks about, followed by the theorems that settle the specification's claims.

* `src/client/client.cpp`: `main1`, `main_setup`, `sw_main`, `parseCmd`,
  the `uri` subcommand and its four handlers.
* `src/sw/core/target.cpp`: `TargetData::find`, `loadPackages`, `setEntryPoint`.
* `src/sw/core/driver.h`: the class `Specification`.
* `src/sw/client/common/command/integrate.cpp`: the subcommand `integrate`
  with the CMake and waf emitters.
* `src/sw/client/common/command/server.cpp`: the subcommand `server`.

Conventions: `std::string` is `String`; a C++ function that may throw returns
`Except Thrown _`; global state touched by the client is the record `World`,
passed explicitly.
-/

set_option autoImplicit false

namespace Sw

/-! ## Exceptions -/

/-- Classes of `std::exception` the modelled code raises or lets through. -/
inductive ExceptionKind where
  | runtime_error
  | unimplemented
  | args_help
  | args_parse_error
  | args_map_error
  | other
deriving DecidableEq, Repr

/-- What a C++ call may throw, as `main1` distinguishes it: `SupressOutputException`,
anything derived from `std::exception` (with its `what()` text), or anything else. -/
inductive Thrown where
  | SupressOutputException
  | std_exception (kind : ExceptionKind) (what : String)
  | unknown
deriving DecidableEq, Repr

deriving instance DecidableEq for Except

/-- The exception `SW_RUNTIME_ERROR(msg)` throws. -/
def SW_RUNTIME_ERROR (msg : String) : Thrown := .std_exception .runtime_error msg

/-- The exception `SW_UNIMPLEMENTED` throws. -/
def SW_UNIMPLEMENTED : Thrown := .std_exception .unimplemented "not implemented"

/-! ## Global state of the client -/

/-- A file-system path, by components. -/
abbrev Path := List String

/-- A package of the client (`extractFromString` result): path and version text. -/
structure Package where
  ppath : String
  version : String
deriving DecidableEq, Repr

/-- The fields of `Settings::get_user_settings()` that `client.cpp` writes
(`configuration` holds the integer as the text it was given in). -/
structure UserSettings where
  force_server_query : Bool
  explain_outdated : Bool
  print_commands : Bool
  configuration : String
deriving DecidableEq, Repr

/-- Everything outside the call stack that `client.cpp` reads or writes. -/
structure World where
  installed_packages : List Package
  files : List Path
  user_settings : UserSettings
  current_path : String
  thread_path : Path
  log_level : String
  bUseSystemPause : Bool
deriving DecidableEq, Repr

/-- Type of a subcommand: program name, remaining arguments, then the state. -/
abbrev command_type := String → List String → World → Except Thrown World

/-! ## The argument parser library (args.hxx) -/

/-- Kinds of option an `args::ArgumentParser` of `client.cpp` holds. -/
inductive FlagKind where
  | help
  | flag
  | value
  | int_value
deriving DecidableEq, Repr

/-- One declared option: `args::HelpFlag`, `args::Flag`, `args::ValueFlag<std::string>`
or `args::ValueFlag<int>`. -/
structure FlagDecl where
  name : String
  shorts : List Char
  longs : List String
  kind : FlagKind
deriving DecidableEq, Repr

/-- The positional of a parser: how a token is turned into the positional's
value (`none`: the key is not in the map of a `MapPositional`) and whether
`KickOut(true)` was set on it. -/
structure PositionalDecl (α : Type) where
  lookup : String → Option α
  kickOut : Bool

/-- Result of a parse: matched options with their values, and the positional. -/
structure Parsed (α : Type) where
  flags : List (String × String)
  positional : Option (String × α)

/-- Nothing matched yet. -/
def Parsed.empty {α : Type} : Parsed α := { flags := [], positional := none }

/-- Whether the option called `name` was matched. -/
def Parsed.matched {α : Type} (p : Parsed α) (name : String) : Bool :=
  p.flags.any (fun f => f.1 == name)

/-- Value given to the option called `name` (`Get()`), empty when unmatched. -/
def Parsed.get {α : Type} (p : Parsed α) (name : String) : String :=
  match p.flags.reverse.find? (fun f => f.1 == name) with
  | some f => f.2
  | none => ""

/-- Record a matched option. -/
def Parsed.add {α : Type} (p : Parsed α) (name value : String) : Parsed α :=
  { p with flags := p.flags ++ [(name, value)] }

/-- The option with long name `n`, if declared. -/
def findLong (flags : List FlagDecl) (n : String) : Option FlagDecl :=
  flags.find? (fun f => f.longs.contains n)

/-- The option with short name `c`, if declared. -/
def findShort (flags : List FlagDecl) (c : Char) : Option FlagDecl :=
  flags.find? (fun f => f.shorts.contains c)

/-- The `args::Help` exception; its text is the name of the help option. -/
def argsHelp (name : String) : Thrown := .std_exception .args_help name

/-- An `args::ParseError`. -/
def argsParseError (msg : String) : Thrown := .std_exception .args_parse_error msg

/-- An `args::MapError`. -/
def argsMapError (key : String) : Thrown :=
  .std_exception .args_map_error ("Could not find key \x27" ++ key ++ "\x27 in map")

/-- Whether a text reads as a decimal integer: an optional sign, then digits. -/
def isIntText (v : String) : Bool :=
  match v.data with
  | '-' :: d :: ds => (d :: ds).all Char.isDigit
  | '+' :: d :: ds => (d :: ds).all Char.isDigit
  | d :: ds => (d :: ds).all Char.isDigit
  | [] => false

/-- Give the value option `f` the value `v`; a `ValueFlag<int>` rejects a text
that is not an integer. -/
def setValue {α : Type} (f : FlagDecl) (v : String) (st : Parsed α) : Except Thrown (Parsed α) :=
  if f.kind = .int_value ∧ isIntText v = false then
    .error (argsParseError ("Argument \x27" ++ f.name ++ "\x27 received invalid value type \x27" ++ v ++ "\x27"))
  else .ok (st.add f.name v)

/-- Outcome of reading a cluster of short options such as `-sv`: the options
matched, and a value option still waiting for its value (to be taken from the
next token). -/
def parseShortCluster {α : Type} (flags : List FlagDecl) :
    List Char → Parsed α → Except Thrown (Parsed α × Option FlagDecl)
  | [], st => .ok (st, none)
  | c :: cs, st =>
    match findShort flags c with
    | none => .error (argsParseError ("Flag could not be matched: " ++ String.mk [c]))
    | some f =>
      match f.kind with
      | .help => .error (argsHelp f.name)
      | .flag => parseShortCluster flags cs (st.add f.name "")
      | _ =>
        if cs.isEmpty then .ok (st, some f)
        else
          match setValue f (String.mk cs) st with
          | .error e => .error e
          | .ok st2 => .ok (st2, none)

/-- Modelled from the spec: `args::ArgumentParser::ParseArgs` of the args.hxx
library, which is not among the sources. Tokens are read left to right; `--`
ends option parsing; a token `--name` or `--name=value` is a long option, a
token `-abc` a cluster of short options, any other token goes to the
positional. An undeclared option, a second positional token, or a key missing
from the map of a `MapPositional` raises an error; the help option raises
`Help`. A positional with `KickOut` stops the parse: the tokens after it are
returned untouched (the spec: all remaining tokens are forwarded verbatim).
The fourth argument is a value option whose value is the next token. -/
def ParseArgsFrom {α : Type} (flags : List FlagDecl) (pos : PositionalDecl α) :
    Bool → Option FlagDecl → Parsed α → List String → Except Thrown (Parsed α × List String)
  | _, none, st, [] => .ok (st, [])
  | _, some w, _, [] =>
    .error (argsParseError ("Flag requires an argument but received none: " ++ w.name))
  | terminated, some w, st, v :: rest =>
    match setValue w v st with
    | .error e => .error e
    | .ok st2 => ParseArgsFrom flags pos terminated none st2 rest
  | terminated, none, st, chunk :: rest =>
    if !terminated && chunk == "--" then ParseArgsFrom flags pos true none st rest
    else
      match terminated, chunk.data with
      | false, '-' :: '-' :: body =>
        let name := String.mk (body.takeWhile (fun c => c != '='))
        match findLong flags name with
        | none => .error (argsParseError ("Flag could not be matched: " ++ name))
        | some f =>
          match f.kind, body.dropWhile (fun c => c != '=') with
          | .help, _ => .error (argsHelp f.name)
          | .flag, [] => ParseArgsFrom flags pos terminated none (st.add f.name "") rest
          | .flag, _ :: _ =>
            .error (argsParseError ("Passed an argument into a non-argument flag: " ++ chunk))
          | _, _ :: v =>
            match setValue f (String.mk v) st with
            | .error e => .error e
            | .ok st2 => ParseArgsFrom flags pos terminated none st2 rest
          | _, [] => ParseArgsFrom flags pos terminated (some f) st rest
      | false, '-' :: c :: cs =>
        match parseShortCluster flags (c :: cs) st with
        | .error e => .error e
        | .ok (st2, waiting) => ParseArgsFrom flags pos terminated waiting st2 rest
      | _, _ =>
        match st.positional with
        | some _ =>
          .error (argsParseError
            ("Passed in argument, but no positional arguments were ready to receive it: " ++ chunk))
        | none =>
          match pos.lookup chunk with
          | none => .error (argsMapError chunk)
          | some v =>
            if pos.kickOut then .ok ({ st with positional := some (chunk, v) }, rest)
            else ParseArgsFrom flags pos terminated none { st with positional := some (chunk, v) } rest

/-- The call `parser.ParseArgs(tokens)`: the parse from a fresh parser, giving
what was matched and the position `next` (the tokens not consumed). -/
def ParseArgs {α : Type} (flags : List FlagDecl) (pos : PositionalDecl α) (tokens : List String) :
    Except Thrown (Parsed α × List String) :=
  ParseArgsFrom flags pos false none Parsed.empty tokens

/-- The help option every parser of `client.cpp` declares: `-h`, `--help`. -/
def helpFlag : FlagDecl := { name := "help", shorts := ['h'], longs := ["help"], kind := .help }

/-- An `args::MapPositional` over `map` with `KickOut(true)`. -/
def MapPositional {α : Type} (map : List (String × α)) : PositionalDecl α :=
  { lookup := fun k => (map.find? (fun e => e.1 == k)).map Prod.snd, kickOut := true }

/-- An `args::Positional<std::string>`: every token is its own value. -/
def Positional : PositionalDecl String := { lookup := fun k => some k, kickOut := false }

/-! ## client.cpp -/

/-- What `client.cpp` calls but does not define: platform, package store,
resolver, builder and the table of subcommands of `commands.inl`. -/
structure ClientExt where
  win32 : Bool
  ndebug : Bool
  commands : List (String × command_type)
  help : String
  getServiceDatabase : World → Except Thrown World
  extractFromString : String → Except Thrown Package
  resolve : Package → World → Except Thrown (Package × World)
  getDir : Package → Path
  resolve_dependencies : List Package → World → Except Thrown World
  build : Path → World → Except Thrown (Bool × World)
  set_current_path : String → World → Except Thrown World
  storage_dir_tmp : Path

/-- The function `setup_log`: the logger is set up again at the given level. -/
def setup_log (log_level : String) (w : World) : World := { w with log_level := log_level }

/-- Tokens of one argument under `boost::split_regex(t, a, boost::regex("%20"))`:
the text is scanned left to right; at each leftmost match of the literal
`%20` the token collected so far is closed and the scan goes on after the
match; the end of the text closes the last token. The first argument is the
token collected so far, in reverse. -/
def split_regex_from (cur : List Char) : List Char → List (List Char)
  | [] => [cur.reverse]
  | '%' :: '2' :: '0' :: rest => cur.reverse :: split_regex_from [] rest
  | c :: cs => split_regex_from (c :: cur) cs

/-- The call `boost::split_regex(t, a, boost::regex("%20"))`. -/
def split_regex (a : String) : List String := (split_regex_from [] a.data).map String.mk

/-- The token list `args` that `parseCmd` builds from `argv`: every argument
after the program name is split and its tokens are appended. -/
def parseCmd_args (argv : List String) : List String :=
  (argv.drop 1).foldl (fun args a => args ++ split_regex a) []

/-- The options that `parseCmd` declares on its parser. -/
def parseCmd_flags : List FlagDecl :=
  [ helpFlag,
    { name := "server", shorts := ['s'], longs := [], kind := .flag },
    { name := "working_directory", shorts := ['d'], longs := [], kind := .value },
    { name := "configuration", shorts := ['c'], longs := [], kind := .int_value },
    { name := "explain_outdated", shorts := [], longs := ["explain"], kind := .flag },
    { name := "print_commands", shorts := [], longs := ["commands"], kind := .flag },
    { name := "verbose", shorts := ['v'], longs := ["verbose"], kind := .flag },
    { name := "trace", shorts := [], longs := ["trace"], kind := .flag } ]

/-- The option handling of `parseCmd` between the parse and the dispatch. -/
def parseCmd_options (ext : ClientExt) (st : Parsed command_type) (w : World) : Except Thrown World :=
  let w := if st.matched "verbose" then setup_log "DEBUG" w else w
  let w := if st.matched "trace" then setup_log "TRACE" w else w
  let w := if st.matched "server" then
    { w with user_settings := { w.user_settings with force_server_query := true } } else w
  match (if st.matched "working_directory" then ext.set_current_path (st.get "working_directory") w
         else .ok w) with
  | .error e => .error e
  | .ok w =>
    let w := if st.matched "explain_outdated" then
      { w with user_settings := { w.user_settings with explain_outdated := true } } else w
    let w := if st.matched "print_commands" then
      { w with user_settings := { w.user_settings with print_commands := true } } else w
    let w := if st.matched "configuration" then
      { w with user_settings := { w.user_settings with configuration := st.get "configuration" } } else w
    .ok w

/-- The function `parseCmd`. -/
def parseCmd (ext : ClientExt) (argv : List String) (w : World) :
    Except Thrown ((Bool × String) × World) :=
  match ParseArgs parseCmd_flags (MapPositional ext.commands) (parseCmd_args argv) with
  | .error e => .error e
  | .ok (st, next) =>
    match parseCmd_options ext st w with
    | .error e => .error e
    | .ok w =>
      match st.positional with
      | some (_, command) =>
        match command (argv.headD "") next w with
        | .error e => .error e
        | .ok w => .ok ((true, ""), w)
      | none => .ok ((false, ext.help), w)

/-- The function `sw_main`. -/
def sw_main (ext : ClientExt) (argv : List String) (w : World) : Except Thrown (Int × World) :=
  match parseCmd ext argv w with
  | .error e => .error e
  | .ok (r, w) =>
    if !r.1 then
      match ext.build w.thread_path w with
      | .error e => .error e
      | .ok (_, w) => .ok (0, w)
    else .ok (0, w)

/-- The function `main_setup`. -/
def main_setup (ext : ClientExt) (argv : List String) (w : World) : Except Thrown (Int × World) :=
  let w := if ext.ndebug then setup_log "INFO" w else setup_log "DEBUG" w
  match ext.getServiceDatabase w with
  | .error e => .error e
  | .ok w => sw_main ext argv w

/-- The tail of `main1` after the try block: the exit code from `r`, the error
text and the `supress` mark. -/
def main1_result (r : Int) (error : String) (supress : Bool) : Int :=
  if error ≠ "" ∨ supress = true then 1 else r

/-- The function `main1`: the exit code of the process. -/
def main1 (ext : ClientExt) (argv : List String) (w : World) : Int :=
  match main_setup ext argv w with
  | .ok (r, _) => main1_result r "" false
  | .error .SupressOutputException => main1_result 0 "" true
  | .error (.std_exception _ what) => main1_result 0 what false
  | .error .unknown => main1_result 0 "Unhandled unknown exception\n" false

/-! ### The uri subcommand -/

/-- Modelled from the spec: `ServiceDatabase::removeInstalledPackage`, which is
not among the sources: the record of `p` leaves the installed packages. -/
def removeInstalledPackage (p : Package) (w : World) : World :=
  { w with installed_packages := w.installed_packages.filter (fun q => decide (q ≠ p)) }

/-- The call `fs::remove_all(dir)`: `dir` and everything below it is deleted. -/
def remove_all (dir : Path) (w : World) : World :=
  { w with files := w.files.filter (fun f => !dir.isPrefixOf f) }

/-- The call `fs::create_directories(d)`: `d` and its missing ancestors appear. -/
def create_directories (d : Path) (w : World) : World :=
  { w with files := w.files ++
      ((List.range d.length).map (fun i => d.take (i + 1))).filter (fun a => !w.files.contains a) }

/-- The handler `cli_uri_sdir`: its body is commented out. -/
def cli_uri_sdir (_ext : ClientExt) : command_type :=
  fun _progname _args w => .ok w

/-- The handler `cli_uri_install`. -/
def cli_uri_install (ext : ClientExt) : command_type :=
  fun _progname args w =>
    match ParseArgs [helpFlag] Positional args with
    | .error e => .error e
    | .ok (st, _) =>
      match st.positional with
      | none => .ok w
      | some (_, package) =>
        match ext.extractFromString package with
        | .error e => .error e
        | .ok p =>
          match ext.resolve p w with
          | .error e => .error e
          | .ok (p_real, w) =>
            match ext.getServiceDatabase w with
            | .error e => .error e
            | .ok w =>
              if ext.win32 then
                if !w.installed_packages.contains p_real then
                  ext.resolve_dependencies [p] { w with bUseSystemPause := true }
                else .ok w
              else .ok w

/-- The handler `cli_uri_remove`. -/
def cli_uri_remove (ext : ClientExt) : command_type :=
  fun _progname args w =>
    match ParseArgs [helpFlag] Positional args with
    | .error e => .error e
    | .ok (st, _) =>
      match st.positional with
      | none => .ok w
      | some (_, package) =>
        match ext.extractFromString package with
        | .error e => .error e
        | .ok p0 =>
          match ext.resolve p0 w with
          | .error e => .error e
          | .ok (p, w) =>
            match ext.getServiceDatabase w with
            | .error e => .error e
            | .ok w => .ok (remove_all (ext.getDir p) (removeInstalledPackage p w))

/-- The handler `cli_uri_build`. -/
def cli_uri_build (ext : ClientExt) : command_type :=
  fun _progname args w =>
    match ParseArgs [helpFlag] Positional args with
    | .error e => .error e
    | .ok (st, _) =>
      match st.positional with
      | none => .ok w
      | some (_, package) =>
        match ext.extractFromString package with
        | .error e => .error e
        | .ok p =>
          let w := if ext.win32 then { w with bUseSystemPause := true } else w
          let d := ext.storage_dir_tmp ++ ["build"]
          let w := create_directories d w
          let w := { w with thread_path := d }
          ext.resolve_dependencies [p] w

/-- The dispatch table of `cli_uri`: `ADD_COMMAND(c)` is the pair of the key
`"sw:" #c` and the handler `cli_uri_c`. -/
def cli_uri_map (ext : ClientExt) : List (String × command_type) :=
  [ ("sw:sdir", cli_uri_sdir ext),
    ("sw:install", cli_uri_install ext),
    ("sw:remove", cli_uri_remove ext),
    ("sw:build", cli_uri_build ext) ]

/-- The subcommand `cli_uri`. -/
def cli_uri (ext : ClientExt) : command_type :=
  fun progname args w =>
    match ParseArgs [helpFlag] (MapPositional (cli_uri_map ext)) args with
    | .error e => .error e
    | .ok (st, next) =>
      match st.positional with
      | some (_, command) => command progname next w
      | none => .ok w

/-! ## target.cpp -/

/-- The algorithm `std::find_if`: the first position whose element satisfies
`p`; the length of the list (the position `end()`) when there is none. -/
def find_if {T : Type} (p : T → Bool) : List T → Nat
  | [] => 0
  | t :: ts => if p t then 0 else find_if p ts + 1

/-- The class `TargetData`: a container of targets (its base class) and the
entry point `ep`, a possibly null pointer. -/
structure TargetData (T EP : Type) where
  targets : List T
  ep : Option EP

/-- The non-const overload of `TargetData::find`; `eq t s` is `*t == s`. -/
def TargetData.find {T EP S : Type} (eq : T → S → Bool) (td : TargetData T EP) (s : S) : Nat :=
  find_if (fun t => eq t s) td.targets

/-- The const overload of `TargetData::find`. -/
def TargetData.find_const {T EP S : Type} (eq : T → S → Bool) (td : TargetData T EP) (s : S) : Nat :=
  find_if (fun t => eq t s) td.targets

/-- The function `TargetData::setEntryPoint`: `ep` takes the given pointer. -/
def TargetData.setEntryPoint {T EP : Type} (td : TargetData T EP) (e : Option EP) : TargetData T EP :=
  { td with ep := e }

/-- How a call of `TargetData::loadPackages` can fail: by the error it raises
itself, or by whatever the entry point raised. -/
inductive LoadError (E : Type) where
  | runtime_error (msg : String)
  | from_entry_point (e : E)
deriving DecidableEq, Repr

/-- The function `TargetData::loadPackages`. The entry points are told apart by
`EP`; `run e whitelist` is what `e->loadPackages(whitelist)` does. The second
component lists the calls made on entry points, in order. -/
def TargetData.loadPackages {T EP WL E : Type} (run : EP → WL → Except E Unit)
    (td : TargetData T EP) (whitelist : WL) : Except (LoadError E) Unit × List (EP × WL) :=
  match td.ep with
  | none => (.error (.runtime_error "No entry point provided"), [])
  | some e =>
    match run e whitelist with
    | .error err => (.error (.from_entry_point err), [(e, whitelist)])
    | .ok () => (.ok (), [(e, whitelist)])

/-! ## driver.h -/

/-- The assignment `m[k] = v` on a `std::map`, held as its entries in ascending
key order: the entry of `k` is replaced, or put in at its place in the order. -/
def map_insert {K V : Type} [LinearOrder K] (k : K) (v : V) : List (K × V) → List (K × V)
  | [] => [(k, v)]
  | (k0, v0) :: rest =>
    if k < k0 then (k, v) :: (k0, v0) :: rest
    else if k = k0 then (k, v) :: rest
    else (k0, v0) :: map_insert k v rest

/-- The class `Specification`: its member `files`, a `std::map<path, String>`. -/
structure Specification (K : Type) where
  files : List (K × String)

/-- A `Specification` without files. -/
def Specification.empty {K : Type} : Specification K := { files := [] }

/-- Modelled from the spec: `Specification::addFile`, declared in `driver.h`
but defined outside the sources: the contents are stored in `files` under the
relative path. -/
def Specification.addFile {K : Type} [LinearOrder K] (sp : Specification K) (relative_path : K)
    (contents : String) : Specification K :=
  { files := map_insert relative_path contents sp.files }

/-- Modelled from the spec: `Specification::getHash`, declared in `driver.h`
but defined outside the sources: the hash of the files as serialized, that is,
taken in the order of the map (`hash` is the hash of such a serialization). -/
def Specification.getHash {K : Type} (hash : List (K × String) → Int) (sp : Specification K) : Int :=
  hash sp.files

/-- The `Specification` after a sequence of `addFile` calls, starting empty. -/
def addFiles {K : Type} [LinearOrder K] (l : List (K × String)) : Specification K :=
  l.foldl (fun sp e => sp.addFile e.1 e.2) Specification.empty

/-! ## integrate.cpp -/

/-- The enumeration `sw::ConfigurationType`; `other` stands for every
enumerator besides the four that `toCmakeString` names. -/
inductive ConfigurationType where
  | Debug
  | MinimalSizeRelease
  | ReleaseWithDebugInformation
  | Release
  | other (n : Nat)
deriving DecidableEq, Repr

/-- The function `toCmakeString`. -/
def toCmakeString : ConfigurationType → Except Thrown String
  | .Debug => .ok "DEBUG"
  | .MinimalSizeRelease => .ok "MINSIZEREL"
  | .ReleaseWithDebugInformation => .ok "RELWITHDEBINFO"
  | .Release => .ok "RELEASE"
  | .other _ => .error SW_UNIMPLEMENTED

/-- The call `boost::to_lower_copy`. -/
def to_lower_copy (s : String) : String := String.mk (s.data.map Char.toLower)

/-- The function `toCmakeStringCapital`. -/
def toCmakeStringCapital (t : ConfigurationType) : Except Thrown String :=
  match toCmakeString t with
  | .error e => .error e
  | .ok s =>
    match (to_lower_copy s).data with
    | c :: cs => .ok (String.mk (c.toUpper :: cs))
    | [] => .ok ""

/-- The function `pkg2string` on a string. -/
def pkg2string (p : String) : String := to_lower_copy p

/-- The lambda `fix_path` of `cli_integrate`, with the captured flag `cygwin`. -/
def fix_path (cygwin : Bool) (p : String) : String :=
  if !cygwin then p
  else
    match p.data with
    | p0 :: p1 :: p2 :: rest =>
      if p1 != ':' then p
      else
        let s2 := String.mk [p0.toLower]
        let s2 := if p2 != '/' then s2 ++ "/" else s2
        let s2 := "cygdrive/" ++ s2
        "/" ++ s2 ++ String.mk (p2 :: rest)
    | _ => p

/-- Modelled from the spec: the class `Version` (not among the sources): the
numeric components and, for a branch, its name. -/
structure Version where
  numbers : List Nat
  branch : Option String
deriving DecidableEq, Repr

/-- Modelled from the spec: `Version::isVersion`, false for a branch. -/
def Version.isVersion (v : Version) : Bool := v.branch.isNone

/-- Modelled from the spec: `Version::getLevel`, the number of numeric components. -/
def Version.getLevel (v : Version) : Nat := v.numbers.length

/-- Modelled from the spec: `Version::toString(level)`, the version truncated
to `level` components (the name, for a branch). -/
def Version.toString (v : Version) (level : Nat) : String :=
  match v.branch with
  | some name => name
  | none => ".".intercalate ((v.numbers.take level).map (fun n => String.mk (Nat.toDigits 10 n)))

/-- The class `PackageId`: a package path and a version. -/
structure PackageId where
  path : String
  version : Version
deriving DecidableEq, Repr

/-- Modelled from the spec: `PackageId::toString`, path and full version. -/
def PackageId.toString (p : PackageId) : String :=
  p.path ++ "-" ++ p.version.toString p.version.getLevel

/-- The keys of `TargetSettings` that `cli_integrate` reads or writes by name;
`rest` holds the others. -/
structure TargetSettings where
  os_kernel : String
  native_configuration : String
  rest : List (String × String)
deriving DecidableEq, Repr

/-- The interface settings of a target, by the keys `cli_integrate` reads:
`s["type"]`, `s["header_only"]`, `s["definitions"]`, `s["include_directories"]`,
`s["link_libraries"]`, `s["system_link_libraries"]`, `s["import_library"]`,
`s["output_file"]` and `s["dependencies"]["link"]`. -/
structure InterfaceSettings where
  type : String
  header_only : String
  definitions : List (String × String)
  include_directories : List String
  link_libraries : List String
  system_link_libraries : List String
  import_library : String
  output_file : String
  dependencies_link : List (String × TargetSettings)
deriving DecidableEq, Repr

/-- A target as `cli_integrate` sees it: `getPackage()`, `getSettings()`,
`getInterfaceSettings()`. -/
structure Target where
  package : PackageId
  settings : TargetSettings
  interface : InterfaceSettings
deriving DecidableEq, Repr

/-- A `TargetMap`: package ids with their targets, in iteration order. -/
abbrev TargetMap := List (PackageId × List Target)

/-- A prepared build, as far as the emitters read it: `b.getTargets()` and
`b.getContext().getPredefinedTargets()`. -/
structure Build where
  targets : TargetMap
  predefined : TargetMap

/-- The test `m.find(pkg) != m.end()` on a target map. -/
def TargetMap.contains (m : TargetMap) (pkg : PackageId) : Bool :=
  m.any (fun e => e.1 == pkg)

/-- The lookup `TargetMap::find(pkg, settings)`: the targets of `pkg`, searched
with `TargetData::find`; a target compares equal to the settings it was built
with. The result is the null pointer when there is no such target. -/
def TargetMap.find (m : TargetMap) (pkg : PackageId) (s : TargetSettings) : Option Target :=
  match List.find? (fun e => e.1 == pkg) m with
  | none => none
  | some e =>
    let td : TargetData Target Unit := { targets := e.2, ep := none }
    e.2[td.find (fun t s => t.settings == s) s]?

/-- What the emitters call but `integrate.cpp` does not define, and one
property of the compiled program: `same_literal` says whether the two
occurrences of the string literal `"SHARED"` in `cli_integrate` are one object.
The variable `st` is a `const char *`, so `st == "SHARED"` compares addresses;
the language leaves it unspecified whether equal string literals share their
storage (they do when the compiler pools string literals). -/
structure IntegrateExt where
  normalize_path : String → String
  remove_ext : String → String
  quote : String → String
  toPackageId : String → Except Thrown PackageId
  configurationType : TargetSettings → ConfigurationType
  same_literal : Bool

/-! ### The CMake emitter -/

/-- One statement the CMake branch of `cli_integrate` writes. The package the
statement is about is kept apart from the fixed text around it. -/
inductive CMakeStmt where
  | line (text : String)
  | emptyLines
  | if_not_target (name : String)
  | endif
  | add_library (name kind : String)
  | target_compile_definitions (name : String) (items : List String)
  | target_include_directories (name : String) (items : List String)
  | target_link_libraries (name : String) (items : List String)
  | set_property_imported_configurations (name config : String)
  | set_target_properties (name : String) (properties : List (String × String))
  | add_dependencies (name dependency : String)
  | add_library_alias (alias_name name : String)
  | target_link_libraries_dependency (name dependency : String)
deriving DecidableEq, Repr

/-- The lines of text of a statement, as the emitter calls build them
(indentation, which `primitives::Emitter` adds, is left out). -/
def CMakeStmt.text : CMakeStmt → List String
  | .line text => [text]
  | .emptyLines => [""]
  | .if_not_target name => ["if (NOT TARGET " ++ name ++ ")"]
  | .endif => ["endif()", ""]
  | .add_library name kind => ["add_library(" ++ name ++ " " ++ kind ++ " IMPORTED GLOBAL)"]
  | .target_compile_definitions name items =>
    ["target_compile_definitions(" ++ name ++ " INTERFACE"] ++ items ++ [")"]
  | .target_include_directories name items =>
    ["target_include_directories(" ++ name ++ " INTERFACE"] ++ items ++ [")"]
  | .target_link_libraries name items =>
    ["target_link_libraries(" ++ name ++ " INTERFACE"] ++ items ++ [")"]
  | .set_property_imported_configurations name config =>
    ["set_property(TARGET " ++ name ++ " APPEND PROPERTY IMPORTED_CONFIGURATIONS " ++ config ++ ")"]
  | .set_target_properties name properties =>
    ["set_target_properties(" ++ name ++ " PROPERTIES"] ++
      properties.map (fun kv => kv.1 ++ " \"" ++ kv.2 ++ "\"") ++ [")"]
  | .add_dependencies name dependency => ["add_dependencies(" ++ name ++ " " ++ dependency ++ ")"]
  | .add_library_alias alias_name name => ["add_library(" ++ alias_name ++ " ALIAS " ++ name ++ ")"]
  | .target_link_libraries_dependency name dependency =>
    ["target_link_libraries(" ++ name ++ " INTERFACE " ++ dependency ++ ")"]

/-- The package a statement is about: the target named first in it, and for
an alias the target the alias stands for. -/
def CMakeStmt.subject : CMakeStmt → Option String
  | .line _ => none
  | .emptyLines => none
  | .if_not_target name => some name
  | .endif => none
  | .add_library name _ => some name
  | .target_compile_definitions name _ => some name
  | .target_include_directories name _ => some name
  | .target_link_libraries name _ => some name
  | .set_property_imported_configurations name _ => some name
  | .set_target_properties name _ => some name
  | .add_dependencies name _ => some name
  | .add_library_alias _ name => some name
  | .target_link_libraries_dependency name _ => some name

/-- The library kind `st` that the CMake branch derives from the interface
settings of the first target of a package. -/
def library_kind (s : InterfaceSettings) : String :=
  let st := "STATIC"
  let st :=
    if s.type == "native_static_library" then st
    else if s.type == "native_shared_library" then "SHARED"
    else st
  if s.header_only == "true" then "INTERFACE" else st

/-- The body of the loop over the targets of one package ("imported configs"):
the statements for the target `tgt`. The test `st == "SHARED"` holds when `st`
was set from the literal `"SHARED"` and that literal is the one compared with. -/
def cmake_imported_config (ext : IntegrateExt) (cygwin : Bool) (name st : String) (tgt : Target) :
    Except Thrown (List CMakeStmt) :=
  let s := tgt.interface
  let config := ext.configurationType tgt.settings
  match toCmakeStringCapital config with
  | .error e => .error e
  | .ok capital =>
    let cmake_cfg := "$<$<CONFIG:" ++ capital ++ ">: \""
    let cmake_cfg_end := "\" >"
    let defs := s.definitions.map (fun kv =>
      cmake_cfg ++ (if kv.2.isEmpty then kv.1 else kv.1 ++ "=" ++ ext.quote kv.2) ++ cmake_cfg_end)
    let idirs := s.include_directories.map (fun d => cmake_cfg ++ fix_path cygwin d ++ cmake_cfg_end)
    let common := [CMakeStmt.target_compile_definitions name defs, .emptyLines,
      .target_include_directories name idirs, .emptyLines]
    if s.header_only != "true" then
      let libs := (s.link_libraries ++ s.system_link_libraries).map (fun d =>
        cmake_cfg ++ fix_path cygwin d ++ cmake_cfg_end)
      match toCmakeString config with
      | .error e => .error e
      | .ok upper =>
        .ok (common ++
          [.target_link_libraries name libs, .emptyLines,
           .set_property_imported_configurations name upper,
           .set_target_properties name
             [("IMPORTED_LOCATION_" ++ upper,
                fix_path cygwin (ext.normalize_path
                  (if ext.same_literal && st == "SHARED" then s.output_file
                   else s.import_library))),
              ("IMPORTED_IMPLIB_" ++ upper, fix_path cygwin (ext.normalize_path s.import_library))],
           .emptyLines])
    else .ok common

/-- The loop over the targets of one package. -/
def cmake_imported_configs (ext : IntegrateExt) (cygwin : Bool) (name st : String) :
    List Target → Except Thrown (List CMakeStmt)
  | [] => .ok []
  | tgt :: tgts =>
    match cmake_imported_config ext cygwin name st tgt with
    | .error e => .error e
    | .ok first =>
      match cmake_imported_configs ext cygwin name st tgts with
      | .error e => .error e
      | .ok more => .ok (first ++ more)

/-- The alias loop `for (auto i = getLevel() - 1; i >= 0; i--)`; the argument
is `i + 1`, so the loop is over when it reaches zero. -/
def cmake_alias_loop (pkg : PackageId) : Nat → List CMakeStmt
  | 0 => []
  | i + 1 =>
    (if i != 0 then
      CMakeStmt.add_library_alias (pkg2string pkg.path ++ "-" ++ pkg.version.toString i)
        (pkg2string pkg.toString)
     else CMakeStmt.add_library_alias (pkg2string pkg.path) (pkg2string pkg.toString))
    :: cmake_alias_loop pkg i

/-- The aliases of a package: none unless its version is a numeric version. -/
def cmake_aliases (pkg : PackageId) : List CMakeStmt :=
  if pkg.version.isVersion then cmake_alias_loop pkg pkg.version.getLevel else []

/-- The first loop of the CMake branch ("# targets") over `b.getTargets()`. -/
def cmake_targets (ext : IntegrateExt) (cygwin : Bool) (b : Build) :
    TargetMap → Except Thrown (List CMakeStmt)
  | [] => .ok []
  | (_, []) :: rest => cmake_targets ext cygwin b rest
  | (pkg, t :: tgts) :: rest =>
    if b.predefined.contains pkg then cmake_targets ext cygwin b rest
    else if t.interface.type == "native_executable" then cmake_targets ext cygwin b rest
    else
      let name := pkg2string pkg.toString
      let st := library_kind t.interface
      match cmake_imported_configs ext cygwin name st (t :: tgts) with
      | .error e => .error e
      | .ok configs =>
        match cmake_targets ext cygwin b rest with
        | .error e => .error e
        | .ok more =>
          .ok ([.if_not_target name, .add_library name st, .emptyLines] ++ configs ++
            [.emptyLines, .add_dependencies name "sw_build_dependencies", .emptyLines] ++
            cmake_aliases pkg ++ [.endif] ++ more)

/-- The second loop of the CMake branch ("# dependencies") over `b.getTargets()`. -/
def cmake_dependencies (b : Build) : TargetMap → List CMakeStmt
  | [] => []
  | (_, []) :: rest => cmake_dependencies b rest
  | (pkg, t :: _) :: rest =>
    if b.predefined.contains pkg then cmake_dependencies b rest
    else if t.interface.type == "native_executable" then cmake_dependencies b rest
    else
      t.interface.dependencies_link.map (fun kv =>
        CMakeStmt.target_link_libraries_dependency (pkg2string pkg.toString) kv.1)
      ++ cmake_dependencies b rest

/-- The statements of the generated `CMakeLists.txt` for the prepared build
`b`: what the CMake branch of `cli_integrate` passes to `write_file_if_different`. -/
def integrate_cmake (ext : IntegrateExt) (cygwin : Bool) (b : Build) : Except Thrown (List CMakeStmt) :=
  match cmake_targets ext cygwin b b.targets with
  | .error e => .error e
  | .ok targets =>
    .ok ([.line "#", .line "# sw autogenerated file", .line "#", .emptyLines, .line "# targets"] ++
      targets ++ [.line "# dependencies"] ++ cmake_dependencies b b.targets)

/-! ### The waf emitter -/

/-- One line the waf branch of `cli_integrate` writes. -/
inductive WafStmt where
  | def_configure
  | comment (name : String)
  | for_lib_open
  | lib_name (name : String)
  | for_lib_close
  | parse_flags (flag : String)
  | emptyLines
deriving DecidableEq, Repr

/-- The text of a line (indentation left out). -/
def WafStmt.text : WafStmt → String
  | .def_configure => "def configure(ctx):"
  | .comment name => "# " ++ name
  | .for_lib_open => "for lib in ["
  | .lib_name name => "\x27" ++ name ++ "\x27,"
  | .for_lib_close => "]:"
  | .parse_flags flag => "ctx.parse_flags(\x27" ++ flag ++ "\x27, lib)"
  | .emptyLines => ""

/-- The `ctx.parse_flags` lines that the lambda `process` writes from the
interface settings `s` of the target it found. -/
def waf_parse_flags (ext : IntegrateExt) (s : InterfaceSettings) : List WafStmt :=
  [WafStmt.parse_flags ("-l" ++ ext.normalize_path (ext.remove_ext s.import_library))] ++
  s.definitions.map (fun kv =>
    if kv.2.isEmpty then WafStmt.parse_flags ("-D" ++ kv.1)
    else WafStmt.parse_flags ("-D" ++ kv.1 ++ "=" ++ ext.quote kv.2)) ++
  s.include_directories.map (fun d => WafStmt.parse_flags ("-I" ++ ext.normalize_path d)) ++
  s.link_libraries.map (fun d =>
    WafStmt.parse_flags ("-l" ++ ext.normalize_path (ext.remove_ext d))) ++
  s.system_link_libraries.map (fun d =>
    WafStmt.parse_flags ("-l" ++ ext.normalize_path (ext.remove_ext d)))

/-- State of one run of the lambda `process`: the set `visited` and the lines
written so far. -/
structure WafState where
  visited : List (PackageId × TargetSettings)
  out : List WafStmt
deriving DecidableEq, Repr

/-- A loop whose body may fail or may not finish: the body runs on each
element in turn, and the first body that does not end well ends the loop. -/
def forEach {α σ : Type} (body : α → σ → Option (Except Thrown σ)) :
    List α → σ → Option (Except Thrown σ)
  | [], st => some (.ok st)
  | x :: xs, st =>
    match body x st with
    | some (.ok st2) => forEach body xs st2
    | r => r

/-- The recursive lambda `process` of the waf branch. The first argument
bounds the depth of the recursion; `none` means the bound was reached. -/
def process (ext : IntegrateExt) (b : Build) :
    Nat → PackageId × TargetSettings → WafState → Option (Except Thrown WafState)
  | 0, _, _ => none
  | fuel + 1, nt, st =>
    if st.visited.contains nt then some (.ok st)
    else
      let st := { st with visited := nt :: st.visited }
      match b.targets.find nt.1 nt.2 with
      | none => some (.error (SW_RUNTIME_ERROR ("no such target: " ++ pkg2string nt.1.toString)))
      | some t =>
        let s := t.interface
        let st := { st with out := st.out ++ waf_parse_flags ext s }
        forEach (fun kv st =>
          match ext.toPackageId kv.1 with
          | .error e => some (.error e)
          | .ok k => process ext b fuel (k, kv.2) st) s.dependencies_link st

/-- The pairs that the lambda `process` can be called with from inside a run:
the entries of `dependencies.link` of the targets of the build, as far as
their keys are package ids. -/
def link_pairs (ext : IntegrateExt) (b : Build) : List (PackageId × TargetSettings) :=
  b.targets.flatMap (fun e => e.2.flatMap (fun t =>
    t.interface.dependencies_link.filterMap (fun kv =>
      match ext.toPackageId kv.1 with
      | .ok k => some (k, kv.2)
      | .error _ => none)))

/-- A depth that no run of `process` on the build `b` reaches. -/
def process_depth (ext : IntegrateExt) (b : Build) : Nat := (link_pairs ext b).length + 2

/-- The `ctx.parse_flags` lines that `process` writes when it handles the pair
`nt`: those of the target found for it. -/
def process_lines (ext : IntegrateExt) (b : Build) (nt : PackageId × TargetSettings) :
    List WafStmt :=
  match b.targets.find nt.1 nt.2 with
  | some t => waf_parse_flags ext t.interface
  | none => []

/-- The loop `for (auto i = getLevel(); i >= 0; i--)` of the waf branch; the
argument is `i + 1`. -/
def waf_lib_names (pkg : PackageId) : Nat → List WafStmt
  | 0 => []
  | i + 1 =>
    (if i != 0 then WafStmt.lib_name (pkg2string pkg.path ++ "-" ++ pkg.version.toString i)
     else WafStmt.lib_name (pkg2string pkg.path))
    :: waf_lib_names pkg i

/-- The loop of the waf branch over `b.getTargets()`. -/
def waf_targets (ext : IntegrateExt) (fuel : Nat) (b : Build) :
    TargetMap → Option (Except Thrown (List WafStmt))
  | [] => some (.ok [])
  | (_, []) :: rest => waf_targets ext fuel b rest
  | (pkg, t :: _) :: rest =>
    if b.predefined.contains pkg then waf_targets ext fuel b rest
    else if t.interface.type == "native_executable" then waf_targets ext fuel b rest
    else
      match process ext b fuel (t.package, t.settings) { visited := [], out := [] } with
      | none => none
      | some (.error e) => some (.error e)
      | some (.ok st) =>
        match waf_targets ext fuel b rest with
        | none => none
        | some (.error e) => some (.error e)
        | some (.ok more) =>
          some (.ok ([.comment (pkg2string pkg.toString), .for_lib_open] ++
            waf_lib_names pkg (pkg.version.getLevel + 1) ++ [.for_lib_close] ++ st.out ++
            [.emptyLines] ++ more))

/-- The lines of the generated `wscript` for the prepared build `b`: what the
waf branch of `cli_integrate` passes to `write_file_if_different`. -/
def integrate_waf (ext : IntegrateExt) (fuel : Nat) (b : Build) :
    Option (Except Thrown (List WafStmt)) :=
  match waf_targets ext fuel b b.targets with
  | none => none
  | some (.error e) => some (.error e)
  | some (.ok lines) => some (.ok (.def_configure :: lines))

/-! ### The subcommand `integrate` -/

/-- How code that may index a vector out of its bounds fails: by an exception,
or by a read of element `index` of a vector of `size` elements with
`size <= index`, which `std::vector::operator[]` leaves undefined. -/
inductive Fault where
  | thrown (e : Thrown)
  | out_of_bounds (index size : Nat)
deriving DecidableEq, Repr

/-- What `cli_integrate` does to the world outside, in the order of the calls:
`read_lines(file)`, `getContext().addInput(line)`,
`write_file_if_different(dir / "CMakeLists.txt", text)` and
`write_file_if_different("wscript", text)`. -/
inductive IntegrateEvent where
  | read_lines (file : String)
  | addInput (line : String)
  | write_cmake (dir : String) (text : List CMakeStmt)
  | write_wscript (text : List WafStmt)
deriving DecidableEq, Repr

/-- The options `getOptions().options_integrate` that `cli_integrate` reads. -/
structure IntegrateOptions where
  integrate_cmake_deps : String
  integrate_waf_deps : String
  cmake_file_version : Int

/-- What `cli_integrate` calls but `integrate.cpp` does not define: the options,
the embedded CMake config `getCmakeConfig()`, `read_lines`, `createSettings()`,
`getContext().addInput(line)` (the inputs found for a line, by name), the
sequence `b.loadInputs(); b.setTargetsToBuild(); b.resolvePackages();
b.loadPackages(); b.prepare()` on the inputs given to `b.addInput` with their
settings, and `path::parent_path`. -/
structure IntegrateEnv where
  options : IntegrateOptions
  getCmakeConfig : String
  read_lines : String → Except Thrown (List String)
  createSettings : List TargetSettings
  addInput : String → Except Thrown (List String)
  prepare : List (String × List TargetSettings) → Except Thrown Build
  parent_path : String → String

/-- The text after the literal `lit` at the start of a text, if it starts with it. -/
def drop_literal : List Char → List Char → Option (List Char)
  | [], cs => some cs
  | _ :: _, [] => none
  | p :: ps, c :: cs => if p == c then drop_literal ps cs else none

/-- A match of the regular expression `set\(SW_CMAKE_VERSION (\d+)\)` at the
start of a text: the digits of its group. The group takes the whole run of
digits, and the closing bracket has to follow it. -/
def regex_match_here (cs : List Char) : Option (List Char) :=
  match drop_literal "set(SW_CMAKE_VERSION ".data cs with
  | none => none
  | some rest =>
    let digits := rest.takeWhile Char.isDigit
    if digits.isEmpty then none
    else
      match rest.dropWhile Char.isDigit with
      | ')' :: _ => some digits
      | _ => none

/-- The call `std::regex_search(cfg, m, r)`: the group of the leftmost match. -/
def regex_search : List Char → Option (List Char)
  | [] => none
  | c :: cs =>
    match regex_match_here (c :: cs) with
    | some digits => some digits
    | none => regex_search cs

/-- The call `std::stoi` on a run of decimal digits: its value, or
`std::out_of_range` when the value does not fit an `int` of 32 bits. -/
def stoi (digits : List Char) : Except Thrown Int :=
  let v := digits.foldl (fun n c => 10 * n + (c.toNat - 48)) 0
  if v > 2147483647 then .error (.std_exception .other "stoi") else .ok (Int.ofNat v)

/-- The function `getSwCmakeConfigVersion`, on the text of `getCmakeConfig()`. -/
def getSwCmakeConfigVersion (cfg : String) : Except Thrown Int :=
  match regex_search cfg.data with
  | none => .ok 0
  | some digits => stoi digits

/-- The settings that the lambda `create_build` adds to one input: one copy of
`settings[0]` for each configuration, with `settings[0]["native"]["configuration"]`
set to the lower-cased configuration, or `settings[0]` itself when no
configuration is given. -/
def input_settings (s0 : TargetSettings) (configs : List String) : List TargetSettings :=
  if !configs.isEmpty then
    configs.map (fun cfg => { s0 with native_configuration := to_lower_copy cfg })
  else [s0]

/-- The loop `for (auto &l : lines)` of the lambda `create_build`: the events so
far and the inputs given to `b.addInput` so far are carried along. -/
def create_build_lines (env : IntegrateEnv) (s0 : TargetSettings) (configs : List String) :
    List String → List IntegrateEvent → List (String × List TargetSettings) →
    List IntegrateEvent × Except Fault (List (String × List TargetSettings))
  | [], tr, inputs => (tr, .ok inputs)
  | l :: ls, tr, inputs =>
    if l.data.any (fun c => c.isAlpha && c.isUpper) then
      (tr, .error (.thrown (SW_RUNTIME_ERROR
        "Package name must be in lower case for now. Sorry for inconvenience.")))
    else
      match env.addInput l with
      | .error e => (tr ++ [.addInput l], .error (.thrown e))
      | .ok found =>
        create_build_lines env s0 configs ls (tr ++ [.addInput l])
          (inputs ++ found.map (fun i => (i, input_settings s0 configs)))

/-- The lambda `create_build` of `cli_integrate`: the value it gives to the
captured flag `cygwin` and the prepared build. -/
def create_build (env : IntegrateEnv) (lines configs : List String) (tr : List IntegrateEvent) :
    List IntegrateEvent × Except Fault (Bool × Build) :=
  let settings := env.createSettings
  if settings.length > 1 then (tr, .error (.thrown (SW_RUNTIME_ERROR "size() must be 1")))
  else
    match settings[0]? with
    | none => (tr, .error (.out_of_bounds 0 settings.length))
    | some s0 =>
      let cygwin := s0.os_kernel == "org.cygwin"
      match create_build_lines env s0 configs lines tr [] with
      | (tr, .error f) => (tr, .error f)
      | (tr, .ok inputs) =>
        match env.prepare inputs with
        | .error e => (tr, .error (.thrown e))
        | .ok b => (tr, .ok (cygwin, b))

/-- The CMake branch of `cli_integrate`. -/
def cli_integrate_cmake (ext : IntegrateExt) (env : IntegrateEnv) :
    List IntegrateEvent × Except Fault Unit :=
  match getSwCmakeConfigVersion env.getCmakeConfig with
  | .error e => ([], .error (.thrown e))
  | .ok version =>
    if env.options.cmake_file_version < version then
      ([], .error (.thrown (SW_RUNTIME_ERROR
        "Old cmake integration file detected. Run \x27sw setup\x27 to upgrade it.")))
    else
      let configs := ["Debug", "MinimalSizeRelease", "ReleaseWithDebugInformation", "Release"]
      match env.read_lines env.options.integrate_cmake_deps with
      | .error e => ([.read_lines env.options.integrate_cmake_deps], .error (.thrown e))
      | .ok lines =>
        match create_build env lines configs [.read_lines env.options.integrate_cmake_deps] with
        | (tr, .error f) => (tr, .error f)
        | (tr, .ok (cygwin, b)) =>
          match integrate_cmake ext cygwin b with
          | .error e => (tr, .error (.thrown e))
          | .ok text =>
            (tr ++ [.write_cmake (env.parent_path env.options.integrate_cmake_deps) text], .ok ())

/-- The waf branch of `cli_integrate`; the first argument bounds the depth of
the recursion of `process`, and `none` means the bound was reached. -/
def cli_integrate_waf (ext : IntegrateExt) (env : IntegrateEnv) (fuel : Nat) :
    Option (List IntegrateEvent × Except Fault Unit) :=
  match env.read_lines env.options.integrate_waf_deps with
  | .error e => some ([.read_lines env.options.integrate_waf_deps], .error (.thrown e))
  | .ok lines =>
    match create_build env lines [] [.read_lines env.options.integrate_waf_deps] with
    | (tr, .error f) => some (tr, .error f)
    | (tr, .ok (_, b)) =>
      match integrate_waf ext fuel b with
      | none => none
      | some (.error e) => some (tr, .error (.thrown e))
      | some (.ok text) => some (tr ++ [.write_wscript text], .ok ())

/-- The subcommand `integrate` (`SUBCOMMAND_DECL(integrate)`). -/
def cli_integrate (ext : IntegrateExt) (env : IntegrateEnv) (fuel : Nat) :
    Option (List IntegrateEvent × Except Fault Unit) :=
  if !env.options.integrate_cmake_deps.isEmpty then some (cli_integrate_cmake ext env)
  else if !env.options.integrate_waf_deps.isEmpty then cli_integrate_waf ext env fuel
  else some ([], .error (.thrown SW_UNIMPLEMENTED))

/-! ## server.cpp -/

/-- The number of occurrences of the literal `%20` in a text: the positions
at which the text goes on with `%20`. -/
def count_occurrences : List Char → Nat
  | [] => 0
  | c :: cs => (if ['%', '2', '0'].isPrefixOf (c :: cs) then 1 else 0) + count_occurrences cs

/-- Upper-casing of a text: every letter `a`..`z` becomes `A`..`Z`. -/
def to_upper_copy (s : String) : String := String.mk (s.data.map Char.toUpper)

/-- The text `set(SW_CMAKE_VERSION <digits>)` stands at the start of a text,
`digits` being a run of one or more decimal digits. -/
def version_here (digits cs : List Char) : Bool :=
  !digits.isEmpty && digits.all Char.isDigit &&
    ("set(SW_CMAKE_VERSION ".data ++ digits ++ [')']).isPrefixOf cs

/-- The decimal value of a run of digits, the last digit counting units. -/
def decimal_value (digits : List Char) : Nat :=
  Nat.ofDigits 10 ((digits.map (fun c => c.toNat - '0'.toNat)).reverse)

/-- The error of the version check of the CMake branch. -/
def old_cmake_file : Thrown :=
  SW_RUNTIME_ERROR "Old cmake integration file detected. Run \x27sw setup\x27 to upgrade it."


/-- A line contains an upper-case ASCII letter: one of its characters has a
code from 65 (`A`) to 90 (`Z`). -/
def has_upper_case (l : String) : Bool :=
  l.data.any (fun c => decide (65 ≤ c.toNat ∧ c.toNat ≤ 90))

/-- The error of the lower-case check of `create_build`. -/
def lower_case_error : Thrown :=
  SW_RUNTIME_ERROR "Package name must be in lower case for now. Sorry for inconvenience."


/-- The libraries of the generated `wscript`: the packages of the target map
that have targets, are not predefined and whose first target is not an
executable, each with its first target, in the order of the map. -/
def waf_libraries (b : Build) (m : TargetMap) : List (PackageId × Target) :=
  m.filterMap (fun e =>
    match e.2 with
    | [] => none
    | t :: _ =>
      if b.predefined.contains e.1 || t.interface.type == "native_executable" then none
      else some (e.1, t))

/-- The library block of a package in the `wscript`: the header line
`# <package>`, the `for lib in [...]` list of its names, the given
`ctx.parse_flags` lines and an empty line. -/
def waf_block (pkg : PackageId) (lines : List WafStmt) : List WafStmt :=
  [.comment (pkg2string pkg.toString), .for_lib_open] ++
    waf_lib_names pkg (pkg.version.getLevel + 1) ++ [.for_lib_close] ++ lines ++ [.emptyLines]

/-- The pair `nt` is a `dependencies.link` entry of the target found for the
pair `parent`. -/
def links_to (ext : IntegrateExt) (b : Build) (parent nt : PackageId × TargetSettings) : Bool :=
  match b.targets.find parent.1 parent.2 with
  | none => false
  | some t =>
    t.interface.dependencies_link.any (fun kv =>
      decide (ext.toPackageId kv.1 = .ok nt.1) && kv.2 == nt.2)

/-! ## Concrete inputs -/

/-- A state: one installed package with its directory, nothing else set. -/
def world0 : World :=
  { installed_packages := [{ ppath := "org.demo.a", version := "1.0.0" }],
    files := [["pkg"], ["pkg", "a"], ["pkg", "a", "src.c"], ["pkg", "b"]],
    user_settings := { force_server_query := false, explain_outdated := false,
                       print_commands := false, configuration := "" },
    current_path := ".", thread_path := ["."], log_level := "", bUseSystemPause := false }

/-- Externals without subcommands: every package text names version 1.0.0 of
itself and lives in `pkg/a`; the resolver fails with `failure`. -/
def clientExt0 (failure : Thrown) : ClientExt :=
  { win32 := false, ndebug := true, commands := [], help := "usage",
    getServiceDatabase := fun w => .ok w,
    extractFromString := fun s => .ok { ppath := s, version := "1.0.0" },
    resolve := fun p w => .ok (p, w),
    getDir := fun _ => ["pkg", "a"],
    resolve_dependencies := fun _ _ => .error failure,
    build := fun _ w => .ok (true, w),
    set_current_path := fun p w => .ok { w with current_path := p },
    storage_dir_tmp := ["tmp"] }

/-- The externals of `clientExt0` with the subcommand `uri` in the table. -/
def clientExt1 (failure : Thrown) : ClientExt :=
  { clientExt0 failure with commands := [("uri", cli_uri (clientExt0 failure))] }

/-- The command line `sw uri sw:build org.demo.a`. -/
def argvBuild : List String := ["sw", "uri", "sw:build", "org.demo.a"]

/-- An exception derived from `std::exception` whose `what()` is empty, such as
`std::runtime_error("")`. -/
def emptyMessage : Thrown := .std_exception .other ""

/-- The resolver error for unresolved dependencies. -/
def conflictingPins : Thrown := .std_exception .runtime_error "ConflictingPins"

/-- Settings of a release build on Linux. -/
def settings0 : TargetSettings :=
  { os_kernel := "com.linux", native_configuration := "release", rest := [] }

/-- The package id `org.demo.a-1.0.0`. -/
def pkgA : PackageId := { path := "org.demo.a", version := { numbers := [1, 0, 0], branch := none } }

/-- The package id `org.sys.p-1.0.0`. -/
def pkgP : PackageId := { path := "org.sys.p", version := { numbers := [1, 0, 0], branch := none } }

/-- A static library that links to `org.sys.p-1.0.0`. -/
def targetA : Target :=
  { package := pkgA, settings := settings0,
    interface :=
      { type := "native_static_library", header_only := "",
        definitions := [("A_STATIC", "1")], include_directories := ["/pkg/a/include"],
        link_libraries := [], system_link_libraries := [],
        import_library := "/pkg/a/lib/a", output_file := "/pkg/a/lib/a",
        dependencies_link := [("org.sys.p-1.0.0", settings0)] } }

/-- A system-provided static library without dependencies. -/
def targetP : Target :=
  { package := pkgP, settings := settings0,
    interface :=
      { type := "native_static_library", header_only := "",
        definitions := [("SYS_P", "")], include_directories := ["/sys/include"],
        link_libraries := [], system_link_libraries := [],
        import_library := "/sys/lib/p", output_file := "/sys/lib/p",
        dependencies_link := [] } }

/-- A build with the two packages, `org.sys.p-1.0.0` being predefined. -/
def build0 : Build :=
  { targets := [(pkgA, [targetA]), (pkgP, [targetP])], predefined := [(pkgP, [targetP])] }

/-- Externals of the emitters for `build0`: its paths are already normalised
and have no extension, nothing needs quoting. -/
def integrateExt0 : IntegrateExt :=
  { normalize_path := fun p => p, remove_ext := fun p => p, quote := fun v => v,
    toPackageId := fun k =>
      if k == "org.sys.p-1.0.0" then .ok pkgP
      else if k == "org.demo.a-1.0.0" then .ok pkgA
      else .error (SW_RUNTIME_ERROR ("bad package id: " ++ k)),
    configurationType := fun s =>
      if s.native_configuration == "debug" then .Debug
      else if s.native_configuration == "minimalsizerelease" then .MinimalSizeRelease
      else if s.native_configuration == "releasewithdebuginformation" then .ReleaseWithDebugInformation
      else if s.native_configuration == "release" then .Release
      else .other 0,
    same_literal := true }

/-- The statements of the `CMakeLists.txt` generated for `build0`. -/
def cmake0 : List CMakeStmt :=
  [ .line "#", .line "# sw autogenerated file", .line "#", .emptyLines, .line "# targets",
    .if_not_target "org.demo.a-1.0.0",
    .add_library "org.demo.a-1.0.0" "STATIC",
    .emptyLines,
    .target_compile_definitions "org.demo.a-1.0.0" ["$<$<CONFIG:Release>: \"A_STATIC=1\" >"],
    .emptyLines,
    .target_include_directories "org.demo.a-1.0.0" ["$<$<CONFIG:Release>: \"/pkg/a/include\" >"],
    .emptyLines,
    .target_link_libraries "org.demo.a-1.0.0" [],
    .emptyLines,
    .set_property_imported_configurations "org.demo.a-1.0.0" "RELEASE",
    .set_target_properties "org.demo.a-1.0.0"
      [("IMPORTED_LOCATION_RELEASE", "/pkg/a/lib/a"), ("IMPORTED_IMPLIB_RELEASE", "/pkg/a/lib/a")],
    .emptyLines,
    .emptyLines,
    .add_dependencies "org.demo.a-1.0.0" "sw_build_dependencies",
    .emptyLines,
    .add_library_alias "org.demo.a-1.0" "org.demo.a-1.0.0",
    .add_library_alias "org.demo.a-1" "org.demo.a-1.0.0",
    .add_library_alias "org.demo.a" "org.demo.a-1.0.0",
    .endif,
    .line "# dependencies",
    .target_link_libraries_dependency "org.demo.a-1.0.0" "org.sys.p-1.0.0" ]

/-- The lines of the `wscript` generated for `build0`. -/
def waf0 : List WafStmt :=
  [ .def_configure,
    .comment "org.demo.a-1.0.0",
    .for_lib_open,
    .lib_name "org.demo.a-1.0.0",
    .lib_name "org.demo.a-1.0",
    .lib_name "org.demo.a-1",
    .lib_name "org.demo.a",
    .for_lib_close,
    .parse_flags "-l/pkg/a/lib/a",
    .parse_flags "-DA_STATIC=1",
    .parse_flags "-I/pkg/a/include",
    .parse_flags "-l/sys/lib/p",
    .parse_flags "-DSYS_P",
    .parse_flags "-I/sys/include",
    .emptyLines ]

/-- The package id `org.demo.s-1.0.0`. -/
def pkgS : PackageId := { path := "org.demo.s", version := { numbers := [1, 0, 0], branch := none } }

/-- A shared library whose import library and output file differ. -/
def targetS : Target :=
  { package := pkgS, settings := settings0,
    interface :=
      { type := "native_shared_library", header_only := "",
        definitions := [], include_directories := [],
        link_libraries := [], system_link_libraries := [],
        import_library := "/pkg/s/lib/s.lib", output_file := "/pkg/s/bin/s.dll",
        dependencies_link := [] } }

/-- The externals `integrateExt0` in a program whose two `"SHARED"` literals are
two objects. -/
def integrateExt1 : IntegrateExt := { integrateExt0 with same_literal := false }

/-- An executable package `org.demo.tool-1.0.0` next to the library of `build0`. -/
def pkgTool : PackageId :=
  { path := "org.demo.tool", version := { numbers := [1, 0, 0], branch := none } }

/-- The executable target of `org.demo.tool-1.0.0`. -/
def targetTool : Target :=
  { package := pkgTool, settings := settings0,
    interface :=
      { type := "native_executable", header_only := "",
        definitions := [], include_directories := [],
        link_libraries := [], system_link_libraries := [],
        import_library := "", output_file := "/pkg/tool/bin/tool",
        dependencies_link := [] } }

/-- A target map with a static library, a shared library and an executable. -/
def map1 : TargetMap := [(pkgA, [targetA]), (pkgS, [targetS]), (pkgTool, [targetTool])]

/-- The externals `integrateExt0`, knowing the id `org.demo.s-1.0.0` as well. -/
def integrateExt2 : IntegrateExt :=
  { integrateExt0 with
    toPackageId := fun k =>
      if k == "org.demo.s-1.0.0" then .ok pkgS
      else if k == "org.demo.a-1.0.0" then .ok pkgA
      else .error (SW_RUNTIME_ERROR ("bad package id: " ++ k)) }

/-- The library `org.demo.a-1.0.0`, linking to `org.demo.s-1.0.0`. -/
def targetCycleA : Target :=
  { targetA with
    interface := { targetA.interface with dependencies_link := [("org.demo.s-1.0.0", settings0)] } }

/-- The library `org.demo.s-1.0.0`, linking back to `org.demo.a-1.0.0`. -/
def targetCycleS : Target :=
  { targetS with
    interface := { targetS.interface with dependencies_link := [("org.demo.a-1.0.0", settings0)] } }

/-- A build whose two libraries link to each other. -/
def buildCycle : Build :=
  { targets := [(pkgA, [targetCycleA]), (pkgS, [targetCycleS])], predefined := [] }



/-- A run of `sw integrate` in CMake mode on the file `deps/sw.txt`, which
holds the line `org.demo.a`; the prepared build is `build0`. -/
def envCmake : IntegrateEnv :=
  { options := { integrate_cmake_deps := "deps/sw.txt", integrate_waf_deps := "",
                 cmake_file_version := 1 },
    getCmakeConfig := "set(SW_CMAKE_VERSION 1)",
    read_lines := fun _ => .ok ["org.demo.a"],
    createSettings := [settings0],
    addInput := fun l => .ok [l],
    prepare := fun _ => .ok build0,
    parent_path := fun _ => "deps" }

/-- The run `envCmake` with an integration file of version 0, older than the
version 1 of the embedded config. -/
def envOld : IntegrateEnv :=
  { envCmake with
    options := { integrate_cmake_deps := "deps/sw.txt", integrate_waf_deps := "",
                 cmake_file_version := 0 } }

/-- An embedded config in which an incomplete `set(SW_CMAKE_VERSION 12` comes
before the complete `set(SW_CMAKE_VERSION 007)`. -/
def cmakeConfig0 : String :=
  "# sw\nset(SW_CMAKE_VERSION 12 set(SW_CMAKE_VERSION 007)\nset(SW_CMAKE_VERSION 9)\n"

/-- The run `envCmake` in which `addInput` does not find the package
`org.missing` and raises an exception for it. -/
def envMissing : IntegrateEnv :=
  { envCmake with
    addInput := fun l =>
      if l == "org.missing" then .error (SW_RUNTIME_ERROR "cannot resolve org.missing")
      else .ok [l] }

/-! ## Theorems: client.cpp -/

theorem sw_main_returns_zero (ext : ClientExt) (argv : List String) (w w2 : World) (r : Int)
    (h : sw_main ext argv w = .ok (r, w2)) : r = 0 := by
  unfold sw_main at h
  split at h
  · cases h
  · split at h
    · split at h
      · cases h
      · cases h; rfl
    · cases h; rfl

theorem main_setup_returns_zero (ext : ClientExt) (argv : List String) (w w2 : World) (r : Int)
    (h : main_setup ext argv w = .ok (r, w2)) : r = 0 := by
  unfold main_setup at h
  dsimp only at h
  generalize (if ext.ndebug = true then setup_log "INFO" w else setup_log "DEBUG" w) = w1 at h
  cases hdb : ext.getServiceDatabase w1 with
  | error e => rw [hdb] at h; cases h
  | ok w3 => rw [hdb] at h; exact sw_main_returns_zero ext argv w3 w2 r h

theorem main1_of_ok (ext : ClientExt) (argv : List String) (w w2 : World) (r : Int)
    (h : main_setup ext argv w = .ok (r, w2)) : main1 ext argv w = 0 := by
  have hr := main_setup_returns_zero ext argv w w2 r h
  subst hr
  simp [main1, h, main1_result]

theorem main1_of_error (ext : ClientExt) (argv : List String) (w : World) (e : Thrown)
    (h : main_setup ext argv w = .error e) (hmsg : ∀ k, e ≠ .std_exception k "") :
    main1 ext argv w = 1 := by
  unfold main1
  rw [h]
  cases e with
  | SupressOutputException => simp [main1_result]
  | unknown => simp [main1_result]
  | std_exception k what =>
    have hw : what ≠ "" := fun hw => hmsg k (by rw [hw])
    simp [main1_result, hw]

/-- C1 (defect in the code). When `main_setup` raises an exception derived from
`std::exception` whose message is empty, `main1` returns 0, the exit code of a
successful run, although a fatal error occurred: the test `!error.empty()`
takes the empty message for "no error". -/
theorem C1_main1_empty_message_returns_zero :
    main_setup (clientExt1 emptyMessage) argvBuild world0 = .error emptyMessage ∧
    main1 (clientExt1 emptyMessage) argvBuild world0 = 0 := by
  decide

/-- C2 (as stated, refuted). The resolver fails with `ConflictingPins`, the error
leaves `main_setup`, and `main1` returns 1, not 3. -/
theorem C2_counterexample_exit_code_is_not_3 :
    main_setup (clientExt1 conflictingPins) argvBuild world0 = .error conflictingPins ∧
    main1 (clientExt1 conflictingPins) argvBuild world0 = 1 ∧
    main1 (clientExt1 conflictingPins) argvBuild world0 ≠ 3 := by
  decide

/-- C2 (amended). Whenever an error leaves `main_setup`, in particular a failure
of dependency resolution, and it is not a `std::exception` with an empty
message, the exit code returned by `main1` is 1. -/
theorem C2_main1_returns_1_on_error (ext : ClientExt) (argv : List String) (w : World) (e : Thrown)
    (h : main_setup ext argv w = .error e) (hmsg : ∀ k, e ≠ .std_exception k "") :
    main1 ext argv w = 1 :=
  main1_of_error ext argv w e h hmsg

/-- Witness of C2 (amended): the run `sw uri sw:build org.demo.a` with a resolver
that fails with `ConflictingPins`. -/
theorem C2_main1_returns_1_on_error_witness :
    main1 (clientExt1 conflictingPins) argvBuild world0 = 1 :=
  C2_main1_returns_1_on_error (clientExt1 conflictingPins) argvBuild world0 conflictingPins
    (by decide) (by intro k; simp [conflictingPins])

theorem split_regex_from_length (cur s : List Char) :
    (split_regex_from cur s).length = count_occurrences s + 1 := by
  induction cur, s using split_regex_from.induct with
  | case1 cur => simp [split_regex_from, count_occurrences]
  | case2 cur rest ih =>
    simp [split_regex_from, count_occurrences, ih, List.isPrefixOf]
    omega
  | case3 cur c cs hne ih =>
    rw [split_regex_from.eq_3 cur c cs hne, ih]
    have : ['%', '2', '0'].isPrefixOf (c :: cs) = false := by
      cases hp : ['%', '2', '0'].isPrefixOf (c :: cs) with
      | false => rfl
      | true =>
        exfalso
        rw [List.isPrefixOf_iff_prefix] at hp
        obtain ⟨t, ht⟩ := hp
        simp at ht
        exact hne t ht.1.symm ht.2.symm
    simp [count_occurrences, this]

theorem split_regex_from_no_occurrence (cur s : List Char)
    (h : ¬ (['%', '2', '0'] <:+: s)) : split_regex_from cur s = [cur.reverse ++ s] := by
  induction cur, s using split_regex_from.induct with
  | case1 cur => simp [split_regex_from]
  | case2 cur rest ih =>
    exact absurd ⟨[], rest, by simp⟩ h
  | case3 cur c cs hne ih =>
    rw [split_regex_from.eq_3 cur c cs hne, ih]
    · simp
    · intro hin
      apply h
      obtain ⟨a, b, hab⟩ := hin
      exact ⟨c :: a, b, by simp [← hab]⟩

theorem foldl_append_flatMap {α β : Type} (f : α → List β) (l : List α) (init : List β) :
    l.foldl (fun acc a => acc ++ f a) init = init ++ l.flatMap f := by
  induction l generalizing init with
  | nil => simp
  | cons a l ih => simp [ih, List.flatMap_cons]

/-- C3. The token list that `parseCmd` parses is the concatenation, in order,
over `argv[1..]`, of the tokens of each argument under the split at `%20`; an
argument without `%20` gives exactly itself, and an argument in which `%20`
occurs `k` times gives `k + 1` tokens. -/
theorem C3_parseCmd_tokens :
    (∀ argv : List String, parseCmd_args argv = (argv.drop 1).flatMap split_regex) ∧
    (∀ a : String, ¬ ("%20".data <:+: a.data) → split_regex a = [a]) ∧
    (∀ a : String, (split_regex a).length = count_occurrences a.data + 1) := by
  refine ⟨?_, ?_, ?_⟩
  · intro argv
    simp [parseCmd_args, foldl_append_flatMap]
  · intro a h
    have h2 : ¬ (['%', '2', '0'] <:+: a.data) := h
    simp [split_regex, split_regex_from_no_occurrence [] a.data h2]
  · intro a
    simp [split_regex, split_regex_from_length]

/-- Witness of C3: the command line `sw uri sw:remove%20org.x-1.0%20` is parsed as
four tokens; its last argument has two occurrences of `%20` and gives three. -/
theorem C3_parseCmd_tokens_witness :
    parseCmd_args ["sw", "uri", "sw:remove%20org.x-1.0%20"] = ["uri", "sw:remove", "org.x-1.0", ""] ∧
    split_regex "uri" = ["uri"] ∧
    (split_regex "sw:remove%20org.x-1.0%20").length = 2 + 1 := by
  refine ⟨by decide, C3_parseCmd_tokens.2.1 "uri" (by decide), ?_⟩
  rw [C3_parseCmd_tokens.2.2]
  decide

theorem setValue_positional {α : Type} (f : FlagDecl) (v : String) (st st2 : Parsed α)
    (h : setValue f v st = .ok st2) : st2.positional = st.positional := by
  unfold setValue at h
  split at h
  · cases h
  · cases h; rfl

theorem parseShortCluster_positional {α : Type} (flags : List FlagDecl) (cs : List Char)
    (st st2 : Parsed α) (w : Option FlagDecl)
    (h : parseShortCluster flags cs st = .ok (st2, w)) : st2.positional = st.positional := by
  induction cs generalizing st with
  | nil => simp [parseShortCluster] at h; rw [← h.1]
  | cons c cs ih =>
    unfold parseShortCluster at h
    split at h
    · cases h
    · split at h
      · cases h
      · rw [ih _ h]; rfl
      · split at h
        · cases h; rfl
        · split at h
          · cases h
          · rename_i heq
            cases h
            exact setValue_positional _ _ _ _ heq

theorem ParseArgsFrom_kickOut {α : Type} (flags : List FlagDecl) (pos : PositionalDecl α)
    (hk : pos.kickOut = true) (tokens : List String) :
    ∀ (terminated : Bool) (waiting : Option FlagDecl) (st st2 : Parsed α) (next : List String),
      st.positional = none →
      ParseArgsFrom flags pos terminated waiting st tokens = .ok (st2, next) →
      (st2.positional = none ∧ next = []) ∨
      (∃ before key v, tokens = before ++ key :: next ∧ pos.lookup key = some v ∧
        st2.positional = some (key, v)) := by
  induction tokens with
  | nil =>
    intro terminated waiting st st2 next hst h
    cases waiting with
    | none => simp [ParseArgsFrom] at h; left; rw [← h.1, ← h.2]; exact ⟨hst, rfl⟩
    | some w => simp [ParseArgsFrom] at h
  | cons chunk rest ih =>
    intro terminated waiting st st2 next hst h
    have step : ∀ (t : Bool) (w : Option FlagDecl) (s : Parsed α), s.positional = none →
        ParseArgsFrom flags pos t w s rest = .ok (st2, next) →
        (st2.positional = none ∧ next = []) ∨
        (∃ before key v, chunk :: rest = before ++ key :: next ∧ pos.lookup key = some v ∧
          st2.positional = some (key, v)) := by
      intro t w s hs hp
      rcases ih t w s st2 next hs hp with h1 | ⟨before, key, v, h1, h2, h3⟩
      · exact Or.inl h1
      · exact Or.inr ⟨chunk :: before, key, v, by simp [h1], h2, h3⟩
    cases waiting with
    | some w =>
      simp only [ParseArgsFrom] at h
      split at h
      · cases h
      · rename_i st3 heq
        exact step _ _ _ (by rw [setValue_positional _ _ _ _ heq]; exact hst) h
    | none =>
      unfold ParseArgsFrom at h
      split at h
      · exact step _ _ _ hst h
      · split at h
        · dsimp only at h
          split at h
          · cases h
          · split at h
            · cases h
            · exact step _ _ _ (by simpa [Parsed.add] using hst) h
            · cases h
            · split at h
              · cases h
              · rename_i st3 heq
                exact step _ _ _ (by rw [setValue_positional _ _ _ _ heq]; exact hst) h
            · exact step _ _ _ hst h
        · split at h
          · cases h
          · rename_i st3 w3 heq
            exact step _ _ _ (by rw [parseShortCluster_positional _ _ _ _ _ heq]; exact hst) h
        · split at h
          · cases h
          · split at h
            · cases h
            · rename_i v hv
              cases h
              exact Or.inr ⟨[], chunk, v, by simp, hv, rfl⟩

theorem MapPositional_lookup {α : Type} (map : List (String × α)) (key : String) (v : α)
    (h : (MapPositional map).lookup key = some v) : (key, v) ∈ map := by
  simp only [MapPositional, Option.map_eq_some'] at h
  obtain ⟨e, he, hv⟩ := h
  have hmem := List.mem_of_find?_eq_some he
  have hkey := List.find?_some he
  simp at hkey
  cases e with
  | mk k x =>
    simp at hkey hv
    subst hkey; subst hv
    exact hmem

theorem ParseArgsFrom_plain_token {α : Type} (flags : List FlagDecl) (pos : PositionalDecl α)
    (token : String) (rest : List String) (st : Parsed α)
    (hdash : token.data.head? ≠ some '-') (hst : st.positional = none) :
    ParseArgsFrom flags pos false none st (token :: rest) =
      match pos.lookup token with
      | none => .error (argsMapError token)
      | some v =>
        if pos.kickOut then .ok ({ st with positional := some (token, v) }, rest)
        else ParseArgsFrom flags pos false none { st with positional := some (token, v) } rest := by
  have hne : (token == "--") = false := by
    cases h : token == "--" with
    | false => rfl
    | true =>
      exfalso
      have : token = "--" := by simpa using h
      subst this
      exact hdash rfl
  conv => lhs; unfold ParseArgsFrom
  simp only [hne, Bool.not_false, Bool.and_false, Bool.false_eq_true, if_false]
  split
  · rename_i body hb
    rw [hb] at hdash
    exact absurd rfl hdash
  · rename_i c cs hb
    rw [hb] at hdash
    exact absurd rfl hdash
  · rw [hst]

/-- C4. The dispatch table of the `uri` subcommand has exactly the four keys
`sw:sdir`, `sw:install`, `sw:remove`, `sw:build`, each with its own handler; a
first token equal to a key runs that handler on the tokens after it; whenever
a handler is selected, it is the table's handler for a key that is a token of
the arguments, and it gets the tokens after that key; a first token that is
neither an option nor a key selects no handler (the parse fails). -/
theorem C4_cli_uri_dispatch (ext : ClientExt) :
    cli_uri_map ext =
      [("sw:sdir", cli_uri_sdir ext), ("sw:install", cli_uri_install ext),
       ("sw:remove", cli_uri_remove ext), ("sw:build", cli_uri_build ext)] ∧
    (cli_uri_map ext).map Prod.fst = ["sw:sdir", "sw:install", "sw:remove", "sw:build"] ∧
    (∀ (progname : String) (rest : List String) (w : World),
      cli_uri ext progname ("sw:sdir" :: rest) w = cli_uri_sdir ext progname rest w ∧
      cli_uri ext progname ("sw:install" :: rest) w = cli_uri_install ext progname rest w ∧
      cli_uri ext progname ("sw:remove" :: rest) w = cli_uri_remove ext progname rest w ∧
      cli_uri ext progname ("sw:build" :: rest) w = cli_uri_build ext progname rest w) ∧
    (∀ (args : List String) (st : Parsed command_type) (next : List String) (key : String)
        (command : command_type),
      ParseArgs [helpFlag] (MapPositional (cli_uri_map ext)) args = .ok (st, next) →
      st.positional = some (key, command) →
      ((key = "sw:sdir" ∧ command = cli_uri_sdir ext) ∨
       (key = "sw:install" ∧ command = cli_uri_install ext) ∨
       (key = "sw:remove" ∧ command = cli_uri_remove ext) ∨
       (key = "sw:build" ∧ command = cli_uri_build ext)) ∧
      ∃ before, args = before ++ key :: next) ∧
    (∀ (progname : String) (args : List String) (w : World) (st : Parsed command_type)
        (next : List String),
      ParseArgs [helpFlag] (MapPositional (cli_uri_map ext)) args = .ok (st, next) →
      st.positional = none → cli_uri ext progname args w = .ok w) ∧
    (∀ (progname token : String) (rest : List String) (w : World),
      token ∉ ["sw:sdir", "sw:install", "sw:remove", "sw:build"] →
      token.data.head? ≠ some '-' →
      cli_uri ext progname (token :: rest) w = .error (argsMapError token)) := by
  refine ⟨rfl, rfl, fun progname rest w => ⟨rfl, rfl, rfl, rfl⟩, ?_, ?_, ?_⟩
  · intro args st next key command hparse hpos
    rcases ParseArgsFrom_kickOut [helpFlag] (MapPositional (cli_uri_map ext)) rfl args false none
        Parsed.empty st next rfl hparse with ⟨hnone, _⟩ | ⟨before, k, v, hargs, hlookup, hsome⟩
    · rw [hnone] at hpos; cases hpos
    · rw [hsome] at hpos
      cases hpos
      have hmem := MapPositional_lookup _ _ _ hlookup
      simp only [cli_uri_map, List.mem_cons, Prod.mk.injEq, List.mem_singleton, List.not_mem_nil,
        or_false] at hmem
      exact ⟨hmem, before, hargs⟩
  · intro progname args w st next hparse hpos
    simp only [cli_uri, hparse, hpos]
  · intro progname token rest w hkey hdash
    have hlookup : (MapPositional (cli_uri_map ext)).lookup token = none := by
      simp only [List.mem_cons, List.mem_singleton, List.not_mem_nil, or_false, not_or] at hkey
      obtain ⟨h1, h2, h3, h4⟩ := hkey
      have e1 : ("sw:sdir" == token) = false := by simpa using fun h => h1 h.symm
      have e2 : ("sw:install" == token) = false := by simpa using fun h => h2 h.symm
      have e3 : ("sw:remove" == token) = false := by simpa using fun h => h3 h.symm
      have e4 : ("sw:build" == token) = false := by simpa using fun h => h4 h.symm
      simp [MapPositional, cli_uri_map, List.find?, e1, e2, e3, e4]
    simp only [cli_uri, ParseArgs]
    rw [ParseArgsFrom_plain_token [helpFlag] _ token rest Parsed.empty hdash rfl, hlookup]

/-- Witness of C4: in a concrete state, `sw:remove org.demo.a` as arguments of
`uri` does what `cli_uri_remove` does on `org.demo.a`, the parse of these
arguments selects that handler with the one token left, and the token
`sw:fetch` selects nothing. -/
theorem C4_cli_uri_dispatch_witness :
    cli_uri (clientExt0 conflictingPins) "sw" ["sw:remove", "org.demo.a"] world0 =
      cli_uri_remove (clientExt0 conflictingPins) "sw" ["org.demo.a"] world0 ∧
    (∃ before, ["sw:remove", "org.demo.a"] = before ++ "sw:remove" :: ["org.demo.a"]) ∧
    cli_uri (clientExt0 conflictingPins) "sw" ["sw:fetch", "org.demo.a"] world0 =
      .error (argsMapError "sw:fetch") :=
  ⟨((C4_cli_uri_dispatch (clientExt0 conflictingPins)).2.2.1 "sw" ["org.demo.a"] world0).2.2.1,
   ((C4_cli_uri_dispatch (clientExt0 conflictingPins)).2.2.2.1 ["sw:remove", "org.demo.a"]
      { flags := [], positional := some ("sw:remove", cli_uri_remove (clientExt0 conflictingPins)) }
      ["org.demo.a"] "sw:remove" (cli_uri_remove (clientExt0 conflictingPins)) rfl rfl).2,
   (C4_cli_uri_dispatch (clientExt0 conflictingPins)).2.2.2.2.2 "sw" "sw:fetch" ["org.demo.a"] world0
      (by decide) (by decide)⟩

theorem mem_removeInstalledPackage (p q : Package) (w : World) :
    q ∈ (removeInstalledPackage p w).installed_packages ↔ q ∈ w.installed_packages ∧ q ≠ p := by
  simp [removeInstalledPackage]

theorem mem_remove_all (dir f : Path) (w : World) :
    f ∈ (remove_all dir w).files ↔ f ∈ w.files ∧ ¬ (dir <+: f) := by
  simp only [remove_all, List.mem_filter, Bool.not_eq_true', ← List.isPrefixOf_iff_prefix,
    Bool.not_eq_true]

/-- C9. Explicit uninstall through `sw:remove`: when a package argument is given
and resolves to `p`, the handler ends in the state in which the record of `p`
has left the installed packages of the service database (all other records
stay) and every path at or below the directory of `p` has left the file system
(all other paths stay); when no package argument is given the state is
returned unchanged. -/
theorem C9_cli_uri_remove (ext : ClientExt) :
    (∀ (progname : String) (args : List String) (w w1 w2 : World) (st : Parsed String)
        (next : List String) (key package : String) (p0 p : Package),
      ParseArgs [helpFlag] Positional args = .ok (st, next) →
      st.positional = some (key, package) →
      ext.extractFromString package = .ok p0 →
      ext.resolve p0 w = .ok (p, w1) →
      ext.getServiceDatabase w1 = .ok w2 →
      ∃ w3, cli_uri_remove ext progname args w = .ok w3 ∧
        w3 = remove_all (ext.getDir p) (removeInstalledPackage p w2) ∧
        p ∉ w3.installed_packages ∧
        (∀ q, q ≠ p → (q ∈ w3.installed_packages ↔ q ∈ w2.installed_packages)) ∧
        (∀ f, f ∈ w3.files ↔ f ∈ w2.files ∧ ¬ (ext.getDir p <+: f))) ∧
    (∀ (package : String),
      package.data.head? ≠ some '-' →
      ParseArgs [helpFlag] Positional [package] =
        .ok ({ flags := [], positional := some (package, package) }, [])) ∧
    (∀ (progname : String) (w : World), cli_uri_remove ext progname [] w = .ok w) ∧
    (∀ (progname : String) (args : List String) (w : World) (st : Parsed String)
        (next : List String),
      ParseArgs [helpFlag] Positional args = .ok (st, next) →
      st.positional = none → cli_uri_remove ext progname args w = .ok w) := by
  refine ⟨?_, ?_, fun progname w => rfl, ?_⟩
  · intro progname args w w1 w2 st next key package p0 p hparse hpos hextract hresolve hdb
    refine ⟨remove_all (ext.getDir p) (removeInstalledPackage p w2), ?_, rfl, ?_, ?_, ?_⟩
    · simp only [cli_uri_remove, hparse, hpos, hextract, hresolve, hdb]
    · simp [remove_all, mem_removeInstalledPackage]
    · intro q hq
      simp [remove_all, mem_removeInstalledPackage, hq]
    · intro f
      rw [mem_remove_all]
      simp [removeInstalledPackage]
  · intro package hdash
    simp only [ParseArgs]
    rw [ParseArgsFrom_plain_token [helpFlag] Positional package [] Parsed.empty hdash rfl]
    rfl
  · intro progname args w st next hparse hpos
    simp only [cli_uri_remove, hparse, hpos]

/-- Witness of C9: `sw:remove` with the argument `org.demo.a` in a state where
that package is installed under `pkg/a`: the record is gone, and of the four
paths only `pkg` and `pkg/b` stay. -/
theorem C9_cli_uri_remove_witness :
    ∃ w3, cli_uri_remove (clientExt0 conflictingPins) "sw" ["org.demo.a"] world0 = .ok w3 ∧
      w3 = remove_all ["pkg", "a"] (removeInstalledPackage ⟨"org.demo.a", "1.0.0"⟩ world0) ∧
      (⟨"org.demo.a", "1.0.0"⟩ : Package) ∉ w3.installed_packages ∧
      (∀ q, q ≠ (⟨"org.demo.a", "1.0.0"⟩ : Package) →
        (q ∈ w3.installed_packages ↔ q ∈ world0.installed_packages)) ∧
      (∀ f, f ∈ w3.files ↔ f ∈ world0.files ∧ ¬ (["pkg", "a"] <+: f)) :=
  (C9_cli_uri_remove (clientExt0 conflictingPins)).1 "sw" ["org.demo.a"] world0 world0 world0
    { flags := [], positional := some ("org.demo.a", "org.demo.a") } [] "org.demo.a" "org.demo.a"
    ⟨"org.demo.a", "1.0.0"⟩ ⟨"org.demo.a", "1.0.0"⟩ rfl rfl rfl rfl rfl

/-! ## Theorems: target.cpp -/

theorem find_if_le {T : Type} (p : T → Bool) (l : List T) : find_if p l ≤ l.length := by
  induction l with
  | nil => simp [find_if]
  | cons t ts ih =>
    simp only [find_if, List.length_cons]
    split <;> omega

theorem find_if_found {T : Type} (p : T → Bool) (l : List T) (h : ∃ t ∈ l, p t = true) :
    ∃ t, l[find_if p l]? = some t ∧ p t = true := by
  induction l with
  | nil => simp at h
  | cons t ts ih =>
    by_cases ht : p t = true
    · exact ⟨t, by simp [find_if, ht], ht⟩
    · obtain ⟨u, hu, hpu⟩ := h
      have hmem : u ∈ ts := by
        rcases List.mem_cons.mp hu with rfl | h2
        · exact absurd hpu ht
        · exact h2
      obtain ⟨v, hv, hpv⟩ := ih ⟨u, hmem, hpu⟩
      exact ⟨v, by simp [find_if, ht, hv], hpv⟩

theorem find_if_before {T : Type} (p : T → Bool) (l : List T) (j : Nat) (u : T)
    (hj : j < find_if p l) (hu : l[j]? = some u) : p u = false := by
  induction l generalizing j with
  | nil => simp [find_if] at hj
  | cons t ts ih =>
    by_cases ht : p t = true
    · simp [find_if, ht] at hj
    · cases j with
      | zero =>
        simp at hu
        subst hu
        simpa using ht
      | succ j =>
        simp [find_if, ht] at hj
        simp at hu
        exact ih j hj hu

theorem find_if_eq_length {T : Type} (p : T → Bool) (l : List T) :
    find_if p l = l.length ↔ ∀ t ∈ l, p t = false := by
  induction l with
  | nil => simp [find_if]
  | cons t ts ih =>
    by_cases ht : p t = true
    · simp [find_if, ht]
    · simp [find_if, ht, ih]

/-- C5. For every list of targets and every settings `s`, `TargetData::find`
returns a position: if some target compares equal to `s`, the position holds
such a target and no earlier position does; it is `end()` exactly when no
target compares equal to `s`; the const overload returns the same position. -/
theorem C5_TargetData_find {T EP S : Type} (eq : T → S → Bool) (td : TargetData T EP) (s : S) :
    td.find eq s ≤ td.targets.length ∧
    ((∃ t ∈ td.targets, eq t s = true) →
      ∃ t, td.targets[td.find eq s]? = some t ∧ eq t s = true ∧
        ∀ j u, j < td.find eq s → td.targets[j]? = some u → eq u s = false) ∧
    (td.find eq s = td.targets.length ↔ ∀ t ∈ td.targets, eq t s = false) ∧
    td.find_const eq s = td.find eq s := by
  refine ⟨find_if_le _ _, ?_, find_if_eq_length _ _, rfl⟩
  intro h
  obtain ⟨t, ht, hp⟩ := find_if_found (fun t => eq t s) td.targets h
  exact ⟨t, ht, hp, fun j u hj hu => find_if_before (fun t => eq t s) td.targets j u hj hu⟩

/-- Witness of C5: among the targets 5, 7, 7, compared by equality, the lookup
of 7 gives position 1, which holds 7, and position 0 does not compare equal. -/
theorem C5_TargetData_find_witness :
    ∃ t, ([5, 7, 7] : List Nat)[TargetData.find (fun t s => t == s)
        ({ targets := [5, 7, 7], ep := none } : TargetData Nat Unit) 7]? = some t ∧
      (t == 7) = true ∧
      ∀ j u, j < TargetData.find (fun t s => t == s)
          ({ targets := [5, 7, 7], ep := none } : TargetData Nat Unit) 7 →
        ([5, 7, 7] : List Nat)[j]? = some u → (u == 7) = false :=
  (C5_TargetData_find (fun t s => t == s)
    ({ targets := [5, 7, 7], ep := none } : TargetData Nat Unit) 7).2.1 ⟨7, by decide, by decide⟩

/-- C6. `TargetData::loadPackages` fails with the runtime error "No entry point
provided" exactly when no entry point is set, and then calls nothing; when an
entry point is set (also right after `setEntryPoint` with a non-null pointer)
it calls that entry point once, with the same whitelist, and its outcome is the
outcome of that call: it raises nothing on its own. -/
theorem C6_TargetData_loadPackages {T EP WL E : Type} (run : EP → WL → Except E Unit)
    (td : TargetData T EP) (whitelist : WL) :
    ((td.loadPackages run whitelist).1 = .error (.runtime_error "No entry point provided") ↔
      td.ep = none) ∧
    (td.ep = none → (td.loadPackages run whitelist).2 = []) ∧
    (∀ e, td.ep = some e →
      (td.loadPackages run whitelist).2 = [(e, whitelist)] ∧
      (run e whitelist = .ok () → (td.loadPackages run whitelist).1 = .ok ()) ∧
      (∀ err, run e whitelist = .error err →
        (td.loadPackages run whitelist).1 = .error (.from_entry_point err)) ∧
      (∀ msg, (td.loadPackages run whitelist).1 ≠ .error (.runtime_error msg))) ∧
    (∀ e, ((td.setEntryPoint (some e)).loadPackages run whitelist).2 = [(e, whitelist)] ∧
      ∀ msg, ((td.setEntryPoint (some e)).loadPackages run whitelist).1 ≠
        .error (.runtime_error msg)) := by
  have key : ∀ (td : TargetData T EP) (e : EP), td.ep = some e →
      (td.loadPackages run whitelist).2 = [(e, whitelist)] ∧
      (run e whitelist = .ok () → (td.loadPackages run whitelist).1 = .ok ()) ∧
      (∀ err, run e whitelist = .error err →
        (td.loadPackages run whitelist).1 = .error (.from_entry_point err)) ∧
      (∀ msg, (td.loadPackages run whitelist).1 ≠ .error (.runtime_error msg)) := by
    intro td e he
    unfold TargetData.loadPackages
    rw [he]
    cases hr : run e whitelist with
    | error err => simp [hr]
    | ok u => cases u; simp [hr]
  refine ⟨?_, ?_, key td, fun e => ?_⟩
  · constructor
    · intro h
      cases hep : td.ep with
      | none => rfl
      | some e => exact absurd h ((key td e hep).2.2.2 _)
    · intro h
      simp [TargetData.loadPackages, h]
  · intro h
    simp [TargetData.loadPackages, h]
  · have := key (td.setEntryPoint (some e)) e rfl
    exact ⟨this.1, this.2.2.2⟩

/-- Witness of C6: with the entry point 3 set, whose own `loadPackages` ends
well, the call is made once with the whitelist and `loadPackages` ends well. -/
theorem C6_TargetData_loadPackages_witness :
    (TargetData.loadPackages (fun (_ : Nat) (_ : List String) => (.ok () : Except String Unit))
        ({ targets := ([] : List Nat), ep := some 3 }) ["org.demo.a"]).2 = [(3, ["org.demo.a"])] ∧
    (TargetData.loadPackages (fun (_ : Nat) (_ : List String) => (.ok () : Except String Unit))
        ({ targets := ([] : List Nat), ep := some 3 }) ["org.demo.a"]).1 = .ok () :=
  ⟨((C6_TargetData_loadPackages (fun (_ : Nat) (_ : List String) => (.ok () : Except String Unit))
      ({ targets := ([] : List Nat), ep := some 3 }) ["org.demo.a"]).2.2.1 3 rfl).1,
   ((C6_TargetData_loadPackages (fun (_ : Nat) (_ : List String) => (.ok () : Except String Unit))
      ({ targets := ([] : List Nat), ep := some 3 }) ["org.demo.a"]).2.2.1 3 rfl).2.1 rfl⟩

/-! ## Theorems: integrate.cpp -/

theorem TargetMap_contains_iff (m : TargetMap) (pkg : PackageId) :
    m.contains pkg = true ↔ pkg ∈ m.map Prod.fst := by
  simp only [TargetMap.contains, List.any_eq_true, List.mem_map, beq_iff_eq]

theorem cmake_imported_config_subject (ext : IntegrateExt) (cygwin : Bool) (name st : String)
    (tgt : Target) (out : List CMakeStmt)
    (h : cmake_imported_config ext cygwin name st tgt = .ok out) :
    ∀ x ∈ out, x.subject = none ∨ x.subject = some name := by
  unfold cmake_imported_config at h
  dsimp only at h
  cases hc : toCmakeStringCapital (ext.configurationType tgt.settings) with
  | error e => rw [hc] at h; cases h
  | ok capital =>
    rw [hc] at h
    dsimp only at h
    by_cases hh : (tgt.interface.header_only != "true") = true
    · rw [if_pos hh] at h
      cases hu : toCmakeString (ext.configurationType tgt.settings) with
      | error e => rw [hu] at h; cases h
      | ok upper =>
        rw [hu] at h
        cases h
        intro x hx
        simp only [List.mem_append, List.mem_cons, List.mem_singleton, List.not_mem_nil,
          or_false] at hx
        rcases hx with (rfl | rfl | rfl | rfl) | (rfl | rfl | rfl | rfl | rfl) <;>
          simp [CMakeStmt.subject]
    · rw [if_neg hh] at h
      cases h
      intro x hx
      simp only [List.mem_cons, List.mem_singleton, List.not_mem_nil, or_false] at hx
      rcases hx with rfl | rfl | rfl | rfl <;> simp [CMakeStmt.subject]

theorem cmake_imported_configs_subject (ext : IntegrateExt) (cygwin : Bool) (name st : String)
    (tgts : List Target) (out : List CMakeStmt)
    (h : cmake_imported_configs ext cygwin name st tgts = .ok out) :
    ∀ x ∈ out, x.subject = none ∨ x.subject = some name := by
  induction tgts generalizing out with
  | nil =>
    simp [cmake_imported_configs] at h
    subst h
    simp
  | cons tgt tgts ih =>
    unfold cmake_imported_configs at h
    split at h
    · cases h
    · rename_i first hfirst
      split at h
      · cases h
      · rename_i more hmore
        cases h
        intro x hx
        rcases List.mem_append.mp hx with hx | hx
        · exact cmake_imported_config_subject ext cygwin name st tgt first hfirst x hx
        · exact ih more hmore x hx

theorem cmake_alias_loop_subject (pkg : PackageId) (n : Nat) :
    ∀ x ∈ cmake_alias_loop pkg n, x.subject = some (pkg2string pkg.toString) := by
  induction n with
  | zero => simp [cmake_alias_loop]
  | succ i ih =>
    intro x hx
    simp only [cmake_alias_loop, List.mem_cons] at hx
    rcases hx with rfl | hx
    · split <;> rfl
    · exact ih x hx

theorem cmake_aliases_subject (pkg : PackageId) :
    ∀ x ∈ cmake_aliases pkg, x.subject = some (pkg2string pkg.toString) := by
  unfold cmake_aliases
  split
  · exact cmake_alias_loop_subject pkg _
  · simp

theorem cmake_targets_subject (ext : IntegrateExt) (cygwin : Bool) (b : Build) (m : TargetMap)
    (out : List CMakeStmt) (h : cmake_targets ext cygwin b m = .ok out) :
    ∀ x ∈ out, x.subject = none ∨
      ∃ pkg, pkg ∈ m.map Prod.fst ∧ b.predefined.contains pkg = false ∧
        x.subject = some (pkg2string pkg.toString) := by
  induction m generalizing out with
  | nil =>
    simp [cmake_targets] at h
    subst h
    simp
  | cons e rest ih =>
    have lift : ∀ out2, cmake_targets ext cygwin b rest = .ok out2 →
        ∀ x ∈ out2, x.subject = none ∨
          ∃ pkg, pkg ∈ (e :: rest).map Prod.fst ∧ b.predefined.contains pkg = false ∧
            x.subject = some (pkg2string pkg.toString) := by
      intro out2 h2 x hx
      rcases ih out2 h2 x hx with h3 | ⟨pkg, h3, h4, h5⟩
      · exact Or.inl h3
      · exact Or.inr ⟨pkg, List.mem_cons_of_mem _ h3, h4, h5⟩
    obtain ⟨pkg, tgts⟩ := e
    cases tgts with
    | nil => exact lift out (by simpa [cmake_targets] using h)
    | cons t tgts =>
      unfold cmake_targets at h
      by_cases hpre : b.predefined.contains pkg = true
      · rw [if_pos hpre] at h; exact lift out h
      · rw [if_neg hpre] at h
        by_cases hexe : (t.interface.type == "native_executable") = true
        · rw [if_pos hexe] at h; exact lift out h
        · rw [if_neg hexe] at h
          dsimp only at h
          cases hconfigs : cmake_imported_configs ext cygwin (pkg2string pkg.toString)
              (library_kind t.interface) (t :: tgts) with
          | error e => rw [hconfigs] at h; cases h
          | ok configs =>
            rw [hconfigs] at h
            dsimp only at h
            cases hmore : cmake_targets ext cygwin b rest with
            | error e => rw [hmore] at h; cases h
            | ok more =>
              rw [hmore] at h
              cases h
              have here : ∃ q, q ∈ ((pkg, t :: tgts) :: rest).map Prod.fst ∧
                  b.predefined.contains q = false ∧
                  some (pkg2string pkg.toString) = some (pkg2string q.toString) :=
                ⟨pkg, by simp, by simpa using hpre, rfl⟩
              intro x hx
              simp only [List.mem_append, List.mem_cons, List.mem_singleton, List.not_mem_nil,
                or_false] at hx
              rcases hx with (((((rfl | rfl | rfl) | hx) | (rfl | rfl | rfl)) | hx) | rfl) | hx
              · right; simpa [CMakeStmt.subject] using here
              · right; simpa [CMakeStmt.subject] using here
              · left; rfl
              · rcases cmake_imported_configs_subject ext cygwin _ _ _ configs hconfigs x hx
                  with h3 | h3
                · exact Or.inl h3
                · right; rw [h3]; exact here
              · left; rfl
              · right; simpa [CMakeStmt.subject] using here
              · left; rfl
              · right; rw [cmake_aliases_subject pkg x hx]; exact here
              · left; rfl
              · exact lift more hmore x hx

theorem cmake_dependencies_subject (b : Build) (m : TargetMap) :
    ∀ x ∈ cmake_dependencies b m,
      ∃ pkg, pkg ∈ m.map Prod.fst ∧ b.predefined.contains pkg = false ∧
        x.subject = some (pkg2string pkg.toString) := by
  induction m with
  | nil => simp [cmake_dependencies]
  | cons e rest ih =>
    have lift : ∀ x ∈ cmake_dependencies b rest,
        ∃ pkg, pkg ∈ (e :: rest).map Prod.fst ∧ b.predefined.contains pkg = false ∧
          x.subject = some (pkg2string pkg.toString) := by
      intro x hx
      obtain ⟨pkg, h3, h4, h5⟩ := ih x hx
      exact ⟨pkg, List.mem_cons_of_mem _ h3, h4, h5⟩
    obtain ⟨pkg, tgts⟩ := e
    cases tgts with
    | nil => simpa [cmake_dependencies] using lift
    | cons t tgts =>
      unfold cmake_dependencies
      by_cases hpre : b.predefined.contains pkg = true
      · rw [if_pos hpre]; exact lift
      · rw [if_neg hpre]
        by_cases hexe : (t.interface.type == "native_executable") = true
        · rw [if_pos hexe]; exact lift
        · rw [if_neg hexe]
          intro x hx
          rcases List.mem_append.mp hx with hx | hx
          · obtain ⟨kv, _, rfl⟩ := List.mem_map.mp hx
            exact ⟨pkg, by simp, by simpa using hpre, rfl⟩
          · exact lift x hx

/-- C7. The CMake emitter filters out predefined targets: in the statements of
the generated `CMakeLists.txt`, in the targets section and in the dependencies
section alike, no statement (`add_library`, `target_compile_definitions`,
`target_include_directories`, `target_link_libraries`, `set_property`,
`set_target_properties`, `add_dependencies`, alias) has as its subject a
package of the predefined-target map. Package ids are told apart by their
lower-case rendering, which is what the statements carry. -/
theorem C7_cmake_filters_predefined (ext : IntegrateExt) (cygwin : Bool) (b : Build)
    (out : List CMakeStmt) (h : integrate_cmake ext cygwin b = .ok out)
    (hinj : ∀ q ∈ b.targets.map Prod.fst, ∀ p ∈ b.predefined.map Prod.fst,
      pkg2string q.toString = pkg2string p.toString → q = p) :
    ∀ p, b.predefined.contains p = true → ∀ x ∈ out, x.subject ≠ some (pkg2string p.toString) := by
  intro p hp x hx hsub
  have hpmem := (TargetMap_contains_iff b.predefined p).mp hp
  have bad : ∀ q, q ∈ b.targets.map Prod.fst → b.predefined.contains q = false →
      x.subject = some (pkg2string q.toString) → False := by
    intro q hq hqpre hxq
    rw [hsub] at hxq
    have := hinj q hq p hpmem (Option.some.inj hxq).symm
    subst this
    rw [hp] at hqpre
    cases hqpre
  unfold integrate_cmake at h
  cases ht : cmake_targets ext cygwin b b.targets with
  | error e => rw [ht] at h; cases h
  | ok targets =>
    rw [ht] at h
    cases h
    simp only [List.mem_append, List.mem_cons, List.mem_singleton, List.not_mem_nil,
      or_false] at hx
    rcases hx with (((rfl | rfl | rfl | rfl | rfl) | hx) | rfl) | hx
    · cases hsub
    · cases hsub
    · cases hsub
    · cases hsub
    · cases hsub
    · rcases cmake_targets_subject ext cygwin b b.targets targets ht x hx with h1 | ⟨q, h1, h2, h3⟩
      · rw [h1] at hsub; cases hsub
      · exact bad q h1 h2 h3
    · cases hsub
    · obtain ⟨q, h1, h2, h3⟩ := cmake_dependencies_subject b b.targets x hx
      exact bad q h1 h2 h3

/-- Witness of C7: the build of `org.demo.a-1.0.0`, which links to the predefined
`org.sys.p-1.0.0`; the emitter writes the statements `cmake0`, none of which has
the predefined package as its subject. -/
theorem C7_cmake_filters_predefined_witness :
    integrate_cmake integrateExt0 false build0 = .ok cmake0 ∧
    ∀ x ∈ cmake0, x.subject ≠ some (pkg2string pkgP.toString) :=
  ⟨by decide, C7_cmake_filters_predefined integrateExt0 false build0 cmake0 (by decide) (by decide)
    pkgP (by decide)⟩

theorem forEach_invariant {α σ : Type} (P : σ → Prop) (body : α → σ → Option (Except Thrown σ))
    (hbody : ∀ x st st2, body x st = some (.ok st2) → P st → P st2) (l : List α) :
    ∀ st st2, forEach body l st = some (.ok st2) → P st → P st2 := by
  induction l with
  | nil =>
    intro st st2 h hP
    simp [forEach] at h
    subst h
    exact hP
  | cons x xs ih =>
    intro st st2 h hP
    unfold forEach at h
    cases hb : body x st with
    | none => rw [hb] at h; cases h
    | some r =>
      cases r with
      | error e => rw [hb] at h; cases h
      | ok st3 =>
        rw [hb] at h
        exact ih st3 st2 h (hbody x st st3 hb hP)

theorem waf_parse_flags_kind (ext : IntegrateExt) (s : InterfaceSettings) :
    ∀ x ∈ waf_parse_flags ext s, ∃ flag, x = WafStmt.parse_flags flag := by
  intro x hx
  simp only [waf_parse_flags, List.mem_append, List.mem_map, List.mem_singleton] at hx
  rcases hx with (((rfl | ⟨kv, _, rfl⟩) | ⟨d, _, rfl⟩) | ⟨d, _, rfl⟩) | ⟨d, _, rfl⟩
  · exact ⟨_, rfl⟩
  · split <;> exact ⟨_, rfl⟩
  · exact ⟨_, rfl⟩
  · exact ⟨_, rfl⟩
  · exact ⟨_, rfl⟩

theorem process_out_kind (ext : IntegrateExt) (b : Build) (fuel : Nat) :
    ∀ (nt : PackageId × TargetSettings) (st st2 : WafState),
      process ext b fuel nt st = some (.ok st2) →
      (∀ x ∈ st.out, ∃ flag, x = WafStmt.parse_flags flag) →
      ∀ x ∈ st2.out, ∃ flag, x = WafStmt.parse_flags flag := by
  induction fuel with
  | zero => intro nt st st2 h; simp [process] at h
  | succ fuel ih =>
    intro nt st st2 h hP
    unfold process at h
    by_cases hv : st.visited.contains nt = true
    · rw [if_pos hv] at h
      cases h
      exact hP
    · rw [if_neg hv] at h
      dsimp only at h
      cases hf : b.targets.find nt.1 nt.2 with
      | none => rw [hf] at h; cases h
      | some t =>
        rw [hf] at h
        dsimp only at h
        refine forEach_invariant (fun s => ∀ x ∈ s.out, ∃ flag, x = WafStmt.parse_flags flag) _ ?_
          _ _ _ h ?_
        · intro kv s s2 hb hs
          cases hk : ext.toPackageId kv.1 with
          | error e => rw [hk] at hb; cases hb
          | ok k => rw [hk] at hb; exact ih _ _ _ hb hs
        · intro x hx
          rcases List.mem_append.mp hx with hx | hx
          · exact hP x hx
          · exact waf_parse_flags_kind ext _ x hx

theorem waf_lib_names_kind (pkg : PackageId) (n : Nat) :
    ∀ x ∈ waf_lib_names pkg n, ∃ name, x = WafStmt.lib_name name := by
  induction n with
  | zero => simp [waf_lib_names]
  | succ i ih =>
    intro x hx
    simp only [waf_lib_names, List.mem_cons] at hx
    rcases hx with rfl | hx
    · split <;> exact ⟨_, rfl⟩
    · exact ih x hx

theorem waf_targets_comment (ext : IntegrateExt) (fuel : Nat) (b : Build) (m : TargetMap)
    (out : List WafStmt) (h : waf_targets ext fuel b m = some (.ok out)) :
    ∀ name, WafStmt.comment name ∈ out →
      ∃ pkg, pkg ∈ m.map Prod.fst ∧ b.predefined.contains pkg = false ∧
        name = pkg2string pkg.toString := by
  induction m generalizing out with
  | nil =>
    simp [waf_targets] at h
    subst h
    simp
  | cons e rest ih =>
    have lift : ∀ out2, waf_targets ext fuel b rest = some (.ok out2) →
        ∀ name, WafStmt.comment name ∈ out2 →
          ∃ pkg, pkg ∈ (e :: rest).map Prod.fst ∧ b.predefined.contains pkg = false ∧
            name = pkg2string pkg.toString := by
      intro out2 h2 name hx
      obtain ⟨pkg, h3, h4, h5⟩ := ih out2 h2 name hx
      exact ⟨pkg, List.mem_cons_of_mem _ h3, h4, h5⟩
    obtain ⟨pkg, tgts⟩ := e
    cases tgts with
    | nil => exact lift out (by simpa [waf_targets] using h)
    | cons t tgts =>
      unfold waf_targets at h
      by_cases hpre : b.predefined.contains pkg = true
      · rw [if_pos hpre] at h; exact lift out h
      · rw [if_neg hpre] at h
        by_cases hexe : (t.interface.type == "native_executable") = true
        · rw [if_pos hexe] at h; exact lift out h
        · rw [if_neg hexe] at h
          cases hproc : process ext b fuel (t.package, t.settings) { visited := [], out := [] } with
          | none => rw [hproc] at h; cases h
          | some r =>
            cases r with
            | error e => rw [hproc] at h; cases h
            | ok st =>
              rw [hproc] at h
              dsimp only at h
              cases hmore : waf_targets ext fuel b rest with
              | none => rw [hmore] at h; cases h
              | some r2 =>
                cases r2 with
                | error e => rw [hmore] at h; cases h
                | ok more =>
                  rw [hmore] at h
                  cases h
                  intro name hx
                  simp only [List.mem_append, List.mem_cons, List.mem_singleton,
                    List.not_mem_nil, or_false] at hx
                  rcases hx with (((((hx | hx) | hx) | hx) | hx) | hx) | hx
                  · cases hx
                    exact ⟨pkg, by simp, by simpa using hpre, rfl⟩
                  · cases hx
                  · obtain ⟨n, hn⟩ := waf_lib_names_kind pkg _ _ hx
                    cases hn
                  · cases hx
                  · obtain ⟨f, hf⟩ := process_out_kind ext b fuel _ _ _ hproc (by simp) _ hx
                    cases hf
                  · cases hx
                  · exact lift more hmore name hx

/-- C8 (as stated, refuted). In the build `build0` the package `org.sys.p-1.0.0`
is predefined and the library `org.demo.a-1.0.0` links to it; the generated
`wscript` holds, inside the block of `org.demo.a-1.0.0`, the `ctx.parse_flags`
lines built from the interface settings of the predefined package. -/
theorem C8_counterexample_predefined_dependency :
    integrate_waf integrateExt0 5 build0 = some (.ok waf0) ∧
    build0.predefined.contains pkgP = true ∧
    waf_parse_flags integrateExt0 targetP.interface =
      [.parse_flags "-l/sys/lib/p", .parse_flags "-DSYS_P", .parse_flags "-I/sys/include"] ∧
    (∀ x ∈ waf_parse_flags integrateExt0 targetP.interface, x ∈ waf0) := by
  decide

theorem Char_isUpper_iff (c : Char) : c.isUpper = true ↔ 65 ≤ c.toNat ∧ c.toNat ≤ 90 := by
  simp only [Char.isUpper, Bool.and_eq_true, decide_eq_true_eq, ge_iff_le, Char.toNat,
    UInt32.le_def, BitVec.le_def]
  rfl

/-- C18. The function `toCmakeString` is defined exactly on `Debug`,
`MinimalSizeRelease`, `ReleaseWithDebugInformation` and `Release`, which it maps
to the pairwise distinct texts `DEBUG`, `MINSIZEREL`, `RELWITHDEBINFO`, `RELEASE`;
on every other configuration type it fails with Unimplemented, and so does
`toCmakeStringCapital`. On the four, `toCmakeStringCapital` gives `Debug`,
`Minsizerel`, `Relwithdebinfo`, `Release`: the first letter upper-case, all
others lower-case, and upper-casing it gives the result of `toCmakeString`. -/
theorem C18_toCmakeString :
    toCmakeString .Debug = .ok "DEBUG" ∧
    toCmakeString .MinimalSizeRelease = .ok "MINSIZEREL" ∧
    toCmakeString .ReleaseWithDebugInformation = .ok "RELWITHDEBINFO" ∧
    toCmakeString .Release = .ok "RELEASE" ∧
    (∀ t s, toCmakeString t = .ok s →
      t = .Debug ∨ t = .MinimalSizeRelease ∨ t = .ReleaseWithDebugInformation ∨ t = .Release) ∧
    (∀ t1 t2 s, toCmakeString t1 = .ok s → toCmakeString t2 = .ok s → t1 = t2) ∧
    (∀ n, toCmakeString (.other n) = .error SW_UNIMPLEMENTED ∧
      toCmakeStringCapital (.other n) = .error SW_UNIMPLEMENTED) ∧
    toCmakeStringCapital .Debug = .ok "Debug" ∧
    toCmakeStringCapital .MinimalSizeRelease = .ok "Minsizerel" ∧
    toCmakeStringCapital .ReleaseWithDebugInformation = .ok "Relwithdebinfo" ∧
    toCmakeStringCapital .Release = .ok "Release" ∧
    (∀ t s, toCmakeString t = .ok s →
      ∃ c cs, toCmakeStringCapital t = .ok (String.mk (c :: cs)) ∧
        c.isUpper = true ∧ cs.all Char.isLower = true ∧
        to_upper_copy (String.mk (c :: cs)) = s) := by
  refine ⟨rfl, rfl, rfl, rfl, ?_, ?_, fun n => ⟨rfl, rfl⟩, by decide, by decide, by decide,
    by decide, ?_⟩
  · intro t s h
    cases t with
    | other n => cases h
    | _ => simp
  · intro t1 t2 s h1 h2
    cases t1 <;> cases t2 <;>
      first
      | rfl
      | (cases h1; done)
      | (cases h2; done)
      | (cases h1; exact absurd h2 (by decide))
  · intro t s h
    cases t with
    | Debug => cases h; exact ⟨'D', "ebug".data, by decide, by decide, by decide, by decide⟩
    | MinimalSizeRelease =>
      cases h; exact ⟨'M', "insizerel".data, by decide, by decide, by decide, by decide⟩
    | ReleaseWithDebugInformation =>
      cases h; exact ⟨'R', "elwithdebinfo".data, by decide, by decide, by decide, by decide⟩
    | Release => cases h; exact ⟨'R', "elease".data, by decide, by decide, by decide, by decide⟩
    | other n => cases h

/-- Witness of C18: for `MinimalSizeRelease` the capital form is `Minsizerel`
and its upper-casing is `MINSIZEREL`. -/
theorem C18_toCmakeString_witness :
    ∃ c cs, toCmakeStringCapital .MinimalSizeRelease = .ok (String.mk (c :: cs)) ∧
      c.isUpper = true ∧ cs.all Char.isLower = true ∧
      to_upper_copy (String.mk (c :: cs)) = "MINSIZEREL" :=
  C18_toCmakeString.2.2.2.2.2.2.2.2.2.2.2 .MinimalSizeRelease "MINSIZEREL" rfl

theorem cmake_imported_config_not_library (ext : IntegrateExt) (cygwin : Bool) (name st : String)
    (tgt : Target) (out : List CMakeStmt)
    (h : cmake_imported_config ext cygwin name st tgt = .ok out) :
    ∀ x ∈ out, (∀ n k, x ≠ .add_library n k) ∧ (∀ a n, x ≠ .add_library_alias a n) := by
  unfold cmake_imported_config at h
  dsimp only at h
  cases hc : toCmakeStringCapital (ext.configurationType tgt.settings) with
  | error e => rw [hc] at h; cases h
  | ok capital =>
    rw [hc] at h
    dsimp only at h
    by_cases hh : (tgt.interface.header_only != "true") = true
    · rw [if_pos hh] at h
      cases hu : toCmakeString (ext.configurationType tgt.settings) with
      | error e => rw [hu] at h; cases h
      | ok upper =>
        rw [hu] at h
        cases h
        intro x hx
        simp only [List.mem_append, List.mem_cons, List.mem_singleton, List.not_mem_nil,
          or_false] at hx
        rcases hx with (rfl | rfl | rfl | rfl) | (rfl | rfl | rfl | rfl | rfl) <;>
          exact ⟨fun n k hk => (by cases hk), fun a n hk => (by cases hk)⟩
    · rw [if_neg hh] at h
      cases h
      intro x hx
      simp only [List.mem_cons, List.mem_singleton, List.not_mem_nil, or_false] at hx
      rcases hx with rfl | rfl | rfl | rfl <;>
        exact ⟨fun n k hk => (by cases hk), fun a n hk => (by cases hk)⟩

theorem cmake_imported_configs_not_library (ext : IntegrateExt) (cygwin : Bool) (name st : String)
    (tgts : List Target) (out : List CMakeStmt)
    (h : cmake_imported_configs ext cygwin name st tgts = .ok out) :
    ∀ x ∈ out, (∀ n k, x ≠ .add_library n k) ∧ (∀ a n, x ≠ .add_library_alias a n) := by
  induction tgts generalizing out with
  | nil =>
    simp [cmake_imported_configs] at h
    subst h
    simp
  | cons tgt tgts ih =>
    unfold cmake_imported_configs at h
    cases hfirst : cmake_imported_config ext cygwin name st tgt with
    | error e => rw [hfirst] at h; cases h
    | ok first =>
      rw [hfirst] at h
      dsimp only at h
      cases hmore : cmake_imported_configs ext cygwin name st tgts with
      | error e => rw [hmore] at h; cases h
      | ok more =>
        rw [hmore] at h
        cases h
        intro x hx
        rcases List.mem_append.mp hx with hx | hx
        · exact cmake_imported_config_not_library ext cygwin name st tgt first hfirst x hx
        · exact ih more hmore x hx

theorem cmake_alias_loop_kind (pkg : PackageId) (n : Nat) :
    ∀ x ∈ cmake_alias_loop pkg n, ∃ a, x = .add_library_alias a (pkg2string pkg.toString) := by
  induction n with
  | zero => simp [cmake_alias_loop]
  | succ i ih =>
    intro x hx
    simp only [cmake_alias_loop, List.mem_cons] at hx
    rcases hx with rfl | hx
    · split <;> exact ⟨_, rfl⟩
    · exact ih x hx

theorem cmake_aliases_kind (pkg : PackageId) :
    ∀ x ∈ cmake_aliases pkg, ∃ a, x = .add_library_alias a (pkg2string pkg.toString) := by
  unfold cmake_aliases
  split
  · exact cmake_alias_loop_kind pkg _
  · simp

/-- The statements of one package that the targets loop does not skip. -/
theorem cmake_targets_cons_emitted (ext : IntegrateExt) (cygwin : Bool) (b : Build)
    (pkg : PackageId) (t : Target) (tgts : List Target) (rest : TargetMap) (out : List CMakeStmt)
    (hpre : b.predefined.contains pkg = false)
    (hexe : (t.interface.type == "native_executable") = false)
    (h : cmake_targets ext cygwin b ((pkg, t :: tgts) :: rest) = .ok out) :
    ∃ configs more,
      cmake_imported_configs ext cygwin (pkg2string pkg.toString) (library_kind t.interface)
        (t :: tgts) = .ok configs ∧
      cmake_targets ext cygwin b rest = .ok more ∧
      out = [.if_not_target (pkg2string pkg.toString),
             .add_library (pkg2string pkg.toString) (library_kind t.interface), .emptyLines] ++
          configs ++
          [.emptyLines, .add_dependencies (pkg2string pkg.toString) "sw_build_dependencies",
           .emptyLines] ++
          cmake_aliases pkg ++ [.endif] ++ more := by
  unfold cmake_targets at h
  rw [if_neg (by simp [hpre]), if_neg (by simp [hexe])] at h
  dsimp only at h
  cases hconfigs : cmake_imported_configs ext cygwin (pkg2string pkg.toString)
      (library_kind t.interface) (t :: tgts) with
  | error e => rw [hconfigs] at h; cases h
  | ok configs =>
    rw [hconfigs] at h
    dsimp only at h
    cases hmore : cmake_targets ext cygwin b rest with
    | error e => rw [hmore] at h; cases h
    | ok more =>
      rw [hmore] at h
      cases h
      exact ⟨configs, more, rfl, rfl, rfl⟩

/-- The entries that the targets loop skips: no target, a predefined package,
or an executable as first target. -/
theorem cmake_targets_cons_skipped (ext : IntegrateExt) (cygwin : Bool) (b : Build)
    (pkg : PackageId) (tgts : List Target) (rest : TargetMap)
    (h : tgts = [] ∨ b.predefined.contains pkg = true ∨
      ∃ t ts, tgts = t :: ts ∧ (t.interface.type == "native_executable") = true) :
    cmake_targets ext cygwin b ((pkg, tgts) :: rest) = cmake_targets ext cygwin b rest := by
  cases tgts with
  | nil => simp [cmake_targets]
  | cons t ts =>
    conv => lhs; unfold cmake_targets
    by_cases hpre : b.predefined.contains pkg = true
    · rw [if_pos hpre]
    · rw [if_neg hpre]
      rcases h with h | h | ⟨t2, ts2, h, hexe⟩
      · cases h
      · exact absurd h hpre
      · cases h
        rw [if_pos hexe]

theorem cmake_targets_origin (ext : IntegrateExt) (cygwin : Bool) (b : Build) (m : TargetMap)
    (out : List CMakeStmt) (h : cmake_targets ext cygwin b m = .ok out) :
    ∀ x ∈ out, x.subject = none ∨
      ∃ pkg t tgts, (pkg, t :: tgts) ∈ m ∧ b.predefined.contains pkg = false ∧
        (t.interface.type == "native_executable") = false ∧
        x.subject = some (pkg2string pkg.toString) ∧
        (∀ n k, x = .add_library n k → k = library_kind t.interface) ∧
        (∀ a n, x = .add_library_alias a n → x ∈ cmake_aliases pkg) := by
  induction m generalizing out with
  | nil =>
    simp [cmake_targets] at h
    subst h
    simp
  | cons e rest ih =>
    have lift : ∀ out2, cmake_targets ext cygwin b rest = .ok out2 →
        ∀ x ∈ out2, x.subject = none ∨
          ∃ pkg t tgts, (pkg, t :: tgts) ∈ e :: rest ∧ b.predefined.contains pkg = false ∧
            (t.interface.type == "native_executable") = false ∧
            x.subject = some (pkg2string pkg.toString) ∧
            (∀ n k, x = .add_library n k → k = library_kind t.interface) ∧
            (∀ a n, x = .add_library_alias a n → x ∈ cmake_aliases pkg) := by
      intro out2 h2 x hx
      rcases ih out2 h2 x hx with h3 | ⟨pkg, t, tgts, h3, h4⟩
      · exact Or.inl h3
      · exact Or.inr ⟨pkg, t, tgts, List.mem_cons_of_mem _ h3, h4⟩
    obtain ⟨pkg, tgts⟩ := e
    by_cases hskip : tgts = [] ∨ b.predefined.contains pkg = true ∨
        ∃ t ts, tgts = t :: ts ∧ (t.interface.type == "native_executable") = true
    · rw [cmake_targets_cons_skipped ext cygwin b pkg tgts rest hskip] at h
      exact lift out h
    · cases tgts with
      | nil => exact absurd (Or.inl rfl) hskip
      | cons t ts =>
        have hpre : b.predefined.contains pkg = false := by
          cases hp : b.predefined.contains pkg with
          | false => rfl
          | true => exact absurd (Or.inr (Or.inl hp)) hskip
        have hexe : (t.interface.type == "native_executable") = false := by
          cases hp : (t.interface.type == "native_executable") with
          | false => rfl
          | true => exact absurd (Or.inr (Or.inr ⟨t, ts, rfl, hp⟩)) hskip
        obtain ⟨configs, more, hconfigs, hmore, rfl⟩ :=
          cmake_targets_cons_emitted ext cygwin b pkg t ts rest out hpre hexe h
        have here : ∀ x : CMakeStmt, x.subject = some (pkg2string pkg.toString) →
            (∀ n k, x = .add_library n k → k = library_kind t.interface) →
            (∀ a n, x = .add_library_alias a n → x ∈ cmake_aliases pkg) →
            x.subject = none ∨
            ∃ pkg2 t2 tgts2, (pkg2, t2 :: tgts2) ∈ (pkg, t :: ts) :: rest ∧
              b.predefined.contains pkg2 = false ∧
              (t2.interface.type == "native_executable") = false ∧
              x.subject = some (pkg2string pkg2.toString) ∧
              (∀ n k, x = .add_library n k → k = library_kind t2.interface) ∧
              (∀ a n, x = .add_library_alias a n → x ∈ cmake_aliases pkg2) :=
          fun x h1 h2 h3 => Or.inr ⟨pkg, t, ts, List.mem_cons_self _ _, hpre, hexe, h1, h2, h3⟩
        intro x hx
        simp only [List.mem_append, List.mem_cons, List.mem_singleton, List.not_mem_nil,
          or_false] at hx
        rcases hx with (((((rfl | rfl | rfl) | hx) | (rfl | rfl | rfl)) | hx) | rfl) | hx
        · exact here _ rfl (fun n k hk => by cases hk) (fun a n hk => by cases hk)
        · exact here _ rfl (fun n k hk => by cases hk; rfl) (fun a n hk => by cases hk)
        · left; rfl
        · have hnl := cmake_imported_configs_not_library ext cygwin _ _ _ configs hconfigs x hx
          rcases cmake_imported_configs_subject ext cygwin _ _ _ configs hconfigs x hx
            with h3 | h3
          · exact Or.inl h3
          · exact here x h3 (fun n k hk => absurd hk (hnl.1 n k))
              (fun a n hk => absurd hk (hnl.2 a n))
        · left; rfl
        · exact here _ rfl (fun n k hk => by cases hk) (fun a n hk => by cases hk)
        · left; rfl
        · obtain ⟨a, rfl⟩ := cmake_aliases_kind pkg x hx
          exact here _ rfl (fun n k hk => by cases hk) (fun a n hk => hx)
        · left; rfl
        · exact lift more hmore x hx

theorem cmake_targets_block (ext : IntegrateExt) (cygwin : Bool) (b : Build) (m : TargetMap)
    (out : List CMakeStmt) (h : cmake_targets ext cygwin b m = .ok out)
    (pkg : PackageId) (t : Target) (tgts : List Target) (hmem : (pkg, t :: tgts) ∈ m)
    (hpre : b.predefined.contains pkg = false)
    (hexe : (t.interface.type == "native_executable") = false) :
    CMakeStmt.add_library (pkg2string pkg.toString) (library_kind t.interface) ∈ out ∧
    cmake_aliases pkg <:+: out := by
  induction m generalizing out with
  | nil => cases hmem
  | cons e rest ih =>
    obtain ⟨pkg0, tgts0⟩ := e
    by_cases hskip : tgts0 = [] ∨ b.predefined.contains pkg0 = true ∨
        ∃ t ts, tgts0 = t :: ts ∧ (t.interface.type == "native_executable") = true
    · rw [cmake_targets_cons_skipped ext cygwin b pkg0 tgts0 rest hskip] at h
      rcases List.mem_cons.mp hmem with heq | hmem2
      · cases heq
        rcases hskip with h1 | h1 | ⟨t2, ts2, h1, h2⟩
        · cases h1
        · rw [hpre] at h1; cases h1
        · cases h1; rw [hexe] at h2; cases h2
      · exact ih out h hmem2
    · cases tgts0 with
      | nil => exact absurd (Or.inl rfl) hskip
      | cons t0 ts0 =>
        have hpre0 : b.predefined.contains pkg0 = false := by
          cases hp : b.predefined.contains pkg0 with
          | false => rfl
          | true => exact absurd (Or.inr (Or.inl hp)) hskip
        have hexe0 : (t0.interface.type == "native_executable") = false := by
          cases hp : (t0.interface.type == "native_executable") with
          | false => rfl
          | true => exact absurd (Or.inr (Or.inr ⟨t0, ts0, rfl, hp⟩)) hskip
        obtain ⟨configs, more, hconfigs, hmore, rfl⟩ :=
          cmake_targets_cons_emitted ext cygwin b pkg0 t0 ts0 rest out hpre0 hexe0 h
        rcases List.mem_cons.mp hmem with heq | hmem2
        · cases heq
          refine ⟨by simp, ?_⟩
          exact ⟨[.if_not_target (pkg2string pkg.toString),
              .add_library (pkg2string pkg.toString) (library_kind t.interface), .emptyLines] ++
              configs ++
              [.emptyLines, .add_dependencies (pkg2string pkg.toString) "sw_build_dependencies",
               .emptyLines], [.endif] ++ more, by simp⟩
        · obtain ⟨h1, h2⟩ := ih more hmore hmem2
          refine ⟨by simp [h1], ?_⟩
          obtain ⟨pre, post, hpp⟩ := h2
          exact ⟨[.if_not_target (pkg2string pkg0.toString),
              .add_library (pkg2string pkg0.toString) (library_kind t0.interface), .emptyLines] ++
              configs ++
              [.emptyLines, .add_dependencies (pkg2string pkg0.toString) "sw_build_dependencies",
               .emptyLines] ++ cmake_aliases pkg0 ++ [.endif] ++ pre, post, by simp [← hpp]⟩

theorem cmake_alias_loop_eq (pkg : PackageId) (n : Nat) :
    cmake_alias_loop pkg n = (List.range n).reverse.map (fun i =>
      if 1 ≤ i then
        CMakeStmt.add_library_alias (pkg2string pkg.path ++ "-" ++ pkg.version.toString i)
          (pkg2string pkg.toString)
      else CMakeStmt.add_library_alias (pkg2string pkg.path) (pkg2string pkg.toString)) := by
  induction n with
  | zero => rfl
  | succ i ih =>
    rw [List.range_succ, List.reverse_append, List.reverse_singleton, List.singleton_append,
      List.map_cons, cmake_alias_loop, ih]
    congr 1
    by_cases hi : i = 0
    · subst hi; rfl
    · have h1 : 1 ≤ i := Nat.one_le_iff_ne_zero.mpr hi
      simp [hi, h1]

/-- C15. In the CMake emitter the kind written in `add_library ... IMPORTED` is
decided by the interface settings of the first target of the package alone:
`INTERFACE` if `header_only` is `true`, otherwise `SHARED` if `type` is
`native_shared_library`, otherwise `STATIC`. Every such statement of the output
belongs to a package that is not skipped and carries that kind, every package
that is not skipped has its statement, and a package whose first target is a
`native_executable` has no statement at all in the targets section (package
ids being told apart by their lower-case rendering). -/
theorem C15_cmake_library_kind (ext : IntegrateExt) (cygwin : Bool) (b : Build) (m : TargetMap)
    (out : List CMakeStmt) (h : cmake_targets ext cygwin b m = .ok out) :
    (∀ s : InterfaceSettings, library_kind s =
      if s.header_only = "true" then "INTERFACE"
      else if s.type = "native_shared_library" then "SHARED" else "STATIC") ∧
    (∀ name kind, CMakeStmt.add_library name kind ∈ out →
      ∃ pkg t tgts, (pkg, t :: tgts) ∈ m ∧ b.predefined.contains pkg = false ∧
        t.interface.type ≠ "native_executable" ∧
        name = pkg2string pkg.toString ∧ kind = library_kind t.interface) ∧
    (∀ pkg t tgts, (pkg, t :: tgts) ∈ m → b.predefined.contains pkg = false →
      t.interface.type ≠ "native_executable" →
      CMakeStmt.add_library (pkg2string pkg.toString) (library_kind t.interface) ∈ out) ∧
    ((∀ e1 ∈ m, ∀ e2 ∈ m, pkg2string e1.1.toString = pkg2string e2.1.toString → e1 = e2) →
      ∀ pkg t tgts, (pkg, t :: tgts) ∈ m → t.interface.type = "native_executable" →
      ∀ x ∈ out, x.subject ≠ some (pkg2string pkg.toString)) := by
  refine ⟨?_, ?_, ?_, ?_⟩
  · intro s
    unfold library_kind
    by_cases h1 : s.header_only = "true"
    · simp [h1]
    · by_cases h2 : s.type = "native_shared_library"
      · simp [h1, h2]
      · simp [h1, h2]
  · intro name kind hx
    rcases cmake_targets_origin ext cygwin b m out h _ hx with h1 | ⟨pkg, t, tgts, h1, h2, h3, h4, h5, _⟩
    · cases h1
    · refine ⟨pkg, t, tgts, h1, h2, by simpa using h3, ?_, h5 name kind rfl⟩
      simpa [CMakeStmt.subject] using h4
  · intro pkg t tgts hmem hpre hexe
    exact (cmake_targets_block ext cygwin b m out h pkg t tgts hmem hpre (by simpa using hexe)).1
  · intro hname pkg t tgts hmem hexe x hx hsub
    rcases cmake_targets_origin ext cygwin b m out h x hx with h1 | ⟨pkg2, t2, tgts2, h1, _, h3, h4, _⟩
    · rw [h1] at hsub; cases hsub
    · rw [hsub] at h4
      have heq := hname _ hmem _ h1 (Option.some.inj h4)
      cases heq
      rw [hexe] at h3
      exact absurd h3 (by decide)

/-- Witness of C15: for the targets `org.demo.a-1.0.0` (a static library),
`org.demo.s-1.0.0` (a shared library) and `org.demo.tool-1.0.0` (an executable)
the output has `add_library` with `STATIC` and `SHARED` for the first two and no
statement about the third. -/
theorem C15_cmake_library_kind_witness :
    ∃ out, cmake_targets integrateExt0 false build0 map1 = .ok out ∧
      CMakeStmt.add_library "org.demo.a-1.0.0" "STATIC" ∈ out ∧
      CMakeStmt.add_library "org.demo.s-1.0.0" "SHARED" ∈ out ∧
      ∀ x ∈ out, x.subject ≠ some (pkg2string pkgTool.toString) :=
  ⟨_, rfl,
   (C15_cmake_library_kind integrateExt0 false build0 map1 _ rfl).2.2.1
      pkgA targetA [] (by decide) (by decide) (by decide),
   (C15_cmake_library_kind integrateExt0 false build0 map1 _ rfl).2.2.1
      pkgS targetS [] (by decide) (by decide) (by decide),
   (C15_cmake_library_kind integrateExt0 false build0 map1 _ rfl).2.2.2
      (by decide) pkgTool targetTool [] (by decide) (by decide)⟩

/-- C17. For a package whose version is a numeric version of level `L`, the
alias loop of the CMake emitter ends and gives exactly `L` alias statements,
one for each level `i` from `L - 1` down to `0`: the alias
`<lower-cased path>-<version truncated to i components>` for `i >= 1` and the
bare lower-cased path for `i = 0`, each standing for the full lower-cased
package id; a package whose version is a branch gets none. In the output these
statements stand together in the block of every package that is not skipped,
and the output has no other alias statement. -/
theorem C17_cmake_alias_loop :
    (∀ pkg : PackageId, pkg.version.isVersion = true →
      cmake_aliases pkg = (List.range pkg.version.getLevel).reverse.map (fun i =>
        if 1 ≤ i then
          CMakeStmt.add_library_alias (pkg2string pkg.path ++ "-" ++ pkg.version.toString i)
            (pkg2string pkg.toString)
        else CMakeStmt.add_library_alias (pkg2string pkg.path) (pkg2string pkg.toString)) ∧
      (cmake_aliases pkg).length = pkg.version.getLevel) ∧
    (∀ pkg : PackageId, pkg.version.isVersion = false → cmake_aliases pkg = []) ∧
    (∀ (ext : IntegrateExt) (cygwin : Bool) (b : Build) (m : TargetMap) (out : List CMakeStmt),
      cmake_targets ext cygwin b m = .ok out →
      (∀ pkg t tgts, (pkg, t :: tgts) ∈ m → b.predefined.contains pkg = false →
        t.interface.type ≠ "native_executable" → cmake_aliases pkg <:+: out) ∧
      (∀ a n, CMakeStmt.add_library_alias a n ∈ out →
        ∃ pkg t tgts, (pkg, t :: tgts) ∈ m ∧ b.predefined.contains pkg = false ∧
          t.interface.type ≠ "native_executable" ∧
          CMakeStmt.add_library_alias a n ∈ cmake_aliases pkg)) := by
  refine ⟨?_, ?_, ?_⟩
  · intro pkg hv
    have heq : cmake_aliases pkg = cmake_alias_loop pkg pkg.version.getLevel := by
      simp [cmake_aliases, hv]
    rw [heq, cmake_alias_loop_eq]
    exact ⟨rfl, by simp⟩
  · intro pkg hv
    simp [cmake_aliases, hv]
  · intro ext cygwin b m out h
    refine ⟨?_, ?_⟩
    · intro pkg t tgts hmem hpre hexe
      exact (cmake_targets_block ext cygwin b m out h pkg t tgts hmem hpre (by simpa using hexe)).2
    · intro a n hx
      rcases cmake_targets_origin ext cygwin b m out h _ hx with h1 | ⟨pkg, t, tgts, h1, h2, h3, _, _, h6⟩
      · cases h1
      · exact ⟨pkg, t, tgts, h1, h2, by simpa using h3, h6 a n rfl⟩

/-- Witness of C17: `org.demo.a-1.0.0` has level 3 and gets the three aliases
`org.demo.a-1.0`, `org.demo.a-1` and `org.demo.a`, in this order, which stand
together in the statements generated for `build0`. -/
theorem C17_cmake_alias_loop_witness :
    cmake_aliases pkgA =
      [.add_library_alias "org.demo.a-1.0" "org.demo.a-1.0.0",
       .add_library_alias "org.demo.a-1" "org.demo.a-1.0.0",
       .add_library_alias "org.demo.a" "org.demo.a-1.0.0"] ∧
    (cmake_aliases pkgA).length = 3 ∧
    ∃ out, cmake_targets integrateExt0 false build0 build0.targets = .ok out ∧
      cmake_aliases pkgA <:+: out :=
  ⟨by decide, (C17_cmake_alias_loop.1 pkgA (by decide)).2, _, rfl,
   (C17_cmake_alias_loop.2.2 integrateExt0 false build0 build0.targets _ rfl).1
     pkgA targetA [] (by decide) (by decide) (by decide)⟩

theorem cmake_imported_config_header_only (ext : IntegrateExt) (cygwin : Bool) (name st : String)
    (tgt : Target) (out : List CMakeStmt) (hh : tgt.interface.header_only = "true")
    (h : cmake_imported_config ext cygwin name st tgt = .ok out) :
    ∀ x ∈ out, (∀ n items, x ≠ .target_link_libraries n items) ∧
      (∀ n c, x ≠ .set_property_imported_configurations n c) ∧
      (∀ n ps, x ≠ .set_target_properties n ps) := by
  unfold cmake_imported_config at h
  dsimp only at h
  cases hc : toCmakeStringCapital (ext.configurationType tgt.settings) with
  | error e => rw [hc] at h; cases h
  | ok capital =>
    rw [hc] at h
    dsimp only at h
    rw [if_neg (by simp [hh])] at h
    cases h
    intro x hx
    simp only [List.mem_cons, List.mem_singleton, List.not_mem_nil, or_false] at hx
    rcases hx with rfl | rfl | rfl | rfl <;>
      exact ⟨fun n k hk => (by cases hk), fun a n hk => (by cases hk), fun a n hk => (by cases hk)⟩

/-- The imported properties written for a target that is not header-only: the
location is the output file when the kind is `SHARED` and the literal compared
with is the one `st` was set from, and the import library otherwise; the value
of `IMPORTED_IMPLIB` is always the import library. -/
theorem cmake_imported_config_properties (ext : IntegrateExt) (cygwin : Bool) (name st : String)
    (tgt : Target) (out : List CMakeStmt) (hh : tgt.interface.header_only ≠ "true")
    (h : cmake_imported_config ext cygwin name st tgt = .ok out) :
    ∃ upper,
      toCmakeString (ext.configurationType tgt.settings) = .ok upper ∧
      ∀ n ps, CMakeStmt.set_target_properties n ps ∈ out ↔
        n = name ∧ ps =
          [("IMPORTED_LOCATION_" ++ upper,
             fix_path cygwin (ext.normalize_path
               (if ext.same_literal && st == "SHARED" then tgt.interface.output_file
                else tgt.interface.import_library))),
           ("IMPORTED_IMPLIB_" ++ upper,
             fix_path cygwin (ext.normalize_path tgt.interface.import_library))] := by
  unfold cmake_imported_config at h
  dsimp only at h
  cases hc : toCmakeStringCapital (ext.configurationType tgt.settings) with
  | error e => rw [hc] at h; cases h
  | ok capital =>
    rw [hc] at h
    dsimp only at h
    rw [if_pos (by simp [hh])] at h
    cases hu : toCmakeString (ext.configurationType tgt.settings) with
    | error e => rw [hu] at h; cases h
    | ok upper =>
      rw [hu] at h
      cases h
      refine ⟨upper, rfl, ?_⟩
      intro n ps
      simp

/-- C16 (defect in the code). The package `org.demo.s-1.0.0` is a shared library
(kind `SHARED`) whose output file is `/pkg/s/bin/s.dll` and whose import library
is `/pkg/s/lib/s.lib`. In a program whose two `"SHARED"` literals are two
objects, the comparison `st == "SHARED"` of two pointers is false, and the
value written for `IMPORTED_LOCATION_RELEASE` is the import library, not the
output file. -/
theorem C16_imported_location_of_shared_library :
    library_kind targetS.interface = "SHARED" ∧
    cmake_imported_config integrateExt1 false "org.demo.s-1.0.0" (library_kind targetS.interface)
        targetS =
      .ok [.target_compile_definitions "org.demo.s-1.0.0" [], .emptyLines,
           .target_include_directories "org.demo.s-1.0.0" [], .emptyLines,
           .target_link_libraries "org.demo.s-1.0.0" [], .emptyLines,
           .set_property_imported_configurations "org.demo.s-1.0.0" "RELEASE",
           .set_target_properties "org.demo.s-1.0.0"
             [("IMPORTED_LOCATION_RELEASE", "/pkg/s/lib/s.lib"),
              ("IMPORTED_IMPLIB_RELEASE", "/pkg/s/lib/s.lib")],
           .emptyLines] := by
  decide

/-! ## Theorems: driver.h -/

theorem map_insert_comm {K V : Type} [LinearOrder K] (a b : K) (va vb : V) (hab : a ≠ b)
    (z : List (K × V)) :
    map_insert a va (map_insert b vb z) = map_insert b vb (map_insert a va z) := by
  induction z with
  | nil =>
    rcases lt_trichotomy a b with h | h | h
    · simp [map_insert, h, not_lt_of_lt h, hab, Ne.symm hab]
    · exact absurd h hab
    · simp [map_insert, h, not_lt_of_lt h, hab, Ne.symm hab]
  | cons e rest ih =>
    obtain ⟨k0, v0⟩ := e
    have hba : b ≠ a := Ne.symm hab
    rcases lt_trichotomy a k0 with ha | ha | ha <;> rcases lt_trichotomy b k0 with hb | hb | hb <;>
      rcases lt_trichotomy a b with h | h | h <;>
      first
      | exact absurd h hab
      | (subst ha; subst hb; exact absurd rfl hab)
      | (exfalso; exact lt_irrefl _ (lt_trans (lt_trans ha hb) h))
      | (exfalso; exact lt_irrefl _ (lt_trans (lt_trans hb ha) h))
      | (have f1 := not_lt_of_lt h
         simp [map_insert, not_lt_of_lt, ne_of_gt, ne_of_lt, ha, hb, h, hab, hba, f1, ih])

theorem map_insert_keys {K V : Type} [LinearOrder K] (k : K) (v : V) (m : List (K × V)) (x : K) :
    x ∈ (map_insert k v m).map Prod.fst ↔ x = k ∨ x ∈ m.map Prod.fst := by
  induction m with
  | nil => simp [map_insert]
  | cons e rest ih =>
    obtain ⟨k0, v0⟩ := e
    unfold map_insert
    split
    · simp
    · split
      · rename_i heq
        subst heq
        simp
      · simp only [List.map_cons, List.mem_cons, ih]
        tauto

theorem map_insert_sorted {K V : Type} [LinearOrder K] (k : K) (v : V) (m : List (K × V))
    (h : (m.map Prod.fst).Pairwise (fun a b => a < b)) :
    ((map_insert k v m).map Prod.fst).Pairwise (fun a b => a < b) := by
  induction m with
  | nil => simp [map_insert]
  | cons e rest ih =>
    obtain ⟨k0, v0⟩ := e
    simp only [List.map_cons, List.pairwise_cons] at h
    unfold map_insert
    split
    · rename_i hlt
      simp only [List.map_cons, List.pairwise_cons, List.mem_cons]
      refine ⟨?_, h.1, h.2⟩
      intro a ha
      rcases ha with rfl | ha
      · exact hlt
      · exact lt_trans hlt (h.1 a ha)
    · split
      · rename_i heq
        subst heq
        simp only [List.map_cons, List.pairwise_cons]
        exact ⟨h.1, h.2⟩
      · rename_i hnlt hne
        simp only [List.map_cons, List.pairwise_cons]
        refine ⟨?_, ih h.2⟩
        intro a ha
        rcases (map_insert_keys k v rest a).mp ha with rfl | ha
        · exact lt_of_le_of_ne (not_lt.mp hnlt) (fun h2 => hne h2.symm)
        · exact h.1 a ha

theorem map_insert_mem {K V : Type} [LinearOrder K] (k : K) (v : V) (m : List (K × V))
    (e : K × V) (h : e ∈ map_insert k v m) : e = (k, v) ∨ e ∈ m := by
  induction m with
  | nil => simpa [map_insert] using h
  | cons e0 rest ih =>
    obtain ⟨k0, v0⟩ := e0
    unfold map_insert at h
    split at h
    · simpa using h
    · split at h
      · rcases List.mem_cons.mp h with h1 | h1
        · exact Or.inl h1
        · exact Or.inr (List.mem_cons_of_mem _ h1)
      · rcases List.mem_cons.mp h with h1 | h1
        · exact Or.inr (by rw [h1]; exact List.mem_cons_self _ _)
        · rcases ih h1 with h2 | h2
          · exact Or.inl h2
          · exact Or.inr (List.mem_cons_of_mem _ h2)

theorem map_insert_self {K V : Type} [LinearOrder K] (k : K) (v : V) (m : List (K × V)) :
    (k, v) ∈ map_insert k v m := by
  induction m with
  | nil => simp [map_insert]
  | cons e0 rest ih =>
    obtain ⟨k0, v0⟩ := e0
    unfold map_insert
    split
    · simp
    · split
      · simp
      · exact List.mem_cons_of_mem _ ih

theorem map_insert_keeps {K V : Type} [LinearOrder K] (k : K) (v : V) (m : List (K × V))
    (e : K × V) (h : e ∈ m) (hk : e.1 ≠ k) : e ∈ map_insert k v m := by
  induction m with
  | nil => cases h
  | cons e0 rest ih =>
    obtain ⟨k0, v0⟩ := e0
    unfold map_insert
    split
    · exact List.mem_cons_of_mem _ h
    · split
      · rename_i heq
        rcases List.mem_cons.mp h with h1 | h1
        · subst h1
          exact absurd heq.symm hk
        · exact List.mem_cons_of_mem _ h1
      · rcases List.mem_cons.mp h with h1 | h1
        · rw [h1]; exact List.mem_cons_self _ _
        · exact List.mem_cons_of_mem _ (ih h1)

theorem addFiles_from {K : Type} [LinearOrder K] (l : List (K × String)) (sp : Specification K)
    (h : (sp.files.map Prod.fst).Pairwise (fun a b => a < b)) :
    (((l.foldl (fun sp e => sp.addFile e.1 e.2) sp).files.map Prod.fst).Pairwise
      (fun a b => a < b)) ∧
    (∀ e, e ∈ (l.foldl (fun sp e => sp.addFile e.1 e.2) sp).files → e ∈ l ∨ e ∈ sp.files) ∧
    ((l.map Prod.fst).Nodup → ∀ e, e ∈ l →
      e ∈ (l.foldl (fun sp e => sp.addFile e.1 e.2) sp).files) ∧
    (∀ e, e ∈ sp.files → e.1 ∉ l.map Prod.fst →
      e ∈ (l.foldl (fun sp e => sp.addFile e.1 e.2) sp).files) := by
  induction l generalizing sp with
  | nil => simp [h]
  | cons r l ih =>
    obtain ⟨h1, h2, h3, h4⟩ := ih (sp.addFile r.1 r.2) (map_insert_sorted r.1 r.2 sp.files h)
    refine ⟨h1, ?_, ?_, ?_⟩
    · intro e he
      rcases h2 e he with h5 | h5
      · exact Or.inl (List.mem_cons_of_mem _ h5)
      · rcases map_insert_mem _ _ _ _ h5 with h6 | h6
        · exact Or.inl (by rw [h6]; exact List.mem_cons_self _ _)
        · exact Or.inr h6
    · intro hnd e he
      simp only [List.map_cons, List.nodup_cons] at hnd
      rcases List.mem_cons.mp he with h5 | h5
      · subst h5
        exact h4 e (map_insert_self _ _ _) hnd.1
      · exact h3 hnd.2 e h5
    · intro e he hk
      simp only [List.map_cons, List.mem_cons, not_or] at hk
      exact h4 e (map_insert_keeps _ _ _ e he hk.1) hk.2

/-- C11. The hash of a `Specification` does not depend on the order in which its
files were added: for (relative path, contents) pairs with pairwise distinct
paths, `addFile` in any two orders gives the same `files` mapping, whose keys
are in ascending path order and whose entries are exactly the pairs added, and
so the same `getHash`. -/
theorem C11_specification_hash_order {K : Type} [LinearOrder K] (hash : List (K × String) → Int)
    (l1 l2 : List (K × String)) (hperm : l1.Perm l2) (hdistinct : (l1.map Prod.fst).Nodup) :
    (addFiles l1).files = (addFiles l2).files ∧
    ((addFiles l1).files.map Prod.fst).Pairwise (fun a b => a < b) ∧
    (∀ e, e ∈ (addFiles l1).files ↔ e ∈ l1) ∧
    (addFiles l1).getHash hash = (addFiles l2).getHash hash := by
  have hfiles : addFiles l1 = addFiles l2 := by
    unfold addFiles
    apply List.Perm.foldl_eq' hperm
    intro x hx y hy sp
    by_cases hxy : x.1 = y.1
    · have : x = y := by
        have hinj := List.inj_on_of_nodup_map hdistinct
        exact hinj hx hy hxy
      rw [this]
    · simp only [Specification.addFile]
      rw [map_insert_comm y.1 x.1 y.2 x.2 (fun h => hxy h.symm)]
  obtain ⟨h1, h2, h3, _⟩ := addFiles_from l1 (Specification.empty : Specification K) (by
    simp [Specification.empty])
  refine ⟨by rw [hfiles], h1, ?_, by rw [hfiles]⟩
  intro e
  constructor
  · intro he
    rcases h2 e he with h5 | h5
    · exact h5
    · simp [Specification.empty] at h5
  · intro he
    exact h3 hdistinct e he

/-- Witness of C11: the files `sw.cpp` and `include/a.h`, added in the two
possible orders. -/
theorem C11_specification_hash_order_witness :
    (addFiles [("sw.cpp", "build"), ("include/a.h", "int a;")]).files =
      (addFiles [("include/a.h", "int a;"), ("sw.cpp", "build")]).files ∧
    (addFiles [("sw.cpp", "build"), ("include/a.h", "int a;")]).getHash
        (fun files => (files.map (fun e => (e.1.length + e.2.length : Int))).sum) =
      (addFiles [("include/a.h", "int a;"), ("sw.cpp", "build")]).getHash
        (fun files => (files.map (fun e => (e.1.length + e.2.length : Int))).sum) :=
  ⟨(C11_specification_hash_order (fun _ => 0)
      [("sw.cpp", "build"), ("include/a.h", "int a;")]
      [("include/a.h", "int a;"), ("sw.cpp", "build")] (List.Perm.swap _ _ _) (by decide)).1,
   (C11_specification_hash_order
      (fun files => (files.map (fun e => (e.1.length + e.2.length : Int))).sum)
      [("sw.cpp", "build"), ("include/a.h", "int a;")]
      [("include/a.h", "int a;"), ("sw.cpp", "build")] (List.Perm.swap _ _ _) (by decide)).2.2.2⟩

/-! ## Theorems: parseCmd -/

theorem split_regex_no_occurrence (a : String) (h : ¬ ("%20".data <:+: a.data)) :
    split_regex a = [a] := by
  have h2 : ¬ (['%', '2', '0'] <:+: a.data) := h
  simp [split_regex, split_regex_from_no_occurrence [] a.data h2]

theorem parseCmd_options_no_flags (ext : ClientExt) (st : Parsed command_type) (w : World)
    (h : st.flags = []) : parseCmd_options ext st w = .ok w := by
  simp [parseCmd_options, Parsed.matched, h]

/-- C14. When the command positional of `parseCmd` matches a subcommand of the
table, the handler of that subcommand is called, once, with `argv[0]` as program
name and with exactly the tokens that follow the command token (tokens of the
`%20` split, in order, unchanged), and `parseCmd` returns `(true, "")` when the
handler returns; when no command token is present no handler is called and
`parseCmd` returns `(false, help)`. The options before the command are
handled first; if that fails, the failure is the outcome. -/
theorem C14_parseCmd_forwarding (ext : ClientExt) (argv : List String) (w : World) :
    (∀ (st : Parsed command_type) (next : List String) (key : String) (command : command_type),
      ParseArgs parseCmd_flags (MapPositional ext.commands) (parseCmd_args argv) = .ok (st, next) →
      st.positional = some (key, command) →
      (key, command) ∈ ext.commands ∧
      (∃ before, parseCmd_args argv = before ++ key :: next) ∧
      parseCmd ext argv w =
        match parseCmd_options ext st w with
        | .error e => .error e
        | .ok w1 =>
          match command (argv.headD "") next w1 with
          | .error e => .error e
          | .ok w2 => .ok ((true, ""), w2)) ∧
    (∀ (st : Parsed command_type) (next : List String),
      ParseArgs parseCmd_flags (MapPositional ext.commands) (parseCmd_args argv) = .ok (st, next) →
      st.positional = none →
      next = [] ∧
      parseCmd ext argv w =
        match parseCmd_options ext st w with
        | .error e => .error e
        | .ok w1 => .ok ((false, ext.help), w1)) ∧
    (∀ (progname key : String) (rest : List String) (command : command_type),
      argv = progname :: key :: rest →
      key.data.head? ≠ some '-' → ¬ ("%20".data <:+: key.data) →
      (MapPositional ext.commands).lookup key = some command →
      parseCmd ext argv w =
        match command progname (rest.flatMap split_regex) w with
        | .error e => .error e
        | .ok w2 => .ok ((true, ""), w2)) := by
  refine ⟨?_, ?_, ?_⟩
  · intro st next key command hparse hpos
    rcases ParseArgsFrom_kickOut parseCmd_flags (MapPositional ext.commands) rfl
        (parseCmd_args argv) false none Parsed.empty st next rfl hparse
      with ⟨hnone, _⟩ | ⟨before, k, v, hargs, hlookup, hsome⟩
    · rw [hnone] at hpos; cases hpos
    · rw [hsome] at hpos
      cases hpos
      refine ⟨MapPositional_lookup _ _ _ hlookup, ⟨before, hargs⟩, ?_⟩
      simp only [parseCmd, hparse, hsome]
  · intro st next hparse hpos
    rcases ParseArgsFrom_kickOut parseCmd_flags (MapPositional ext.commands) rfl
        (parseCmd_args argv) false none Parsed.empty st next rfl hparse
      with ⟨_, hnext⟩ | ⟨before, k, v, _, _, hsome⟩
    · refine ⟨hnext, ?_⟩
      simp only [parseCmd, hparse, hpos]
    · rw [hsome] at hpos; cases hpos
  · intro progname key rest command hargv hdash hsplit hlookup
    subst hargv
    have hargs : parseCmd_args (progname :: key :: rest) = key :: rest.flatMap split_regex := by
      have h1 := split_regex_no_occurrence key hsplit
      simp [parseCmd_args, foldl_append_flatMap, List.flatMap_cons, h1]
    have hparse : ParseArgs parseCmd_flags (MapPositional ext.commands)
        (parseCmd_args (progname :: key :: rest)) =
        .ok ({ flags := [], positional := some (key, command) }, rest.flatMap split_regex) := by
      rw [hargs]
      simp only [ParseArgs]
      rw [ParseArgsFrom_plain_token parseCmd_flags _ key _ Parsed.empty hdash rfl, hlookup]
      rfl
    have hopt := parseCmd_options_no_flags ext
      ({ flags := [], positional := some (key, command) } : Parsed command_type) w rfl
    simp only [parseCmd, hparse, hopt, List.headD_cons]

/-- Witness of C14: `sw uri sw:remove org.demo.a` calls the subcommand `uri` with
the program name `sw` and the two tokens after `uri`. -/
theorem C14_parseCmd_forwarding_witness :
    parseCmd (clientExt1 conflictingPins) ["sw", "uri", "sw:remove", "org.demo.a"] world0 =
      match cli_uri (clientExt0 conflictingPins) "sw" ["sw:remove", "org.demo.a"] world0 with
      | .error e => .error e
      | .ok w2 => .ok ((true, ""), w2) :=
  (C14_parseCmd_forwarding (clientExt1 conflictingPins) ["sw", "uri", "sw:remove", "org.demo.a"]
    world0).2.2 "sw" "uri" ["sw:remove", "org.demo.a"] (cli_uri (clientExt0 conflictingPins)) rfl
    (by decide) (by decide) rfl

/-! ## Theorems: the waf traversal -/

theorem forEach_terminates {α σ : Type} (Inv : σ → Prop) (body : α → σ → Option (Except Thrown σ))
    (l : List α)
    (hbody : ∀ x ∈ l, ∀ s, Inv s → ∃ r, body x s = some r ∧ ∀ s2, r = .ok s2 → Inv s2) :
    ∀ s, Inv s → ∃ r, forEach body l s = some r ∧ ∀ s2, r = .ok s2 → Inv s2 := by
  induction l with
  | nil =>
    intro s hs
    exact ⟨.ok s, rfl, fun s2 h => by cases h; exact hs⟩
  | cons x xs ih =>
    intro s hs
    obtain ⟨r, hr, hinv⟩ := hbody x (List.mem_cons_self _ _) s hs
    unfold forEach
    rw [hr]
    cases r with
    | error e => exact ⟨.error e, rfl, fun s2 h => by cases h⟩
    | ok s1 =>
      exact ih (fun y hy => hbody y (List.mem_cons_of_mem _ hy)) s1 (hinv s1 rfl)

theorem forEach_mono {α σ : Type} (body1 body2 : α → σ → Option (Except Thrown σ))
    (hb : ∀ x s r, body1 x s = some r → body2 x s = some r) (l : List α) :
    ∀ s r, forEach body1 l s = some r → forEach body2 l s = some r := by
  induction l with
  | nil => intro s r h; simpa [forEach] using h
  | cons x xs ih =>
    intro s r h
    unfold forEach at h ⊢
    cases h1 : body1 x s with
    | none => rw [h1] at h; cases h
    | some r1 =>
      rw [h1] at h
      rw [hb x s r1 h1]
      cases r1 with
      | error e => exact h
      | ok s1 => exact ih s1 r h

theorem process_fuel_succ (ext : IntegrateExt) (b : Build) (fuel : Nat) :
    ∀ (nt : PackageId × TargetSettings) (st : WafState) (r : Except Thrown WafState),
      process ext b fuel nt st = some r → process ext b (fuel + 1) nt st = some r := by
  induction fuel with
  | zero => intro nt st r h; simp [process] at h
  | succ fuel ih =>
    intro nt st r h
    unfold process at h ⊢
    by_cases hv : st.visited.contains nt = true
    · rw [if_pos hv] at h ⊢; exact h
    · rw [if_neg hv] at h ⊢
      dsimp only at h ⊢
      cases hf : b.targets.find nt.1 nt.2 with
      | none => rw [hf] at h; exact h
      | some t =>
        rw [hf] at h
        dsimp only at h ⊢
        refine forEach_mono _ _ ?_ _ _ _ h
        intro kv s r1 h1
        cases hk : ext.toPackageId kv.1 with
        | error e => rw [hk] at h1; exact h1
        | ok k => rw [hk] at h1; exact ih _ _ _ h1

theorem process_fuel_le (ext : IntegrateExt) (b : Build) (fuel fuel2 : Nat) (hle : fuel ≤ fuel2)
    (nt : PackageId × TargetSettings) (st : WafState) (r : Except Thrown WafState)
    (h : process ext b fuel nt st = some r) : process ext b fuel2 nt st = some r := by
  induction hle with
  | refl => exact h
  | step _ ih => exact process_fuel_succ ext b _ nt st r ih

theorem TargetMap_find_mem (m : TargetMap) (pkg : PackageId) (s : TargetSettings) (t : Target)
    (h : m.find pkg s = some t) : ∃ e ∈ m, t ∈ e.2 := by
  unfold TargetMap.find at h
  cases hf : List.find? (fun e => e.1 == pkg) m with
  | none => rw [hf] at h; cases h
  | some e =>
    rw [hf] at h
    dsimp only at h
    exact ⟨e, List.mem_of_find?_eq_some hf, List.getElem?_mem h⟩

theorem link_pairs_mem (ext : IntegrateExt) (b : Build) (e : PackageId × List Target)
    (he : e ∈ b.targets) (t : Target) (ht : t ∈ e.2) (kv : String × TargetSettings)
    (hkv : kv ∈ t.interface.dependencies_link) (k : PackageId)
    (hk : ext.toPackageId kv.1 = .ok k) : (k, kv.2) ∈ link_pairs ext b := by
  simp only [link_pairs, List.mem_flatMap, List.mem_filterMap]
  exact ⟨e, he, t, ht, kv, hkv, by rw [hk]⟩

/-- A larger visited list leaves no more pairs of `L` unvisited. -/
theorem unvisited_le (L visited visited2 : List (PackageId × TargetSettings))
    (h : ∀ x, x ∈ visited → x ∈ visited2) :
    (L.filter (fun x => !visited2.contains x)).length ≤
      (L.filter (fun x => !visited.contains x)).length := by
  induction L with
  | nil => simp
  | cons x xs ih =>
    simp only [List.filter_cons]
    by_cases h2 : visited2.contains x = true
    · simp only [h2, Bool.not_true, Bool.false_eq_true, if_false]
      split
      · simp only [List.length_cons]; omega
      · exact ih
    · have h1 : visited.contains x = false := by
        cases hc : visited.contains x with
        | false => rfl
        | true =>
          exfalso
          apply h2
          have hm : x ∈ visited := by simpa using hc
          simpa using h x hm
      simp only [Bool.not_eq_true] at h2
      simp only [h1, h2, Bool.not_false, if_true, List.length_cons]
      omega

theorem unvisited_lt (L visited : List (PackageId × TargetSettings))
    (nt : PackageId × TargetSettings) (hmem : nt ∈ L) (hnew : visited.contains nt = false) :
    (L.filter (fun x => !(nt :: visited).contains x)).length <
      (L.filter (fun x => !visited.contains x)).length := by
  induction L with
  | nil => cases hmem
  | cons x xs ih =>
    have hle := unvisited_le xs visited (nt :: visited) (fun y hy => List.mem_cons_of_mem _ hy)
    simp only [List.filter_cons]
    by_cases hx : x = nt
    · subst hx
      simp only [List.contains_cons, beq_self_eq_true, Bool.true_or, Bool.not_true,
        Bool.false_eq_true, if_false, hnew, Bool.not_false, if_true, List.length_cons]
      simp only [List.contains_cons] at hle
      omega
    · have hmem2 : nt ∈ xs := by
        rcases List.mem_cons.mp hmem with h | h
        · exact absurd h.symm hx
        · exact h
      have ih2 := ih hmem2
      have hbeq : (x == nt) = false := by simpa using hx
      simp only [List.contains_cons, hbeq, Bool.false_or]
      simp only [List.contains_cons] at ih2
      split
      · simp only [List.length_cons]; omega
      · exact ih2

theorem process_terminates_from (ext : IntegrateExt) (b : Build) (fuel : Nat) :
    ∀ (nt : PackageId × TargetSettings) (st : WafState),
      nt ∈ link_pairs ext b →
      ((link_pairs ext b).filter (fun x => !st.visited.contains x)).length < fuel →
      ∃ r, process ext b fuel nt st = some r ∧
        ∀ st2, r = .ok st2 → ∀ x, x ∈ st.visited → x ∈ st2.visited := by
  induction fuel with
  | zero => intro nt st _ h; omega
  | succ fuel ih =>
    intro nt st hmem hlt
    unfold process
    by_cases hv : st.visited.contains nt = true
    · rw [if_pos hv]
      exact ⟨.ok st, rfl, fun st2 h x hx => by cases h; exact hx⟩
    · rw [if_neg hv]
      dsimp only
      cases hf : b.targets.find nt.1 nt.2 with
      | none => exact ⟨_, rfl, fun st2 h => by cases h⟩
      | some t =>
        dsimp only
        have hnew : st.visited.contains nt = false := by simpa using hv
        have hless := unvisited_lt (link_pairs ext b) st.visited nt hmem hnew
        obtain ⟨e, he, ht⟩ := TargetMap_find_mem _ _ _ _ hf
        obtain ⟨r, hr, hinv⟩ := forEach_terminates
          (fun s : WafState => ∀ x, x ∈ nt :: st.visited → x ∈ s.visited)
          (fun kv st =>
            match ext.toPackageId kv.1 with
            | .error e => some (.error e)
            | .ok k => process ext b fuel (k, kv.2) st)
          t.interface.dependencies_link
          (by
            intro kv hkv s hs
            dsimp only
            cases hk : ext.toPackageId kv.1 with
            | error e => exact ⟨_, rfl, fun s2 h => by cases h⟩
            | ok k =>
              dsimp only
              have hle := unvisited_le (link_pairs ext b) (nt :: st.visited) s.visited hs
              obtain ⟨r, hr, hmono⟩ := ih (k, kv.2) s
                (link_pairs_mem ext b e he t ht kv hkv k hk) (by omega)
              exact ⟨r, hr, fun s2 h x hx => hmono s2 h x (hs x hx)⟩)
          { visited := nt :: st.visited, out := st.out ++ waf_parse_flags ext t.interface }
          (fun x hx => hx)
        exact ⟨r, hr, fun st2 h x hx => hinv st2 h x (List.mem_cons_of_mem _ hx)⟩

theorem process_terminates (ext : IntegrateExt) (b : Build) (start : PackageId × TargetSettings)
    (st : WafState) : ∃ r, process ext b (process_depth ext b) start st = some r := by
  unfold process_depth process
  by_cases hv : st.visited.contains start = true
  · rw [if_pos hv]; exact ⟨_, rfl⟩
  · rw [if_neg hv]
    dsimp only
    cases hf : b.targets.find start.1 start.2 with
    | none => exact ⟨_, rfl⟩
    | some t =>
      dsimp only
      obtain ⟨e, he, ht⟩ := TargetMap_find_mem _ _ _ _ hf
      obtain ⟨r, hr, _⟩ := forEach_terminates
        (fun s : WafState => True)
        (fun kv st =>
          match ext.toPackageId kv.1 with
          | .error e => some (.error e)
          | .ok k => process ext b ((link_pairs ext b).length + 1) (k, kv.2) st)
        t.interface.dependencies_link
        (by
          intro kv hkv s _
          dsimp only
          cases hk : ext.toPackageId kv.1 with
          | error e => exact ⟨_, rfl, fun _ _ => trivial⟩
          | ok k =>
            dsimp only
            obtain ⟨r, hr, _⟩ := process_terminates_from ext b ((link_pairs ext b).length + 1)
              (k, kv.2) s (link_pairs_mem ext b e he t ht kv hkv k hk)
              (Nat.lt_succ_of_le (List.length_filter_le _ _))
            exact ⟨r, hr, fun _ _ => trivial⟩)
        { visited := start :: st.visited, out := st.out ++ waf_parse_flags ext t.interface }
        trivial
      exact ⟨r, hr⟩

theorem process_once (ext : IntegrateExt) (b : Build) (fuel : Nat) :
    ∀ (nt : PackageId × TargetSettings) (st st2 : WafState),
      process ext b fuel nt st = some (.ok st2) →
      (st.visited.Nodup ∧ st.out = st.visited.reverse.flatMap (process_lines ext b)) →
      (st2.visited.Nodup ∧ st2.out = st2.visited.reverse.flatMap (process_lines ext b)) := by
  induction fuel with
  | zero => intro nt st st2 h; simp [process] at h
  | succ fuel ih =>
    intro nt st st2 h hJ
    unfold process at h
    by_cases hv : st.visited.contains nt = true
    · rw [if_pos hv] at h
      cases h
      exact hJ
    · rw [if_neg hv] at h
      dsimp only at h
      cases hf : b.targets.find nt.1 nt.2 with
      | none => rw [hf] at h; cases h
      | some t =>
        rw [hf] at h
        dsimp only at h
        refine forEach_invariant
          (fun s => s.visited.Nodup ∧ s.out = s.visited.reverse.flatMap (process_lines ext b))
          _ ?_ _ _ _ h ?_
        · intro kv s s2 hb hs
          cases hk : ext.toPackageId kv.1 with
          | error e => rw [hk] at hb; cases hb
          | ok k => rw [hk] at hb; exact ih _ _ _ hb hs
        · have hnew : nt ∉ st.visited := by
            intro hmem
            apply hv
            simpa using hmem
          refine ⟨List.nodup_cons.mpr ⟨hnew, hJ.1⟩, ?_⟩
          simp only [List.reverse_cons, List.flatMap_append, List.flatMap_cons, List.flatMap_nil,
            List.append_nil, ← hJ.2]
          simp [process_lines, hf]

/-- C20. For every build and every starting target, the recursive traversal
`process` of the waf emitter over `dependencies.link` ends, also when the link
dependencies form a cycle: from the depth bound `process_depth` on, every bound
gives the same outcome. In a run that ends well no `(PackageId, settings)` pair
is handled twice, and the lines written are those of each handled pair, once,
in the order in which the pairs were met. -/
theorem C20_process_terminates (ext : IntegrateExt) (b : Build)
    (start : PackageId × TargetSettings) :
    ∃ r, (∀ fuel, process_depth ext b ≤ fuel →
        process ext b fuel start { visited := [], out := [] } = some r) ∧
      ∀ st, r = .ok st →
        st.visited.Nodup ∧ st.out = st.visited.reverse.flatMap (process_lines ext b) := by
  obtain ⟨r, hr⟩ := process_terminates ext b start { visited := [], out := [] }
  refine ⟨r, fun fuel hfuel => process_fuel_le ext b _ fuel hfuel _ _ r hr, ?_⟩
  intro st hst
  subst hst
  exact process_once ext b _ start _ st hr ⟨List.nodup_nil, rfl⟩

/-- The two libraries of `buildCycle` link to each other; the traversal from
the first ends, having handled each of the two pairs once. -/
theorem process_cycle_example :
    process integrateExt2 buildCycle (process_depth integrateExt2 buildCycle) (pkgA, settings0)
        { visited := [], out := [] } =
      some (.ok { visited := [(pkgS, settings0), (pkgA, settings0)],
                  out := [.parse_flags "-l/pkg/a/lib/a", .parse_flags "-DA_STATIC=1",
                          .parse_flags "-I/pkg/a/include", .parse_flags "-l/pkg/s/lib/s.lib"] }) := by
  decide

/-! ## Theorems: the subcommands integrate and server -/

theorem create_build_lines_trace (env : IntegrateEnv) (s0 : TargetSettings)
    (configs : List String) :
    ∀ (lines : List String) (tr : List IntegrateEvent) (inputs : List (String × List TargetSettings))
      (tr2 : List IntegrateEvent) (r : Except Fault (List (String × List TargetSettings))),
      create_build_lines env s0 configs lines tr inputs = (tr2, r) →
      ∃ added, tr2 = tr ++ added ∧ ∀ ev ∈ added, ∃ l, l ∈ lines ∧ ev = .addInput l := by
  intro lines
  induction lines with
  | nil =>
    intro tr inputs tr2 r h
    simp only [create_build_lines] at h
    cases h
    exact ⟨[], by simp, by simp⟩
  | cons l ls ih =>
    intro tr inputs tr2 r h
    unfold create_build_lines at h
    by_cases hu : (l.data.any fun c => c.isAlpha && c.isUpper) = true
    · rw [if_pos hu] at h
      cases h
      exact ⟨[], by simp, by simp⟩
    · rw [if_neg hu] at h
      cases ha : env.addInput l with
      | error e =>
        rw [ha] at h
        cases h
        exact ⟨[.addInput l], rfl, by simp⟩
      | ok found =>
        rw [ha] at h
        obtain ⟨added, h1, h2⟩ := ih _ _ _ _ h
        refine ⟨.addInput l :: added, by simp [h1], ?_⟩
        intro ev hev
        rcases List.mem_cons.mp hev with rfl | hev
        · exact ⟨l, by simp, rfl⟩
        · obtain ⟨l2, hl2, rfl⟩ := h2 ev hev
          exact ⟨l2, List.mem_cons_of_mem _ hl2, rfl⟩

theorem create_build_lines_error (env : IntegrateEnv) (s0 : TargetSettings)
    (configs : List String) :
    ∀ (lines : List String) (tr : List IntegrateEvent) (inputs : List (String × List TargetSettings))
      (tr2 : List IntegrateEvent) (f : Fault),
      create_build_lines env s0 configs lines tr inputs = (tr2, .error f) →
      ∃ e, f = .thrown e ∧
        (e = SW_RUNTIME_ERROR "Package name must be in lower case for now. Sorry for inconvenience." ∨
          ∃ l, l ∈ lines ∧ env.addInput l = .error e) := by
  intro lines
  induction lines with
  | nil =>
    intro tr inputs tr2 f h
    simp only [create_build_lines] at h
    cases h
  | cons l ls ih =>
    intro tr inputs tr2 f h
    unfold create_build_lines at h
    by_cases hu : (l.data.any fun c => c.isAlpha && c.isUpper) = true
    · rw [if_pos hu] at h
      cases h
      exact ⟨_, rfl, Or.inl rfl⟩
    · rw [if_neg hu] at h
      cases ha : env.addInput l with
      | error e =>
        rw [ha] at h
        cases h
        exact ⟨e, rfl, Or.inr ⟨l, by simp, ha⟩⟩
      | ok found =>
        rw [ha] at h
        obtain ⟨e, h1, h2⟩ := ih _ _ _ _ h
        refine ⟨e, h1, ?_⟩
        rcases h2 with h2 | ⟨l2, hl2, h2⟩
        · exact Or.inl h2
        · exact Or.inr ⟨l2, List.mem_cons_of_mem _ hl2, h2⟩

/-- How a run of `create_build` can end: the events it adds are calls of
`addInput` on lines; a failure is the read of `settings[0]` of an empty list,
one of its own two errors, or an exception of `addInput` or of the preparation
of the build; a build it returns is one that the preparation gave. -/
theorem create_build_cases (env : IntegrateEnv) (lines configs : List String)
    (tr tr2 : List IntegrateEvent) (r : Except Fault (Bool × Build))
    (h : create_build env lines configs tr = (tr2, r)) :
    (∃ added, tr2 = tr ++ added ∧ ∀ ev ∈ added, ∃ l, l ∈ lines ∧ ev = .addInput l) ∧
    (∀ f, r = .error f →
      (f = .out_of_bounds 0 0 ∧ env.createSettings = []) ∨
      ∃ e, f = .thrown e ∧
        (e = SW_RUNTIME_ERROR "size() must be 1" ∨
         e = SW_RUNTIME_ERROR "Package name must be in lower case for now. Sorry for inconvenience." ∨
         (∃ l, l ∈ lines ∧ env.addInput l = .error e) ∨
         ∃ i, env.prepare i = .error e)) ∧
    (∀ c b, r = .ok (c, b) → ∃ i, env.prepare i = .ok b) := by
  unfold create_build at h
  dsimp only at h
  by_cases hlen : env.createSettings.length > 1
  · rw [if_pos hlen] at h
    cases h
    refine ⟨⟨[], by simp, by simp⟩, ?_, ?_⟩
    · intro f hf
      cases hf
      exact Or.inr ⟨_, rfl, Or.inl rfl⟩
    · intro c b hr
      cases hr
  · rw [if_neg hlen] at h
    cases hs : env.createSettings with
    | nil =>
      rw [hs] at h
      simp only [List.getElem?_nil, List.length_nil] at h
      cases h
      refine ⟨⟨[], by simp, by simp⟩, ?_, ?_⟩
      · intro f hf
        cases hf
        exact Or.inl ⟨rfl, rfl⟩
      · intro c b hr
        cases hr
    | cons s0 rest =>
      rw [hs] at h
      simp only [List.getElem?_cons_zero] at h
      generalize hl : create_build_lines env s0 configs lines tr [] = p at h
      obtain ⟨tr3, r3⟩ := p
      · have htrace := create_build_lines_trace env s0 configs lines tr [] tr3 r3 hl
        cases r3 with
        | error f3 =>
          dsimp only at h
          cases h
          refine ⟨htrace, ?_, ?_⟩
          · intro f hf
            cases hf
            obtain ⟨e, h1, h2⟩ := create_build_lines_error env s0 configs lines tr [] _ _ hl
            refine Or.inr ⟨e, h1, ?_⟩
            rcases h2 with h2 | h2
            · exact Or.inr (Or.inl h2)
            · exact Or.inr (Or.inr (Or.inl h2))
          · intro c b hr
            cases hr
        | ok inputs =>
          dsimp only at h
          cases hp : env.prepare inputs with
          | error e =>
            rw [hp] at h
            cases h
            refine ⟨htrace, ?_, ?_⟩
            · intro f hf
              cases hf
              exact Or.inr ⟨e, rfl, Or.inr (Or.inr (Or.inr ⟨inputs, hp⟩))⟩
            · intro c b hr
              cases hr
          | ok b =>
            rw [hp] at h
            cases h
            refine ⟨htrace, ?_, ?_⟩
            · intro f hf
              cases hf
            · intro c b2 hr
              cases hr
              exact ⟨inputs, hp⟩

/-- C19 (defect in the code). The guard of `create_build` is `settings.size() > 1`:
a list of more than one record gives the error `size() must be 1`, a list of
one record is read at index 0 within its bounds, and the empty list passes the
guard, so that `settings[0]` is read from a list of length 0; no error
`size() must be 1` is raised for it. -/
theorem C19_create_build_settings_index (env : IntegrateEnv) (lines configs : List String)
    (tr : List IntegrateEvent) :
    create_build { env with createSettings := [] } lines configs tr =
        (tr, .error (.out_of_bounds 0 0)) ∧
    (∀ s0 s1 rest, create_build { env with createSettings := s0 :: s1 :: rest } lines configs tr =
        (tr, .error (.thrown (SW_RUNTIME_ERROR "size() must be 1")))) ∧
    (∀ s0 index size, (create_build { env with createSettings := [s0] } lines configs tr).2 ≠
        .error (.out_of_bounds index size)) := by
  refine ⟨rfl, fun s0 s1 rest => ?_, fun s0 index size hr => ?_⟩
  · unfold create_build
    simp
  · have h := (create_build_cases { env with createSettings := [s0] } lines configs tr _ _ rfl).2.1
      _ hr
    rcases h with ⟨_, h⟩ | ⟨e, h, _⟩
    · cases h
    · cases h

/-- The run `envCmake` ends well: it reads the file, adds the one input and
writes `CMakeLists.txt` with the statements `cmake0` next to the file. -/
theorem cli_integrate_envCmake :
    cli_integrate integrateExt0 envCmake 0 =
      some ([.read_lines "deps/sw.txt", .addInput "org.demo.a", .write_cmake "deps" cmake0],
            .ok ()) := by
  decide

/-! ## Theorems: the split at `%20` -/

theorem String_intercalate_go_data (sep : String) (l : List String) (acc : String) :
    (String.intercalate.go acc sep l).data = acc.data ++ l.flatMap (fun a => sep.data ++ a.data) := by
  induction l generalizing acc with
  | nil => simp [String.intercalate.go]
  | cons a l ih => simp [String.intercalate.go, ih, List.flatMap_cons, String.data_append]

/-- Joining the tokens of `split_regex_from` with `%20` gives back the text
collected so far followed by the text still to scan. -/
theorem split_regex_from_join (cur s : List Char) :
    ∃ first more, split_regex_from cur s = first :: more ∧
      first ++ more.flatMap (fun t => ['%', '2', '0'] ++ t) = cur.reverse ++ s := by
  induction cur, s using split_regex_from.induct with
  | case1 cur => exact ⟨cur.reverse, [], by simp [split_regex_from], by simp⟩
  | case2 cur rest ih =>
    obtain ⟨first, more, h1, h2⟩ := ih
    refine ⟨cur.reverse, first :: more, by simp [split_regex_from, h1], ?_⟩
    simp only [List.flatMap_cons, List.append_assoc, h2]
    simp
  | case3 cur c cs hne ih =>
    obtain ⟨first, more, h1, h2⟩ := ih
    refine ⟨first, more, by rw [split_regex_from.eq_3 cur c cs hne, h1], ?_⟩
    rw [h2]
    simp

/-- No token of `split_regex_from` holds `%20`, as long as no occurrence of
`%20` in the whole text starts inside the part collected so far. -/
theorem split_regex_from_tokens (cur s : List Char)
    (h : ∀ pre post, cur.reverse ++ s = pre ++ ['%', '2', '0'] ++ post → cur.length ≤ pre.length) :
    ∀ t ∈ split_regex_from cur s, ¬ (['%', '2', '0'] <:+: t) := by
  induction cur, s using split_regex_from.induct with
  | case1 cur =>
    intro t ht hin
    simp only [split_regex_from, List.mem_singleton] at ht
    subst ht
    obtain ⟨pre, post, hpp⟩ := hin
    have hlen := h pre post (by simp [← hpp])
    have := congrArg List.length hpp
    simp at this
    omega
  | case2 cur rest ih =>
    intro t ht hin
    simp only [split_regex_from, List.mem_cons] at ht
    rcases ht with rfl | ht
    · obtain ⟨pre, post, hpp⟩ := hin
      have hlen := h pre (post ++ '%' :: '2' :: '0' :: rest) (by simp [← hpp])
      have := congrArg List.length hpp
      simp at this
      omega
    · exact ih (fun pre post _ => by simp) t ht hin
  | case3 cur c cs hne ih =>
    rw [split_regex_from.eq_3 cur c cs hne]
    apply ih
    intro pre post hpp
    have hpp2 : cur.reverse ++ c :: cs = pre ++ ['%', '2', '0'] ++ post := by
      simpa using hpp
    have hlen := h pre post hpp2
    simp only [List.length_cons]
    by_contra hlt
    have heq : pre.length = cur.reverse.length := by simp; omega
    have hpp3 : cur.reverse ++ c :: cs = pre ++ (['%', '2', '0'] ++ post) := by
      simpa using hpp2
    have := List.append_inj hpp3 heq.symm
    have h3 : c = '%' ∧ cs = '2' :: '0' :: post := by simpa using this.2
    exact hne post h3.1 h3.2

/-- C24. The split at `%20` in `parseCmd` loses nothing: for every argument,
joining its tokens with the separator `%20` gives back the argument, and no
token holds the sequence `%20`. -/
theorem C24_split_regex_lossless :
    (∀ a : String, "%20".intercalate (split_regex a) = a) ∧
    (∀ a : String, ∀ t ∈ split_regex a, ¬ ("%20".data <:+: t.data)) := by
  refine ⟨?_, ?_⟩
  · intro a
    obtain ⟨first, more, h1, h2⟩ := split_regex_from_join [] a.data
    apply String.ext
    simp only [split_regex, h1, List.map_cons, String.intercalate, String_intercalate_go_data]
    simp only [List.reverse_nil, List.nil_append] at h2
    rw [← h2]
    simp [List.flatMap_map]
  · intro a t ht
    simp only [split_regex, List.mem_map] at ht
    obtain ⟨cs, hcs, rfl⟩ := ht
    exact split_regex_from_tokens [] a.data (fun pre post _ => by simp) cs hcs

/-- Witness of C24: `sw:remove%20org.x-1.0%20` is split into three tokens, none
of which holds `%20`, and joining them gives the argument back. -/
theorem C24_split_regex_lossless_witness :
    split_regex "sw:remove%20org.x-1.0%20" = ["sw:remove", "org.x-1.0", ""] ∧
    "%20".intercalate (split_regex "sw:remove%20org.x-1.0%20") = "sw:remove%20org.x-1.0%20" ∧
    ∀ t ∈ split_regex "sw:remove%20org.x-1.0%20", ¬ ("%20".data <:+: t.data) :=
  ⟨by decide, C24_split_regex_lossless.1 _, C24_split_regex_lossless.2 _⟩

/-! ## Theorems: fix_path -/

theorem fix_path_drive (p0 p2 : Char) (rest : List Char) :
    fix_path true (String.mk (p0 :: ':' :: p2 :: rest)) =
      "/cygdrive/" ++ String.mk [p0.toLower] ++ (if p2 ≠ '/' then "/" else "") ++
        String.mk (p2 :: rest) := by
  apply String.ext
  by_cases h : p2 = '/'
  · simp [fix_path, h, String.data_append]
  · simp [fix_path, h, String.data_append]

theorem fix_path_identity (p : String) (h : p.data.length < 3 ∨ p.data[1]? ≠ some ':') :
    fix_path true p = p := by
  unfold fix_path
  simp only [Bool.not_true, Bool.false_eq_true, if_false]
  match hp : p.data with
  | [] => rfl
  | [_] => rfl
  | [_, _] => rfl
  | p0 :: p1 :: p2 :: rest =>
    rw [hp] at h
    have h1 : p1 ≠ ':' := by
      rcases h with h | h
      · exfalso
        simp only [List.length_cons] at h
        omega
      · simpa using h
    simp [h1]

/-- C22. The lambda `fix_path` returns its argument when the flag `cygwin` is
false, and when it is true but the path has fewer than 3 characters or its
second character is not `:`. For a path `<drive>:<rest>` of at least 3
characters it returns `/cygdrive/`, the lower-cased drive letter, a `/` if the
character after the colon is not `/`, and the path from its third character
on; `C:/x` gives `/cygdrive/c/x`. Such a result is returned unchanged by
`fix_path`. -/
theorem C22_fix_path :
    (∀ p : String, fix_path false p = p) ∧
    (∀ p : String, (p.data.length < 3 ∨ p.data[1]? ≠ some ':') → fix_path true p = p) ∧
    (∀ (p0 p2 : Char) (rest : List Char),
      fix_path true (String.mk (p0 :: ':' :: p2 :: rest)) =
        "/cygdrive/" ++ String.mk [p0.toLower] ++ (if p2 ≠ '/' then "/" else "") ++
          String.mk (p2 :: rest)) ∧
    fix_path true "C:/x" = "/cygdrive/c/x" ∧
    (∀ (cygwin : Bool) (p : String), fix_path cygwin (fix_path cygwin p) = fix_path cygwin p) := by
  refine ⟨fun p => by simp [fix_path], fix_path_identity, fix_path_drive, by decide, ?_⟩
  intro cygwin p
  cases cygwin with
  | false => simp [fix_path]
  | true =>
    by_cases h : p.data.length < 3 ∨ p.data[1]? ≠ some ':'
    · rw [fix_path_identity p h]
      exact fix_path_identity p h
    · have h3 : ¬ p.data.length < 3 := fun h3 => h (Or.inl h3)
      have h1 : p.data[1]? = some ':' := by
        by_contra h1
        exact h (Or.inr h1)
      match hp : p.data with
      | [] => rw [hp] at h3; simp at h3
      | [_] => rw [hp] at h3; simp at h3
      | [_, _] => rw [hp] at h3; simp at h3
      | p0 :: p1 :: p2 :: rest =>
        rw [hp] at h1
        have h2 : p1 = ':' := by simpa using h1
        subst h2
        have hpe : p = String.mk (p0 :: ':' :: p2 :: rest) := String.ext hp
        rw [hpe, fix_path_drive]
        apply fix_path_identity
        right
        by_cases hs : p2 = '/'
        · simp [hs, String.data_append]
        · simp [hs, String.data_append]

/-- Witness of C22: the path `D:data` has no `/` after the colon and gives
`/cygdrive/d/data`, which `fix_path` returns unchanged; without the flag the
path is returned as it is. -/
theorem C22_fix_path_witness :
    fix_path true "D:data" = "/cygdrive/d/data" ∧
    fix_path true (fix_path true "D:data") = fix_path true "D:data" ∧
    fix_path false "D:data" = "D:data" ∧
    fix_path true "ab" = "ab" :=
  ⟨by decide, C22_fix_path.2.2.2.2 true "D:data", C22_fix_path.1 "D:data",
   C22_fix_path.2.1 "ab" (Or.inl (by decide))⟩

/-! ## Theorems: the version of the CMake integration file -/

theorem drop_literal_iff (lit cs rest : List Char) :
    drop_literal lit cs = some rest ↔ cs = lit ++ rest := by
  induction lit generalizing cs with
  | nil => simp [drop_literal, eq_comm]
  | cons p ps ih =>
    cases cs with
    | nil => simp [drop_literal]
    | cons c cs =>
      by_cases hpc : p = c
      · subst hpc
        simp [drop_literal, ih]
      · have hcp : ¬ c = p := fun h => hpc h.symm
        simp [drop_literal, hpc, hcp]

theorem takeWhile_digits (digits after : List Char) (h : ∀ c ∈ digits, c.isDigit = true) :
    (digits ++ ')' :: after).takeWhile Char.isDigit = digits ∧
    (digits ++ ')' :: after).dropWhile Char.isDigit = ')' :: after := by
  induction digits with
  | nil =>
    have h0 : Char.isDigit ')' = false := by decide
    simp [List.takeWhile, List.dropWhile, h0]
  | cons d ds ih =>
    have hd : d.isDigit = true := h d (List.mem_cons_self _ _)
    have ih2 := ih (fun c hc => h c (List.mem_cons_of_mem _ hc))
    simp [List.takeWhile, List.dropWhile, hd, ih2.1, ih2.2]

theorem version_here_iff (digits cs : List Char) :
    version_here digits cs = true ↔
      digits ≠ [] ∧ (∀ c ∈ digits, c.isDigit = true) ∧
        ∃ after, cs = "set(SW_CMAKE_VERSION ".data ++ (digits ++ ')' :: after) := by
  unfold version_here
  simp only [Bool.and_eq_true, Bool.not_eq_true', List.isEmpty_eq_false, List.all_eq_true,
    List.isPrefixOf_iff_prefix]
  constructor
  · rintro ⟨⟨h1, h2⟩, ⟨after, h3⟩⟩
    exact ⟨h1, h2, after, by simp [← h3]⟩
  · rintro ⟨h1, h2, after, h3⟩
    exact ⟨⟨h1, h2⟩, ⟨after, by simp [h3]⟩⟩

/-- The match of the regular expression at the start of a text finds exactly
the text `set(SW_CMAKE_VERSION <digits>)` standing there. -/
theorem regex_match_here_iff (cs digits : List Char) :
    regex_match_here cs = some digits ↔ version_here digits cs = true := by
  rw [version_here_iff]
  unfold regex_match_here
  constructor
  · intro h
    cases hd : drop_literal "set(SW_CMAKE_VERSION ".data cs with
    | none => rw [hd] at h; cases h
    | some rest =>
      rw [hd] at h
      dsimp only at h
      have hcs := (drop_literal_iff _ _ _).mp hd
      by_cases he : (rest.takeWhile Char.isDigit).isEmpty = true
      · rw [if_pos he] at h; cases h
      · rw [if_neg he] at h
        cases hw : rest.dropWhile Char.isDigit with
        | nil => rw [hw] at h; cases h
        | cons c after =>
          rw [hw] at h
          by_cases hc : c = ')'
          · subst hc
            simp only [Option.some.injEq] at h
            subst h
            refine ⟨by simpa using he, fun c hc => (List.mem_takeWhile_imp hc), after, ?_⟩
            rw [hcs, ← hw, List.takeWhile_append_dropWhile]
          · exfalso
            split at h
            · rename_i heq
              simp only [List.cons.injEq] at heq
              exact hc heq.1
            · cases h
  · rintro ⟨h1, h2, after, h3⟩
    have hd := (drop_literal_iff "set(SW_CMAKE_VERSION ".data cs _).mpr h3
    rw [hd]
    dsimp only
    obtain ⟨ht, hw⟩ := takeWhile_digits digits after h2
    rw [ht, hw]
    have he : ¬ digits.isEmpty = true := by simpa using h1
    rw [if_neg he]
    rfl

/-- The call `std::regex_search` finds nothing in a text in which the text
`set(SW_CMAKE_VERSION <digits>)` stands nowhere. -/
theorem regex_search_none (cfg : List Char)
    (h : ∀ before here d, cfg = before ++ here → version_here d here = false) :
    regex_search cfg = none := by
  induction cfg with
  | nil => rfl
  | cons c cs ih =>
    unfold regex_search
    cases hm : regex_match_here (c :: cs) with
    | some digits =>
      have := (regex_match_here_iff _ _).mp hm
      rw [h [] (c :: cs) digits rfl] at this
      cases this
    | none =>
      exact ih (fun before here d hcs => h (c :: before) here d (by simp [hcs]))

/-- The call `std::regex_search` finds the first place at which the text
`set(SW_CMAKE_VERSION <digits>)` stands. -/
theorem regex_search_first (before here digits : List Char)
    (hhere : version_here digits here = true)
    (hfirst : ∀ b1 b2 d, before = b1 ++ b2 → b2 ≠ [] → version_here d (b2 ++ here) = false) :
    regex_search (before ++ here) = some digits := by
  induction before with
  | nil =>
    have hm := (regex_match_here_iff here digits).mpr hhere
    cases here with
    | nil =>
      obtain ⟨_, _, after, h3⟩ := (version_here_iff _ _).mp hhere
      simp at h3
    | cons c cs =>
      simp only [List.nil_append]
      unfold regex_search
      rw [hm]
  | cons b bs ih =>
    simp only [List.cons_append]
    unfold regex_search
    cases hm : regex_match_here (b :: (bs ++ here)) with
    | some d =>
      have := (regex_match_here_iff _ _).mp hm
      have hf := hfirst [] (b :: bs) d rfl (by simp)
      simp only [List.cons_append] at hf
      rw [hf] at this
      cases this
    | none =>
      exact ih (fun b1 b2 d hb hne => hfirst (b :: b1) b2 d (by simp [hb]) hne)

theorem foldl_decimal (digits : List Char) (acc : Nat) :
    digits.foldl (fun n c => 10 * n + (c.toNat - 48)) acc =
      acc * 10 ^ digits.length + decimal_value digits := by
  induction digits generalizing acc with
  | nil => simp [decimal_value]
  | cons d ds ih =>
    have h48 : '0'.toNat = 48 := by decide
    simp only [List.foldl_cons, ih, decimal_value, List.map_cons, List.reverse_cons,
      Nat.ofDigits_append, Nat.ofDigits_singleton, List.length_reverse, List.length_map,
      List.length_cons, h48]
    ring

/-- The call `std::stoi` gives the decimal value of a run of digits that fits
an `int`, and raises `std::out_of_range` otherwise. -/
theorem stoi_value (digits : List Char) :
    stoi digits =
      if decimal_value digits > 2147483647 then .error (.std_exception .other "stoi")
      else .ok (Int.ofNat (decimal_value digits)) := by
  unfold stoi
  simp only [foldl_decimal, Nat.zero_mul, Nat.zero_add]

theorem toCmakeString_error (t : ConfigurationType) (e : Thrown)
    (h : toCmakeString t = .error e) : e = SW_UNIMPLEMENTED := by
  cases t with
  | other n => cases h; rfl
  | _ => cases h

theorem toCmakeStringCapital_error (t : ConfigurationType) (e : Thrown)
    (h : toCmakeStringCapital t = .error e) : e = SW_UNIMPLEMENTED := by
  unfold toCmakeStringCapital at h
  cases ht : toCmakeString t with
  | error e2 =>
    rw [ht] at h
    cases h
    exact toCmakeString_error t _ ht
  | ok s =>
    rw [ht] at h
    dsimp only at h
    split at h <;> cases h

theorem cmake_imported_config_error (ext : IntegrateExt) (cygwin : Bool) (name st : String)
    (tgt : Target) (e : Thrown) (h : cmake_imported_config ext cygwin name st tgt = .error e) :
    e = SW_UNIMPLEMENTED := by
  unfold cmake_imported_config at h
  dsimp only at h
  cases hc : toCmakeStringCapital (ext.configurationType tgt.settings) with
  | error e2 =>
    rw [hc] at h
    cases h
    exact toCmakeStringCapital_error _ _ hc
  | ok capital =>
    rw [hc] at h
    dsimp only at h
    by_cases hh : (tgt.interface.header_only != "true") = true
    · rw [if_pos hh] at h
      cases hu : toCmakeString (ext.configurationType tgt.settings) with
      | error e2 =>
        rw [hu] at h
        cases h
        exact toCmakeString_error _ _ hu
      | ok upper => rw [hu] at h; cases h
    · rw [if_neg hh] at h
      cases h

theorem cmake_imported_configs_error (ext : IntegrateExt) (cygwin : Bool) (name st : String)
    (tgts : List Target) (e : Thrown)
    (h : cmake_imported_configs ext cygwin name st tgts = .error e) : e = SW_UNIMPLEMENTED := by
  induction tgts with
  | nil => cases h
  | cons t ts ih =>
    unfold cmake_imported_configs at h
    cases h1 : cmake_imported_config ext cygwin name st t with
    | error e2 =>
      rw [h1] at h
      cases h
      exact cmake_imported_config_error ext cygwin name st t _ h1
    | ok first =>
      rw [h1] at h
      dsimp only at h
      cases h2 : cmake_imported_configs ext cygwin name st ts with
      | error e2 =>
        rw [h2] at h
        cases h
        exact ih h2
      | ok more => rw [h2] at h; cases h

theorem cmake_targets_error (ext : IntegrateExt) (cygwin : Bool) (b : Build) (m : TargetMap)
    (e : Thrown) (h : cmake_targets ext cygwin b m = .error e) : e = SW_UNIMPLEMENTED := by
  induction m with
  | nil => cases h
  | cons x rest ih =>
    obtain ⟨pkg, tgts⟩ := x
    cases tgts with
    | nil => exact ih (by simpa only [cmake_targets] using h)
    | cons t ts =>
      unfold cmake_targets at h
      by_cases hp : b.predefined.contains pkg = true
      · rw [if_pos hp] at h; exact ih h
      · rw [if_neg hp] at h
        by_cases hx : (t.interface.type == "native_executable") = true
        · rw [if_pos hx] at h; exact ih h
        · rw [if_neg hx] at h
          dsimp only at h
          cases h1 : cmake_imported_configs ext cygwin (pkg2string pkg.toString)
              (library_kind t.interface) (t :: ts) with
          | error e2 =>
            rw [h1] at h
            cases h
            exact cmake_imported_configs_error _ _ _ _ _ _ h1
          | ok configs =>
            rw [h1] at h
            dsimp only at h
            cases h2 : cmake_targets ext cygwin b rest with
            | error e2 =>
              rw [h2] at h
              cases h
              exact ih h2
            | ok more => rw [h2] at h; cases h

/-- An exception out of the CMake emitter is the Unimplemented of `toCmakeString`. -/
theorem integrate_cmake_error (ext : IntegrateExt) (cygwin : Bool) (b : Build) (e : Thrown)
    (h : integrate_cmake ext cygwin b = .error e) : e = SW_UNIMPLEMENTED := by
  unfold integrate_cmake at h
  cases h1 : cmake_targets ext cygwin b b.targets with
  | error e2 =>
    rw [h1] at h
    cases h
    exact cmake_targets_error _ _ _ _ _ h1
  | ok targets => rw [h1] at h; cases h

theorem cli_integrate_cmake_old (ext : IntegrateExt) (env : IntegrateEnv) (v : Int)
    (hv : getSwCmakeConfigVersion env.getCmakeConfig = .ok v)
    (hlt : env.options.cmake_file_version < v) :
    cli_integrate_cmake ext env = ([], .error (.thrown old_cmake_file)) := by
  unfold cli_integrate_cmake
  rw [hv]
  dsimp only
  rw [if_pos hlt]
  rfl

/-- When the version check passes, the CMake branch goes on to read the file
of dependencies; an exception after that is one of `read_lines`, of
`create_build` or of the emitter. -/
theorem cli_integrate_cmake_new (ext : IntegrateExt) (env : IntegrateEnv) (v : Int)
    (hv : getSwCmakeConfigVersion env.getCmakeConfig = .ok v)
    (hge : ¬ env.options.cmake_file_version < v) :
    ∃ tr r, cli_integrate_cmake ext env =
        (.read_lines env.options.integrate_cmake_deps :: tr, r) ∧
      ∀ e, r = .error (.thrown e) →
        e = SW_UNIMPLEMENTED ∨ e = SW_RUNTIME_ERROR "size() must be 1" ∨
        e = SW_RUNTIME_ERROR "Package name must be in lower case for now. Sorry for inconvenience." ∨
        env.read_lines env.options.integrate_cmake_deps = .error e ∨
        (∃ l, env.addInput l = .error e) ∨ ∃ i, env.prepare i = .error e := by
  unfold cli_integrate_cmake
  rw [hv]
  dsimp only
  rw [if_neg hge]
  cases hr : env.read_lines env.options.integrate_cmake_deps with
  | error e2 =>
    refine ⟨[], _, rfl, ?_⟩
    intro e he
    cases he
    exact Or.inr (Or.inr (Or.inr (Or.inl rfl)))
  | ok lines =>
    dsimp only
    generalize hb : create_build env lines
      ["Debug", "MinimalSizeRelease", "ReleaseWithDebugInformation", "Release"]
      [.read_lines env.options.integrate_cmake_deps] = p
    obtain ⟨tr, r⟩ := p
    obtain ⟨⟨added, hadded, _⟩, herr, _⟩ := create_build_cases env _ _ _ _ _ hb
    subst hadded
    cases r with
    | error f =>
      refine ⟨added, _, rfl, ?_⟩
      intro e he
      cases he
      rcases herr _ rfl with ⟨h1, _⟩ | ⟨e2, h1, h2⟩
      · cases h1
      · cases h1
        rcases h2 with h2 | h2 | ⟨l, _, h2⟩ | h2
        · exact Or.inr (Or.inl h2)
        · exact Or.inr (Or.inr (Or.inl h2))
        · exact Or.inr (Or.inr (Or.inr (Or.inr (Or.inl ⟨l, h2⟩))))
        · exact Or.inr (Or.inr (Or.inr (Or.inr (Or.inr h2))))
    | ok cb =>
      obtain ⟨cygwin, b⟩ := cb
      dsimp only
      cases hi : integrate_cmake ext cygwin b with
      | error e2 =>
        refine ⟨added, _, rfl, ?_⟩
        intro e he
        cases he
        exact Or.inl (integrate_cmake_error ext cygwin b _ hi)
      | ok text =>
        refine ⟨added ++
          [IntegrateEvent.write_cmake (env.parent_path env.options.integrate_cmake_deps) text],
          .ok (), rfl, ?_⟩
        intro e he
        cases he

/-- C21. The function `getSwCmakeConfigVersion` returns 0 for a config in which
the text `set(SW_CMAKE_VERSION <digits>)` stands nowhere, and otherwise the
decimal value of the digits at the first place where it stands (the value
being one that an `int` holds). With `integrate_cmake_deps` given, `integrate`
fails with `Old cmake integration file detected` when the option
`cmake_file_version` is less than that value, and then nothing was read or
written; when it is not less, the run goes on to read the file of
dependencies, and that error can only come out of a called function. So the
check fails the run before any event if and only if the option is less than
the value. -/
theorem C21_cmake_version_check :
    (∀ cfg : String,
      (∀ before here d, cfg.data = before ++ here → version_here d here = false) →
      getSwCmakeConfigVersion cfg = .ok 0) ∧
    (∀ (cfg : String) (before here digits : List Char),
      cfg.data = before ++ here → version_here digits here = true →
      (∀ b1 b2 d, before = b1 ++ b2 → b2 ≠ [] → version_here d (b2 ++ here) = false) →
      decimal_value digits ≤ 2147483647 →
      getSwCmakeConfigVersion cfg = .ok (Int.ofNat (decimal_value digits))) ∧
    (∀ (ext : IntegrateExt) (env : IntegrateEnv) (fuel : Nat) (v : Int),
      env.options.integrate_cmake_deps.isEmpty = false →
      getSwCmakeConfigVersion env.getCmakeConfig = .ok v →
      (env.options.cmake_file_version < v →
        cli_integrate ext env fuel = some ([], .error (.thrown old_cmake_file))) ∧
      (¬ env.options.cmake_file_version < v →
        ∃ tr r, cli_integrate ext env fuel =
            some (.read_lines env.options.integrate_cmake_deps :: tr, r) ∧
          (r = .error (.thrown old_cmake_file) →
            env.read_lines env.options.integrate_cmake_deps = .error old_cmake_file ∨
            (∃ l, env.addInput l = .error old_cmake_file) ∨
            ∃ i, env.prepare i = .error old_cmake_file)) ∧
      (cli_integrate ext env fuel = some ([], .error (.thrown old_cmake_file)) ↔
        env.options.cmake_file_version < v)) := by
  refine ⟨?_, ?_, ?_⟩
  · intro cfg h
    unfold getSwCmakeConfigVersion
    rw [regex_search_none cfg.data h]
  · intro cfg before here digits hcfg hhere hfirst hfit
    unfold getSwCmakeConfigVersion
    rw [hcfg, regex_search_first before here digits hhere hfirst]
    dsimp only
    rw [stoi_value, if_neg (by omega)]
  · intro ext env fuel v hc hv
    have hrun : cli_integrate ext env fuel = some (cli_integrate_cmake ext env) := by
      simp [cli_integrate, hc]
    have hnew : ¬ env.options.cmake_file_version < v →
        ∃ tr r, cli_integrate ext env fuel =
            some (.read_lines env.options.integrate_cmake_deps :: tr, r) ∧
          (r = .error (.thrown old_cmake_file) →
            env.read_lines env.options.integrate_cmake_deps = .error old_cmake_file ∨
            (∃ l, env.addInput l = .error old_cmake_file) ∨
            ∃ i, env.prepare i = .error old_cmake_file) := by
      intro hge
      obtain ⟨tr, r, h1, h2⟩ := cli_integrate_cmake_new ext env v hv hge
      refine ⟨tr, r, by rw [hrun, h1], ?_⟩
      intro hr
      rcases h2 _ hr with h | h | h | h | h | h
      · exact absurd h (by decide)
      · exact absurd h (by decide)
      · exact absurd h (by decide)
      · exact Or.inl h
      · exact Or.inr (Or.inl h)
      · exact Or.inr (Or.inr h)
    refine ⟨fun hlt => by rw [hrun, cli_integrate_cmake_old ext env v hv hlt], hnew, ?_⟩
    constructor
    · intro h
      by_contra hge
      obtain ⟨tr, r, h1, _⟩ := hnew hge
      rw [h1] at h
      cases h
    · intro hlt
      rw [hrun, cli_integrate_cmake_old ext env v hv hlt]

/-- Witness of C21: the config of `envCmake` starts with `set(SW_CMAKE_VERSION 1)`,
so its version is 1; the run `envOld`, whose file has version 0, fails at the
check, and the run `envCmake`, whose file has version 1, goes on to read
`deps/sw.txt`. An empty config has version 0. -/
theorem C21_cmake_version_check_witness :
    getSwCmakeConfigVersion "" = .ok 0 ∧
    getSwCmakeConfigVersion envCmake.getCmakeConfig = .ok 1 ∧
    cli_integrate integrateExt0 envOld 0 = some ([], .error (.thrown old_cmake_file)) ∧
    ∃ tr r, cli_integrate integrateExt0 envCmake 0 = some (.read_lines "deps/sw.txt" :: tr, r) :=
  ⟨C21_cmake_version_check.1 "" (fun before here d h => by
      have hh : here = [] := (List.append_eq_nil.mp h.symm).2
      subst hh
      simp [version_here]),
   C21_cmake_version_check.2.1 envCmake.getCmakeConfig [] envCmake.getCmakeConfig.data ['1'] rfl
     (by decide) (fun b1 b2 d h hne => absurd (List.append_eq_nil.mp h.symm).2 hne) (by decide),
   (C21_cmake_version_check.2.2 integrateExt0 envOld 0 1 (by decide) (by decide)).1 (by decide),
   (by
     obtain ⟨tr, r, h, _⟩ :=
       (C21_cmake_version_check.2.2 integrateExt0 envCmake 0 1 (by decide) (by decide)).2.1
         (by decide)
     exact ⟨tr, r, h⟩)⟩

/-- The version of the config `cmakeConfig0` is 7: the incomplete text before
the complete one is passed over, leading zeros do not count, and a later
version is not looked at. -/
theorem getSwCmakeConfigVersion_cmakeConfig0 :
    getSwCmakeConfigVersion cmakeConfig0 = .ok 7 := by
  decide

/-- A version that an `int` does not hold makes `std::stoi` raise
`std::out_of_range`. -/
theorem getSwCmakeConfigVersion_out_of_range :
    getSwCmakeConfigVersion "set(SW_CMAKE_VERSION 2147483648)" =
      .error (.std_exception .other "stoi") := by
  decide

/-! ## Theorems: the lower-case check of create_build -/

theorem isUpper_check_eq (l : String) :
    (l.data.any fun c => c.isAlpha && c.isUpper) = has_upper_case l := by
  unfold has_upper_case
  congr 1
  funext c
  have h1 : (c.isAlpha && c.isUpper) = c.isUpper := by
    unfold Char.isAlpha
    cases c.isUpper <;> simp
  rw [h1, Bool.eq_iff_iff, Char_isUpper_iff]
  simp

/-- The loop over the lines, case by case: all lines pass the check and are
added; or the first line that does not pass has an upper-case letter and is
not added; or `addInput` raises an exception on a line that passed the check. -/
theorem create_build_lines_cases (env : IntegrateEnv) (s0 : TargetSettings)
    (configs : List String) :
    ∀ (lines : List String) (tr : List IntegrateEvent) (inputs : List (String × List TargetSettings)),
      (∃ inputs2, create_build_lines env s0 configs lines tr inputs =
          (tr ++ lines.map IntegrateEvent.addInput, .ok inputs2) ∧
        ∀ x ∈ lines, has_upper_case x = false ∧ ∃ found, env.addInput x = .ok found) ∨
      (∃ pre l post, lines = pre ++ l :: post ∧
        (∀ x ∈ pre, has_upper_case x = false ∧ ∃ found, env.addInput x = .ok found) ∧
        ((has_upper_case l = true ∧
            create_build_lines env s0 configs lines tr inputs =
              (tr ++ pre.map IntegrateEvent.addInput, .error (.thrown lower_case_error))) ∨
          (has_upper_case l = false ∧ ∃ e, env.addInput l = .error e ∧
            create_build_lines env s0 configs lines tr inputs =
              (tr ++ (pre ++ [l]).map IntegrateEvent.addInput, .error (.thrown e))))) := by
  intro lines
  induction lines with
  | nil =>
    intro tr inputs
    exact Or.inl ⟨inputs, by simp [create_build_lines], by simp⟩
  | cons l ls ih =>
    intro tr inputs
    unfold create_build_lines
    rw [isUpper_check_eq]
    cases hu : has_upper_case l with
    | true =>
      simp only [if_true]
      exact Or.inr ⟨[], l, ls, rfl, by simp, Or.inl ⟨hu, by simp [lower_case_error]⟩⟩
    | false =>
      simp only [Bool.false_eq_true, if_false]
      cases ha : env.addInput l with
      | error e =>
        exact Or.inr ⟨[], l, ls, rfl, by simp, Or.inr ⟨hu, e, ha, by simp⟩⟩
      | ok found =>
        dsimp only
        rcases ih (tr ++ [.addInput l])
            (inputs ++ found.map (fun i => (i, input_settings s0 configs))) with
          ⟨inputs2, h1, h2⟩ | ⟨pre, l2, post, h1, h2, h3⟩
        · refine Or.inl ⟨inputs2, by simp [h1], ?_⟩
          intro x hx
          rcases List.mem_cons.mp hx with rfl | hx
          · exact ⟨hu, found, ha⟩
          · exact h2 x hx
        · refine Or.inr ⟨l :: pre, l2, post, by simp [h1], ?_, ?_⟩
          · intro x hx
            rcases List.mem_cons.mp hx with rfl | hx
            · exact ⟨hu, found, ha⟩
            · exact h2 x hx
          · rcases h3 with ⟨h4, h5⟩ | ⟨h4, e, h5, h6⟩
            · exact Or.inl ⟨h4, by simp [h5]⟩
            · exact Or.inr ⟨h4, e, h5, by simp [h6]⟩

/-- Two ways of cutting a list at one of its elements: the element of the
second cut lies before that of the first, or the cuts are the same, or the
element of the first cut lies before that of the second. -/
theorem split_compare {α : Type} (pre pre2 post post2 : List α) (l l2 : α)
    (h : pre ++ l :: post = pre2 ++ l2 :: post2) :
    l2 ∈ pre ∨ (pre = pre2 ∧ l = l2) ∨ l ∈ pre2 := by
  induction pre generalizing pre2 with
  | nil =>
    cases pre2 with
    | nil =>
      simp only [List.nil_append, List.cons.injEq] at h
      exact Or.inr (Or.inl ⟨rfl, h.1⟩)
    | cons y ys =>
      simp only [List.nil_append, List.cons_append, List.cons.injEq] at h
      exact Or.inr (Or.inr (by simp [h.1]))
  | cons x xs ih =>
    cases pre2 with
    | nil =>
      simp only [List.nil_append, List.cons_append, List.cons.injEq] at h
      exact Or.inl (by simp [h.1])
    | cons y ys =>
      simp only [List.cons_append, List.cons.injEq] at h
      rcases ih ys h.2 with h1 | ⟨h1, h2⟩ | h1
      · exact Or.inl (List.mem_cons_of_mem _ h1)
      · exact Or.inr (Or.inl ⟨by rw [h.1, h1], h2⟩)
      · exact Or.inr (Or.inr (List.mem_cons_of_mem _ h1))

/-- C23 (the claim as written fails). The settings list of `envMissing` has one
record and the second line `Org.Demo.A` has upper-case letters, but `addInput`
raises an exception on the first line `org.missing`: `create_build` fails with
that exception, the second line is never checked, and the error about lower
case is not raised. -/
theorem C23_counterexample_earlier_line_fails :
    envMissing.createSettings.length = 1 ∧
    has_upper_case "Org.Demo.A" = true ∧
    create_build envMissing ["org.missing", "Org.Demo.A"] [] [] =
      ([.addInput "org.missing"],
       .error (.thrown (SW_RUNTIME_ERROR "cannot resolve org.missing"))) ∧
    SW_RUNTIME_ERROR "cannot resolve org.missing" ≠ lower_case_error :=
  ⟨by decide, by decide, rfl, by decide⟩

/-- C23 (amended). Let the settings list have one record and let no called
function raise the error about lower case itself. Then `create_build` fails
with `Package name must be in lower case for now. Sorry for inconvenience.` if
and only if some line has an upper-case ASCII letter and every line before the
first such line was added by `addInput` without an exception. The lines are
checked one at a time, each right before it is added: when the error is
raised, the lines before the first line with an upper-case letter have been
added, and that line and the lines after it have not. Lines without any
upper-case letter never give this error. -/
theorem C23_lower_case_check (env : IntegrateEnv) (lines configs : List String)
    (tr : List IntegrateEvent)
    (hlen : env.createSettings.length = 1)
    (hadd : ∀ l, env.addInput l ≠ .error lower_case_error)
    (hprep : ∀ i, env.prepare i ≠ .error lower_case_error) :
    ((∃ tr2, create_build env lines configs tr = (tr2, .error (.thrown lower_case_error))) ↔
      ∃ pre l post, lines = pre ++ l :: post ∧ has_upper_case l = true ∧
        ∀ x ∈ pre, has_upper_case x = false ∧ ∃ found, env.addInput x = .ok found) ∧
    (∀ pre l post, lines = pre ++ l :: post → has_upper_case l = true →
      (∀ x ∈ pre, has_upper_case x = false ∧ ∃ found, env.addInput x = .ok found) →
      create_build env lines configs tr =
        (tr ++ pre.map IntegrateEvent.addInput, .error (.thrown lower_case_error))) ∧
    ((∀ x ∈ lines, has_upper_case x = false) →
      ∀ tr2, create_build env lines configs tr ≠ (tr2, .error (.thrown lower_case_error))) := by
  obtain ⟨s0, hs⟩ : ∃ s0, env.createSettings = [s0] := by
    cases h : env.createSettings with
    | nil => rw [h] at hlen; cases hlen
    | cons s0 rest =>
      cases rest with
      | nil => exact ⟨s0, rfl⟩
      | cons s1 rest2 => rw [h] at hlen; simp at hlen
  have hcb : create_build env lines configs tr =
      match create_build_lines env s0 configs lines tr [] with
      | (tr, .error f) => (tr, .error f)
      | (tr, .ok inputs) =>
        match env.prepare inputs with
        | .error e => (tr, .error (.thrown e))
        | .ok b => (tr, .ok (s0.os_kernel == "org.cygwin", b)) := by
    unfold create_build
    simp [hs]
  have hfwd : ∀ pre l post, lines = pre ++ l :: post → has_upper_case l = true →
      (∀ x ∈ pre, has_upper_case x = false ∧ ∃ found, env.addInput x = .ok found) →
      create_build env lines configs tr =
        (tr ++ pre.map IntegrateEvent.addInput, .error (.thrown lower_case_error)) := by
    intro pre l post hl hu hpre
    rcases create_build_lines_cases env s0 configs lines tr [] with
      ⟨inputs2, _, h2⟩ | ⟨pre2, l2, post2, h1, h2, h3⟩
    · have := (h2 l (by simp [hl])).1
      rw [hu] at this
      cases this
    · rcases split_compare pre pre2 post post2 l l2 (by rw [← hl, ← h1]) with
        h6 | ⟨h6, h7⟩ | h6
      · rcases h3 with ⟨h4, _⟩ | ⟨_, e, h5, _⟩
        · have := (hpre l2 h6).1
          rw [h4] at this
          cases this
        · obtain ⟨found, hf⟩ := (hpre l2 h6).2
          rw [hf] at h5
          cases h5
      · rcases h3 with ⟨_, h5⟩ | ⟨h4, _⟩
        · rw [hcb, h5, h6]
        · rw [← h7, hu] at h4
          cases h4
      · have := (h2 l h6).1
        rw [hu] at this
        cases this
  refine ⟨⟨?_, ?_⟩, hfwd, ?_⟩
  · rintro ⟨tr2, h⟩
    rcases create_build_lines_cases env s0 configs lines tr [] with
      ⟨inputs2, h1, _⟩ | ⟨pre, l, post, h1, h2, h3⟩
    · rw [hcb, h1] at h
      dsimp only at h
      cases hp : env.prepare inputs2 with
      | error e =>
        rw [hp] at h
        simp only [Prod.mk.injEq, Except.error.injEq, Fault.thrown.injEq] at h
        rw [h.2] at hp
        exact absurd hp (hprep _)
      | ok b =>
        rw [hp] at h
        simp at h
    · rcases h3 with ⟨h4, _⟩ | ⟨_, e, h5, h6⟩
      · exact ⟨pre, l, post, h1, h4, h2⟩
      · rw [hcb, h6] at h
        simp only [Prod.mk.injEq, Except.error.injEq, Fault.thrown.injEq] at h
        rw [h.2] at h5
        exact absurd h5 (hadd _)
  · rintro ⟨pre, l, post, h1, h2, h3⟩
    exact ⟨_, hfwd pre l post h1 h2 h3⟩
  · intro hall tr2 h
    rcases create_build_lines_cases env s0 configs lines tr [] with
      ⟨inputs2, h1, _⟩ | ⟨pre, l, post, h1, h2, h3⟩
    · rw [hcb, h1] at h
      dsimp only at h
      cases hp : env.prepare inputs2 with
      | error e =>
        rw [hp] at h
        simp only [Prod.mk.injEq, Except.error.injEq, Fault.thrown.injEq] at h
        rw [h.2] at hp
        exact absurd hp (hprep _)
      | ok b =>
        rw [hp] at h
        simp at h
    · rcases h3 with ⟨h4, _⟩ | ⟨_, e, h5, h6⟩
      · have := hall l (by simp [h1])
        rw [h4] at this
        cases this
      · rw [hcb, h6] at h
        simp only [Prod.mk.injEq, Except.error.injEq, Fault.thrown.injEq] at h
        rw [h.2] at h5
        exact absurd h5 (hadd _)

/-- Witness of C23: in the run `envCmake`, whose settings list has one record,
the lines `org.demo.a`, `Org.Demo.B`, `org.demo.c` give the error after the
first line was added and before the second is; the lines `org.demo.a`,
`org.demo.c` do not give it. -/
theorem C23_lower_case_check_witness :
    create_build envCmake ["org.demo.a", "Org.Demo.B", "org.demo.c"] [] [] =
      ([.addInput "org.demo.a"], .error (.thrown lower_case_error)) ∧
    ∀ tr2, create_build envCmake ["org.demo.a", "org.demo.c"] [] [] ≠
      (tr2, .error (.thrown lower_case_error)) :=
  ⟨(C23_lower_case_check envCmake ["org.demo.a", "Org.Demo.B", "org.demo.c"] [] [] rfl
      (fun l h => by cases h) (fun i h => by cases h)).2.1
      ["org.demo.a"] "Org.Demo.B" ["org.demo.c"] rfl (by decide)
      (fun x hx => by
        simp only [List.mem_singleton] at hx
        subst hx
        exact ⟨by decide, _, rfl⟩),
   (C23_lower_case_check envCmake ["org.demo.a", "org.demo.c"] [] [] rfl
      (fun l h => by cases h) (fun i h => by cases h)).2.2 (by decide)⟩

/-! ## Theorems: the waf emitter and predefined targets -/

theorem forEach_invariant_mem {α σ : Type} (P : σ → Prop)
    (body : α → σ → Option (Except Thrown σ)) (l : List α)
    (hbody : ∀ x ∈ l, ∀ st st2, body x st = some (.ok st2) → P st → P st2) :
    ∀ st st2, forEach body l st = some (.ok st2) → P st → P st2 := by
  induction l with
  | nil =>
    intro st st2 h hP
    simp [forEach] at h
    subst h
    exact hP
  | cons x xs ih =>
    intro st st2 h hP
    unfold forEach at h
    cases hb : body x st with
    | none => rw [hb] at h; cases h
    | some r =>
      cases r with
      | error e => rw [hb] at h; cases h
      | ok st3 =>
        rw [hb] at h
        exact ih (fun y hy => hbody y (List.mem_cons_of_mem _ hy)) st3 st2 h
          (hbody x (List.mem_cons_self _ _) st st3 hb hP)

/-- Every pair that a run of `process` adds to `visited` is reached from the
pair the run was started with through entries of `dependencies.link`. -/
theorem process_reach (ext : IntegrateExt) (b : Build) (fuel : Nat) :
    ∀ (nt : PackageId × TargetSettings) (st st2 : WafState),
      process ext b fuel nt st = some (.ok st2) →
      ∀ x ∈ st2.visited, x ∈ st.visited ∨
        Relation.ReflTransGen (fun p q => links_to ext b p q = true) nt x := by
  induction fuel with
  | zero => intro nt st st2 h; simp [process] at h
  | succ fuel ih =>
    intro nt st st2 h
    unfold process at h
    by_cases hv : st.visited.contains nt = true
    · rw [if_pos hv] at h
      cases h
      exact fun x hx => Or.inl hx
    · rw [if_neg hv] at h
      dsimp only at h
      cases hf : b.targets.find nt.1 nt.2 with
      | none => rw [hf] at h; cases h
      | some t =>
        rw [hf] at h
        dsimp only at h
        refine forEach_invariant_mem
          (fun s => ∀ x ∈ s.visited, x ∈ st.visited ∨
            Relation.ReflTransGen (fun p q => links_to ext b p q = true) nt x)
          _ _ ?_ _ _ h ?_
        · intro kv hkv s s2 hb hs
          cases hk : ext.toPackageId kv.1 with
          | error e => rw [hk] at hb; cases hb
          | ok k =>
            rw [hk] at hb
            have hstep : links_to ext b nt (k, kv.2) = true := by
              unfold links_to
              rw [hf]
              exact List.any_eq_true.mpr ⟨kv, hkv, by simp [hk]⟩
            intro x hx
            rcases ih _ _ _ hb x hx with h1 | h1
            · exact hs x h1
            · exact Or.inr (Relation.ReflTransGen.head hstep h1)
        · intro x hx
          rcases List.mem_cons.mp hx with h1 | h1
          · exact Or.inr (by rw [h1])
          · exact Or.inl h1

/-- The lines of the loop over the targets are the library blocks of the
packages of `waf_libraries`, in order, each with the lines of the run of
`process` from its first target. -/
theorem waf_targets_blocks (ext : IntegrateExt) (fuel : Nat) (b : Build) (m : TargetMap)
    (out : List WafStmt) (h : waf_targets ext fuel b m = some (.ok out)) :
    ∃ states : List WafState,
      states.length = (waf_libraries b m).length ∧
      out = ((waf_libraries b m).zip states).flatMap (fun x => waf_block x.1.1 x.2.out) ∧
      ∀ x ∈ (waf_libraries b m).zip states,
        process ext b fuel (x.1.2.package, x.1.2.settings) { visited := [], out := [] } =
          some (.ok x.2) := by
  induction m generalizing out with
  | nil =>
    simp [waf_targets] at h
    subst h
    exact ⟨[], by simp [waf_libraries], by simp [waf_libraries], by simp [waf_libraries]⟩
  | cons e rest ih =>
    obtain ⟨pkg, tgts⟩ := e
    cases tgts with
    | nil =>
      have hl : waf_libraries b ((pkg, []) :: rest) = waf_libraries b rest := by
        simp [waf_libraries]
      rw [hl]
      exact ih out (by simpa [waf_targets] using h)
    | cons t tgts =>
      unfold waf_targets at h
      by_cases hpre : b.predefined.contains pkg = true
      · rw [if_pos hpre] at h
        have hl : waf_libraries b ((pkg, t :: tgts) :: rest) = waf_libraries b rest := by
          have hc : (b.predefined.contains pkg || t.interface.type == "native_executable") =
              true := by rw [hpre]; rfl
          simp only [waf_libraries, List.filterMap_cons, if_pos hc]
        rw [hl]
        exact ih out h
      · rw [if_neg hpre] at h
        by_cases hexe : (t.interface.type == "native_executable") = true
        · rw [if_pos hexe] at h
          have hl : waf_libraries b ((pkg, t :: tgts) :: rest) = waf_libraries b rest := by
            have hc : (b.predefined.contains pkg || t.interface.type == "native_executable") =
                true := by rw [hexe]; simp
            simp only [waf_libraries, List.filterMap_cons, if_pos hc]
          rw [hl]
          exact ih out h
        · rw [if_neg hexe] at h
          have hl : waf_libraries b ((pkg, t :: tgts) :: rest) =
              (pkg, t) :: waf_libraries b rest := by
            have h1 : b.predefined.contains pkg = false := by simpa using hpre
            have h2 : (t.interface.type == "native_executable") = false := by simpa using hexe
            have hc : ¬ (b.predefined.contains pkg || t.interface.type == "native_executable") =
                true := by rw [h1, h2]; simp
            simp only [waf_libraries, List.filterMap_cons, if_neg hc]
          rw [hl]
          cases hproc : process ext b fuel (t.package, t.settings) { visited := [], out := [] } with
          | none => rw [hproc] at h; cases h
          | some r =>
            cases r with
            | error e => rw [hproc] at h; cases h
            | ok st =>
              rw [hproc] at h
              dsimp only at h
              cases hmore : waf_targets ext fuel b rest with
              | none => rw [hmore] at h; cases h
              | some r2 =>
                cases r2 with
                | error e => rw [hmore] at h; cases h
                | ok more =>
                  rw [hmore] at h
                  simp only [Option.some.injEq, Except.ok.injEq] at h
                  obtain ⟨states, h1, h2, h3⟩ := ih more hmore
                  refine ⟨st :: states, by simp [h1], ?_, ?_⟩
                  · rw [← h, h2]
                    simp only [List.zip_cons_cons, List.flatMap_cons, waf_block,
                      List.append_assoc]
                  · intro x hx
                    simp only [List.zip_cons_cons, List.mem_cons] at hx
                    rcases hx with rfl | hx
                    · exact hproc
                    · exact h3 x hx

theorem waf_libraries_mem (b : Build) (m : TargetMap) (x : PackageId × Target)
    (hx : x ∈ waf_libraries b m) :
    b.predefined.contains x.1 = false ∧ x.2.interface.type ≠ "native_executable" ∧
      ∃ tgts, (x.1, x.2 :: tgts) ∈ m := by
  simp only [waf_libraries, List.mem_filterMap] at hx
  obtain ⟨e, he, hx⟩ := hx
  obtain ⟨pkg, tgts⟩ := e
  cases tgts with
  | nil => cases hx
  | cons t ts =>
    dsimp only at hx
    by_cases hc : (b.predefined.contains pkg || t.interface.type == "native_executable") = true
    · rw [if_pos hc] at hx
      cases hx
    · rw [if_neg hc] at hx
      cases hx
      simp only [Bool.or_eq_true, not_or, Bool.not_eq_true, beq_eq_false_iff_ne] at hc
      exact ⟨hc.1, hc.2, ts, he⟩

/-- C8 (amended). The waf emitter filters predefined targets out as libraries of
their own. The generated `wscript` is the line `def configure(ctx):` followed by
one library block for each package of the target map that has targets, is not
predefined and whose first target is not an executable, in the order of the
map, and by nothing else: no block (header line, `for lib in [...]` list,
flags) is written for a predefined package. In the block of a library the
`ctx.parse_flags` lines are those of the pairs handled by the run of `process`
from its first target, each pair once, in the order handled, and every such
pair is reached from that first target through entries of `dependencies.link`:
the settings of a predefined package give `ctx.parse_flags` lines only where it
is reached in this way from a library that is not predefined. Package ids being
told apart by their lower-case rendering, no header line names a predefined
package. -/
theorem C8_waf_no_block_for_predefined (ext : IntegrateExt) (fuel : Nat) (b : Build)
    (out : List WafStmt) (h : integrate_waf ext fuel b = some (.ok out)) :
    (∃ states : List WafState,
      states.length = (waf_libraries b b.targets).length ∧
      out = .def_configure ::
        ((waf_libraries b b.targets).zip states).flatMap (fun x => waf_block x.1.1 x.2.out) ∧
      ∀ x ∈ (waf_libraries b b.targets).zip states,
        process ext b fuel (x.1.2.package, x.1.2.settings) { visited := [], out := [] } =
          some (.ok x.2) ∧
        x.2.visited.Nodup ∧
        x.2.out = x.2.visited.reverse.flatMap (process_lines ext b) ∧
        ∀ nt ∈ x.2.visited,
          Relation.ReflTransGen (fun p q => links_to ext b p q = true)
            (x.1.2.package, x.1.2.settings) nt) ∧
    (∀ x ∈ waf_libraries b b.targets,
      b.predefined.contains x.1 = false ∧ x.2.interface.type ≠ "native_executable" ∧
        ∃ tgts, (x.1, x.2 :: tgts) ∈ b.targets) ∧
    ((∀ q ∈ b.targets.map Prod.fst, ∀ p ∈ b.predefined.map Prod.fst,
        pkg2string q.toString = pkg2string p.toString → q = p) →
      ∀ p, b.predefined.contains p = true → WafStmt.comment (pkg2string p.toString) ∉ out) := by
  unfold integrate_waf at h
  cases ht : waf_targets ext fuel b b.targets with
  | none => rw [ht] at h; cases h
  | some r =>
    cases r with
    | error e => rw [ht] at h; cases h
    | ok lines =>
      rw [ht] at h
      simp only [Option.some.injEq, Except.ok.injEq] at h
      subst h
      obtain ⟨states, h1, h2, h3⟩ := waf_targets_blocks ext fuel b b.targets lines ht
      refine ⟨⟨states, h1, by rw [h2], ?_⟩, waf_libraries_mem b b.targets, ?_⟩
      · intro x hx
        have hp := h3 x hx
        obtain ⟨hnd, hout⟩ := process_once ext b fuel _ _ _ hp ⟨List.nodup_nil, rfl⟩
        refine ⟨hp, hnd, hout, ?_⟩
        intro nt hnt
        rcases process_reach ext b fuel _ _ _ hp nt hnt with h4 | h4
        · cases h4
        · exact h4
      · intro hinj p hp hmem
        have hpmem := (TargetMap_contains_iff b.predefined p).mp hp
        rcases List.mem_cons.mp hmem with hx | hx
        · cases hx
        · obtain ⟨q, h4, h5, h6⟩ := waf_targets_comment ext fuel b b.targets lines ht _ hx
          have := hinj q h4 p hpmem h6.symm
          subst this
          rw [hp] at h5
          cases h5

/-- Witness of C8 (amended): the `wscript` generated for `build0` has one
library, `org.demo.a-1.0.0`; the predefined `org.sys.p-1.0.0` has no block and
no header line, and it is reached from the library through `dependencies.link`. -/
theorem C8_waf_no_block_for_predefined_witness :
    integrate_waf integrateExt0 5 build0 = some (.ok waf0) ∧
    waf_libraries build0 build0.targets = [(pkgA, targetA)] ∧
    (∃ states : List WafState, states.length = 1 ∧
      waf0 = .def_configure ::
        ((waf_libraries build0 build0.targets).zip states).flatMap
          (fun x => waf_block x.1.1 x.2.out)) ∧
    WafStmt.comment (pkg2string pkgP.toString) ∉ waf0 ∧
    links_to integrateExt0 build0 (pkgA, settings0) (pkgP, settings0) = true :=
  ⟨by decide, by decide,
   (by
     obtain ⟨states, h1, h2, _⟩ :=
       (C8_waf_no_block_for_predefined integrateExt0 5 build0 waf0 (by decide)).1
     exact ⟨states, h1, h2⟩),
   (C8_waf_no_block_for_predefined integrateExt0 5 build0 waf0 (by decide)).2.2 (by decide)
     pkgP (by decide),
   by decide⟩


end Sw
